import Mathlib

/-!
# GDALSimpleSURF: descriptors, extraction, matching and luminosity

A shallow embedding of `src/sources/GDALSimpleSURF.cpp`:
`ConvertRGBToLuminosity`, `ExtractFeaturePoints`, `GetEuclideanDistance`,
`NormalizeDistances`, `SetDescriptor` and `MatchFeaturePoints`.

Conventions of the embedding:

* a C++ `double` is an exact rational (`ℚ`): rounding, infinities and NaN are
  outside the model;
* a C `int` is an `Int`; in `SetDescriptor`, where the sizes grow with the
  scale, every `int` result goes through `wrapInt` (32 bits, modulo 2^32),
  elsewhere the indices stay far from the bounds and are left as they are; a
  counter that starts at 0 and only grows is a `Nat`; `/` between `int`s is the
  truncating `Int.tdiv`; a `double` stored into an `int` is truncated (`toCInt`);
* `sqrt` of the C library is a parameter of every definition that reaches
  `GetEuclideanDistance`; theorems that need it say what they assume of it
  (non-negative results);
* a collection is the list of its points, `GetPoint(i)` is list indexing,
  `GetSize()` is the length;
* a pointer argument that may be `NULL` is an `Option`;
* a `for` loop over `0 .. n-1` is a left fold over `List.range n`; a loop whose
  step is a variable (`r += quadStep`) is `forLoop`, which takes fuel and
  returns `none` when the fuel does not suffice;
* the classes of the raster library and of the octave map are structures that
  hold what this file reads of them.
-/

namespace GDALSimpleSURF

/-! ## Data model -/

/-- Modelled from the spec: the class `GDALFeaturePoint` is declared in a header
that is not among the sources. The fields are those of the spec's data model:
pixel coordinates, a scale that is a `double`, a radius, a sign and the
descriptor, the sequence read by `operator[]`. The coordinates are C `int`s,
the type of the loop indices they are built from (line 100). -/
structure GDALFeaturePoint where
  nX : Int
  nY : Int
  nScale : ℚ
  nRadius : Int
  nSign : Bool
  padfDescriptor : List ℚ
  deriving DecidableEq, Inhabited

/-- Modelled from the spec: `GDALFeaturePoint::DESC_SIZE`, declared in the
missing header; the spec fixes the descriptor length at 64. -/
def DESC_SIZE : Nat := 64

/-- The `operator[]` of a feature point: entry `i` of its descriptor. -/
def GDALFeaturePoint.descAt (p : GDALFeaturePoint) (i : Nat) : ℚ :=
  p.padfDescriptor.getD i 0

/-- `CPLErr`, restricted to the two values the source returns. -/
inductive CPLErr where
  | CE_None
  | CE_Failure
  deriving DecidableEq, Repr

/-- `MatchedPointPairInfo(i, bestIndex, bestDist)`: an index into the outer
collection, an index into the inner collection (a C `int`, it starts at `-1`)
and a distance. -/
structure MatchedPointPairInfo where
  ind_1 : Nat
  ind_2 : Int
  euclideanDist : ℚ
  deriving DecidableEq

/-! ## GetEuclideanDistance (lines 111-120) -/

/-- The sum accumulated by the loop of `GetEuclideanDistance`. -/
def squaredDistance (firstPoint secondPoint : GDALFeaturePoint) : ℚ :=
  (List.range DESC_SIZE).foldl
    (fun sum i => sum + (firstPoint.descAt i - secondPoint.descAt i) * (firstPoint.descAt i - secondPoint.descAt i))
    0

/-- `GDALSimpleSURF::GetEuclideanDistance`. -/
def GetEuclideanDistance (sqrt : ℚ → ℚ) (firstPoint secondPoint : GDALFeaturePoint) : ℚ :=
  sqrt (squaredDistance firstPoint secondPoint)

/-! ## NormalizeDistances (lines 122-136) -/

/-- The first loop of `NormalizeDistances`: `max` starts at `0` and takes every
distance that is strictly greater. -/
def maxDistance (poList : List MatchedPointPairInfo) : ℚ :=
  poList.foldl (fun max i => if i.euclideanDist > max then i.euclideanDist else max) 0

/-- `GDALSimpleSURF::NormalizeDistances`. -/
def NormalizeDistances (poList : List MatchedPointPairInfo) : List MatchedPointPairInfo :=
  let max := maxDistance poList
  if max ≠ 0 then
    poList.map (fun i => { i with euclideanDist := i.euclideanDist / max })
  else
    poList

/-! ## MatchFeaturePoints (lines 198-363) -/

/-- The constant `ratioThreshold` of the source. -/
def ratioThreshold : ℚ := 0.8

/-- The three locals of the outer loop body: `bestDist`, `bestIndex`,
`bestDist_2`. -/
structure BestState where
  bestDist : ℚ
  bestIndex : Int
  bestDist_2 : ℚ
  deriving DecidableEq

/-- The values the three locals start every outer iteration with. -/
def BestState.init : BestState := ⟨-1, -1, -1⟩

/-- The body of the inner loop (lines 280-308) at inner index `j`, for the outer
point `p`. -/
def innerStep (sqrt : ℚ → ℚ) (p : GDALFeaturePoint) (p_2 : List GDALFeaturePoint)
    (alreadyMatched : List Bool) (s : BestState) (j : Nat) : BestState :=
  if alreadyMatched.getD j false = false then
    if p.nSign = (p_2.getD j default).nSign then
      let curDist := GetEuclideanDistance sqrt p (p_2.getD j default)
      let s1 : BestState :=
        if s.bestDist = -1 then
          { s with bestDist := curDist, bestIndex := (j : Int) }
        else if curDist < s.bestDist then
          { s with bestDist := curDist, bestIndex := (j : Int) }
        else s
      if s1.bestDist_2 < 0 then
        { s1 with bestDist_2 := curDist }
      else if curDist > s1.bestDist ∧ curDist < s1.bestDist_2 then
        { s1 with bestDist_2 := curDist }
      else s1
    else s
  else s

/-- The inner loop run over the inner indices `0 .. n-1`. -/
def innerScanUpTo (sqrt : ℚ → ℚ) (p : GDALFeaturePoint) (p_2 : List GDALFeaturePoint)
    (alreadyMatched : List Bool) (n : Nat) : BestState :=
  (List.range n).foldl (innerStep sqrt p p_2 alreadyMatched) BestState.init

/-- The whole inner loop (lines 279-308). -/
def innerScan (sqrt : ℚ → ℚ) (p : GDALFeaturePoint) (p_2 : List GDALFeaturePoint)
    (alreadyMatched : List Bool) : BestState :=
  innerScanUpTo sqrt p p_2 alreadyMatched p_2.length

/-- What the outer loop carries from one iteration to the next: the list
`poPairInfoList` and the flags `alreadyMatched`. -/
structure MatchState where
  pairInfoList : List MatchedPointPairInfo
  alreadyMatched : List Bool
  deriving DecidableEq

/-- The test of the false matching pruning (lines 315-316). -/
def ratioTest (s : BestState) : Prop :=
  (s.bestDist_2 > 0 ∧ s.bestDist ≥ 0) ∧ s.bestDist / s.bestDist_2 < ratioThreshold

instance (s : BestState) : Decidable (ratioTest s) := by
  unfold ratioTest; infer_instance

/-- The body of the outer loop (lines 269-321) at outer index `i`. -/
def outerStep (sqrt : ℚ → ℚ) (p_1 p_2 : List GDALFeaturePoint)
    (st : MatchState) (i : Nat) : MatchState :=
  let s := innerScan sqrt (p_1.getD i default) p_2 st.alreadyMatched
  if ratioTest s then
    { pairInfoList := st.pairInfoList ++ [⟨i, s.bestIndex, s.bestDist⟩],
      alreadyMatched := st.alreadyMatched.set s.bestIndex.toNat true }
  else st

/-- The state before the outer loop: an empty list and `len_2` flags, all
false (lines 260-266). -/
def MatchState.init (p_2 : List GDALFeaturePoint) : MatchState :=
  ⟨[], List.replicate p_2.length false⟩

/-- The outer loop run over the outer indices `0 .. n-1`. -/
def matchLoopUpTo (sqrt : ℚ → ℚ) (p_1 p_2 : List GDALFeaturePoint) (n : Nat) : MatchState :=
  (List.range n).foldl (outerStep sqrt p_1 p_2) (MatchState.init p_2)

/-- The whole outer loop (lines 268-322): the tentative matches. -/
def tentativeMatches (sqrt : ℚ → ℚ) (p_1 p_2 : List GDALFeaturePoint) :
    List MatchedPointPairInfo :=
  (matchLoopUpTo sqrt p_1 p_2 p_1.length).pairInfoList

/-- The orientation chosen at lines 227-256: `p_1`, `p_2` and `isSwap`. -/
structure Orientation where
  p_1 : List GDALFeaturePoint
  p_2 : List GDALFeaturePoint
  isSwap : Bool
  deriving DecidableEq

/-- Lines 227-256: `p_1` is the second collection when `minLength == len_2`. -/
def orient (first second : List GDALFeaturePoint) : Orientation :=
  let len_1 := first.length
  let len_2 := second.length
  let minLength := if len_1 < len_2 then len_1 else len_2
  if minLength = len_2 then ⟨second, first, true⟩ else ⟨first, second, false⟩

/-- The test of line 334 applied along a list: the triples whose distance is
`<= dfThreshold`, in list order. -/
def finalFilter (dfThreshold : ℚ) (poList : List MatchedPointPairInfo) :
    List MatchedPointPairInfo :=
  poList.filter (fun m => decide (m.euclideanDist ≤ dfThreshold))

/-- The triples of one call that pass the test of line 334, in list order. -/
def emittedInfos (sqrt : ℚ → ℚ) (p_1 p_2 : List GDALFeaturePoint) (dfThreshold : ℚ) :
    List MatchedPointPairInfo :=
  finalFilter dfThreshold (NormalizeDistances (tentativeMatches sqrt p_1 p_2))

/-- Lines 336-355: the pair of copies added for one surviving triple. -/
def toPair (o : Orientation) (m : MatchedPointPairInfo) : GDALFeaturePoint × GDALFeaturePoint :=
  let poPoint_1 := o.p_1.getD m.ind_1 default
  let poPoint_2 := o.p_2.getD m.ind_2.toNat default
  if o.isSwap = false then (poPoint_1, poPoint_2) else (poPoint_2, poPoint_1)

/-- The pairs one call appends to the matched collection. -/
def emittedPairs (sqrt : ℚ → ℚ) (first second : List GDALFeaturePoint) (dfThreshold : ℚ) :
    List (GDALFeaturePoint × GDALFeaturePoint) :=
  let o := orient first second
  (emittedInfos sqrt o.p_1 o.p_2 dfThreshold).map (toPair o)

/-- `GDALSimpleSURF::MatchFeaturePoints`: the status returned and the matched
collection after the call (`none` when the pointer was `NULL`). -/
def MatchFeaturePoints (sqrt : ℚ → ℚ)
    (poMatched : Option (List (GDALFeaturePoint × GDALFeaturePoint)))
    (poFirstCollect poSecondCollect : Option (List GDALFeaturePoint))
    (dfThreshold : ℚ) :
    CPLErr × Option (List (GDALFeaturePoint × GDALFeaturePoint)) :=
  match poMatched with
  | none => (CPLErr.CE_Failure, none)
  | some matched =>
    match poFirstCollect, poSecondCollect with
    | some first, some second =>
      (CPLErr.CE_None, some (matched ++ emittedPairs sqrt first second dfThreshold))
    | _, _ => (CPLErr.CE_Failure, some matched)

/-! ## Concrete inputs -/

/-- Integer square root by search: the largest `k` with `k * k ≤ n`. -/
def isqrt (n : Nat) : Nat :=
  (List.range (n + 1)).foldl (fun r k => if k * k ≤ n then k else r) 0

/-- A square root for the concrete inputs below: exact on the squares of
non-negative rationals, and never negative. -/
def sqrtExact (q : ℚ) : ℚ := (isqrt q.num.toNat : ℚ) / (isqrt q.den : ℚ)

/-- A point whose descriptor is `x` followed by 63 zeros; two such points with
first entries `x` and `y` are at Euclidean distance `|x - y|`. -/
def pointAt (sign : Bool) (x : ℚ) : GDALFeaturePoint :=
  ⟨0, 0, 1, 1, sign, x :: List.replicate 63 0⟩

/-- Two outer points at 0 and 1 on the first descriptor axis. -/
def exampleOuter : List GDALFeaturePoint := [pointAt true 0, pointAt true 1]

/-- Three inner points at 10, 2 and 7: the point at 2 is the nearest inner point
of both outer points of `exampleOuter`. -/
def exampleInner : List GDALFeaturePoint := [pointAt true 10, pointAt true 2, pointAt true 7]

/-- Two points at 5 and 1 on the first descriptor axis. -/
def tiedSizeA : List GDALFeaturePoint := [pointAt true 5, pointAt true 1]

/-- Two points at 0 and -2 on the first descriptor axis; the six distances
among the points of `tiedSizeA` and `tiedSizeB` are 1, 2, 3, 4, 5, 7. -/
def tiedSizeB : List GDALFeaturePoint := [pointAt true 0, pointAt true (-2)]

/-! ## The candidates of one inner scan -/

/-- The inner index `j` is a candidate for the outer point `p`: it is not
flagged in `alreadyMatched` and its point has the sign of `p`. -/
def isCandidate (p : GDALFeaturePoint) (p_2 : List GDALFeaturePoint)
    (alreadyMatched : List Bool) (j : Nat) : Prop :=
  alreadyMatched.getD j false = false ∧ p.nSign = (p_2.getD j default).nSign

instance (p : GDALFeaturePoint) (p_2 : List GDALFeaturePoint) (alreadyMatched : List Bool)
    (j : Nat) : Decidable (isCandidate p p_2 alreadyMatched j) := by
  unfold isCandidate; infer_instance

/-- The distance from the outer point `p` to the inner point of index `j`. -/
def distTo (sqrt : ℚ → ℚ) (p : GDALFeaturePoint) (p_2 : List GDALFeaturePoint) (j : Nat) : ℚ :=
  GetEuclideanDistance sqrt p (p_2.getD j default)

/-- The invariant of the outer loop after the outer indices `0 .. n-1`. -/
structure LoopInv (p_1 p_2 : List GDALFeaturePoint) (n : Nat) (st : MatchState) : Prop where
  len : st.alreadyMatched.length = p_2.length
  bound : ∀ m ∈ st.pairInfoList, m.ind_1 < n ∧ ∃ j : Nat, m.ind_2 = (j : Int) ∧
    j < p_2.length ∧ st.alreadyMatched.getD j false = true ∧
    (p_1.getD m.ind_1 default).nSign = (p_2.getD j default).nSign
  flagged : ∀ j : Nat, st.alreadyMatched.getD j false = true →
    ∃ m ∈ st.pairInfoList, m.ind_2 = (j : Int)
  asc : (st.pairInfoList.map MatchedPointPairInfo.ind_1).Pairwise (fun a b => a < b)
  nodup : (st.pairInfoList.map MatchedPointPairInfo.ind_2).Nodup

/-- The locals at the end of the inner loop of outer iteration `i`. -/
def scanAt (sqrt : ℚ → ℚ) (p_1 p_2 : List GDALFeaturePoint) (i : Nat) : BestState :=
  innerScan sqrt (p_1.getD i default) p_2 (matchLoopUpTo sqrt p_1 p_2 i).alreadyMatched

/-- The inner index `j` is open to the outer index `i`: it is in range, its
point has the sign of the outer point, and it is not the inner index of a
tentative match of an outer index smaller than `i`. -/
def eligible (sqrt : ℚ → ℚ) (p_1 p_2 : List GDALFeaturePoint) (i j : Nat) : Prop :=
  j < p_2.length ∧ (p_1.getD i default).nSign = (p_2.getD j default).nSign ∧
    ∀ m ∈ tentativeMatches sqrt p_1 p_2, m.ind_1 < i → m.ind_2 ≠ (j : Int)

instance (sqrt : ℚ → ℚ) (p_1 p_2 : List GDALFeaturePoint) (i j : Nat) :
    Decidable (eligible sqrt p_1 p_2 i j) := by
  unfold eligible; infer_instance

/-- The number of candidates of the inner scan of the outer point `p`: the
inner indices in range that are not flagged and whose point has the sign of
`p`. -/
def candidateCount (p : GDALFeaturePoint) (p_2 : List GDALFeaturePoint)
    (alreadyMatched : List Bool) : Nat :=
  ((List.range p_2.length).filter
    (fun j => decide (isCandidate p p_2 alreadyMatched j))).length

/-! ## SetDescriptor (lines 138-196) -/

/-- Modelled from the spec: the class `GDALIntegralImage` is an external
collaborator; of it `SetDescriptor` uses the two Haar responses
`HaarWavelet_X(row, col, size)` and `HaarWavelet_Y(row, col, size)`. -/
structure GDALIntegralImage where
  HaarWavelet_X : Int → Int → Int → ℚ
  HaarWavelet_Y : Int → Int → Int → ℚ

/-- The least value of a C `int` of 32 bits. -/
def INT_MIN : Int := -2147483648

/-- The greatest value of a C `int` of 32 bits. -/
def INT_MAX : Int := 2147483647

/-- An integer result brought back into the range of a C `int`: the value
modulo 2^32 that lies between `INT_MIN` and `INT_MAX`. -/
def wrapInt (x : Int) : Int := (x + 2147483648) % 4294967296 - 2147483648

/-- A `double` stored into an `int` local (`int n = d`): truncated toward zero,
and brought into the range of `int` by `wrapInt` when it lies outside (where a
product of `int`s of the same value would wrap to). -/
def toCInt (d : ℚ) : Int := wrapInt (d.num.tdiv (d.den : Int))

/-- The C loop `for (i = start; i < stop; i += step) body` on `int`s, with a
body that may itself not return. `fuel` bounds the number of times the loop
condition is tested; `none` says that the loop has not returned within the
fuel. -/
def forLoop {σ : Type} : Nat → Int → Int → Int → (σ → Int → Option σ) → σ → Option σ
  | 0, _, _, _, _, _ => none
  | fuel + 1, i, stop, step, body, st =>
    if i < stop then
      match body st i with
      | some st1 => forLoop fuel (wrapInt (i + step)) stop step body st1
      | none => none
    else some st

/-- The four accumulators of one quadrant: `dx`, `dy`, `abs_dx`, `abs_dy`. -/
structure QuadSums where
  dx : ℚ
  dy : ℚ
  abs_dx : ℚ
  abs_dy : ℚ
  deriving DecidableEq

/-- The body of the innermost loop (lines 172-187) at `(sub_r, sub_c)`, without
the loop around it. -/
def sampleAdd (poImg : GDALIntegralImage) (haarFilterSize subQuadStep sub_r : Int)
    (acc : QuadSums) (sub_c : Int) : QuadSums :=
  let cntr_r := wrapInt (sub_r + subQuadStep.tdiv 2)
  let cntr_c := wrapInt (sub_c + subQuadStep.tdiv 2)
  let cur_r := wrapInt (cntr_r - haarFilterSize.tdiv 2)
  let cur_c := wrapInt (cntr_c - haarFilterSize.tdiv 2)
  let cur_dx := poImg.HaarWavelet_X cur_r cur_c haarFilterSize
  let cur_dy := poImg.HaarWavelet_Y cur_r cur_c haarFilterSize
  ⟨acc.dx + cur_dx, acc.dy + cur_dy, acc.abs_dx + |cur_dx|, acc.abs_dy + |cur_dy|⟩

/-- The two loops over `sub_r` and `sub_c` (lines 169-188) of the quadrant whose
corner is `(r, c)`, started from zeroed accumulators. -/
def quadrantLoops (fuel : Nat) (poImg : GDALIntegralImage)
    (haarFilterSize quadStep subQuadStep r c : Int) : Option QuadSums :=
  forLoop fuel r (wrapInt (r + quadStep)) subQuadStep
    (fun acc sub_r => forLoop fuel c (wrapInt (c + quadStep)) subQuadStep
      (fun acc1 sub_c => some (sampleAdd poImg haarFilterSize subQuadStep sub_r acc1 sub_c)) acc)
    ⟨0, 0, 0, 0⟩

/-- The counter `count` and the writes `(*poPoint)[count++] = v` made so far,
each as (index, value), oldest first. -/
structure DescState where
  count : Nat
  writes : List (Nat × ℚ)
  deriving DecidableEq

/-- Lines 191-194: the four writes that end a quadrant. -/
def fillQuadrant (st : DescState) (q : QuadSums) : DescState :=
  ⟨st.count + 4, st.writes ++
    [(st.count, q.dx), (st.count + 1, q.dy), (st.count + 2, q.abs_dx), (st.count + 3, q.abs_dy)]⟩

/-- The body of the loop over `c` (lines 163-195) in the row of quadrants `r`. -/
def quadrantBody (fuel : Nat) (poImg : GDALIntegralImage)
    (haarFilterSize quadStep subQuadStep r : Int) (st : DescState) (c : Int) :
    Option DescState :=
  match quadrantLoops fuel poImg haarFilterSize quadStep subQuadStep r c with
  | some q => some (fillQuadrant st q)
  | none => none

/-- `GDALSimpleSURF::SetDescriptor` as the sequence of its descriptor writes.
The scale is a `double`; `2 * scale` and `20 * scale` are stored into `int`
locals (lines 145-148). Every loop gets the fuel `fuel`. -/
def SetDescriptorWrites (fuel : Nat) (poImg : GDALIntegralImage)
    (poPoint : GDALFeaturePoint) : Option DescState :=
  let haarScale : ℚ := 20
  let haarFilterSize : Int := toCInt (2 * poPoint.nScale)
  let descSide : Int := toCInt (haarScale * poPoint.nScale)
  let quadStep : Int := descSide.tdiv 4
  let subQuadStep : Int := quadStep.tdiv 5
  let leftTop_row : Int := wrapInt (poPoint.nY - descSide.tdiv 2)
  let leftTop_col : Int := wrapInt (poPoint.nX - descSide.tdiv 2)
  forLoop fuel leftTop_row (wrapInt (leftTop_row + descSide)) quadStep
    (fun st r => forLoop fuel leftTop_col (wrapInt (leftTop_col + descSide)) quadStep
      (quadrantBody fuel poImg haarFilterSize quadStep subQuadStep r) st)
    ⟨0, []⟩

/-- The descriptor after a sequence of writes that all fall inside it. -/
def applyWrites (padfDescriptor : List ℚ) (writes : List (Nat × ℚ)) : List ℚ :=
  writes.foldl (fun d w => d.set w.1 w.2) padfDescriptor

/-- `GDALSimpleSURF::SetDescriptor`: the point after the call. `none` when the
call does not return within the fuel, and when it writes past the end of the
descriptor, the effect of which the sources do not define (`operator[]` is
declared in the missing header). -/
def SetDescriptor (fuel : Nat) (poImg : GDALIntegralImage) (poPoint : GDALFeaturePoint) :
    Option GDALFeaturePoint :=
  match SetDescriptorWrites fuel poImg poPoint with
  | some st =>
    if st.count ≤ poPoint.padfDescriptor.length then
      some { poPoint with padfDescriptor := applyWrites poPoint.padfDescriptor st.writes }
    else none
  | none => none

/-- The feature points on which the loops of `SetDescriptor` run as laid out:
the scale is a whole number `s` with `0 < s`, the window side `20 * s` is an
`int`, and so are the rows and columns the call computes, which lie between
`nY - 11 * s` and `nY + 10 * s`, and `nX - 11 * s` and `nX + 10 * s`. -/
def regularPoint (poPoint : GDALFeaturePoint) : Prop :=
  poPoint.nScale.den = 1 ∧ 0 < poPoint.nScale.num ∧ 20 * poPoint.nScale.num ≤ INT_MAX ∧
    INT_MIN ≤ poPoint.nY - 11 * poPoint.nScale.num ∧
    poPoint.nY + 10 * poPoint.nScale.num ≤ INT_MAX ∧
    INT_MIN ≤ poPoint.nX - 11 * poPoint.nScale.num ∧
    poPoint.nX + 10 * poPoint.nScale.num ≤ INT_MAX

instance (poPoint : GDALFeaturePoint) : Decidable (regularPoint poPoint) := by
  unfold regularPoint; infer_instance

/-- The feature points on which `SetDescriptor` walks a 4 by 4 grid of
quadrants: the window side `(int)(20 * scale)` is at least 20, so that both
steps are positive, and a multiple of 4, so that 4 quadrant steps span it, and
the rows and columns `nY - side .. nY + side`, `nX - side .. nX + side` are
within the range of `int`. -/
def alignedPoint (poPoint : GDALFeaturePoint) : Prop :=
  20 ≤ toCInt (20 * poPoint.nScale) ∧ toCInt (20 * poPoint.nScale) % 4 = 0 ∧
    INT_MIN ≤ poPoint.nY - toCInt (20 * poPoint.nScale) ∧
    poPoint.nY + toCInt (20 * poPoint.nScale) ≤ INT_MAX ∧
    INT_MIN ≤ poPoint.nX - toCInt (20 * poPoint.nScale) ∧
    poPoint.nX + toCInt (20 * poPoint.nScale) ≤ INT_MAX

instance (poPoint : GDALFeaturePoint) : Decidable (alignedPoint poPoint) := by
  unfold alignedPoint; infer_instance

/-- The absolute sums of a quadrant bound its signed sums:
`abs_dx >= |dx|` and `abs_dy >= |dy|`. -/
def dominated (s : QuadSums) : Prop := |s.dx| ≤ s.abs_dx ∧ |s.dy| ≤ s.abs_dy

/-- The writes of a sequence of quadrants, the first of which is quadrant number
`n`: quadrant `q` fills the indices `4q .. 4q+3` with `dx`, `dy`, `abs_dx`,
`abs_dy`. -/
def layoutFrom : Nat → List QuadSums → List (Nat × ℚ)
  | _, [] => []
  | n, s :: rest =>
    [(4 * n, s.dx), (4 * n + 1, s.dy), (4 * n + 2, s.abs_dx), (4 * n + 3, s.abs_dy)] ++
      layoutFrom (n + 1) rest

/-! ### The descriptor layout in the words of the specification -/

/-- The 25 samples of a quadrant: a 5 by 5 grid of (row, column) steps, row by
row. -/
def sampleGrid : List (Nat × Nat) :=
  (List.range 5).flatMap (fun a => (List.range 5).map (fun b => (a, b)))

/-- The Haar responses `(dx, dy)` at the sample `ab` of the quadrant number
`q` (row `q / 4`, column `q % 4` of the 4 by 4 grid) of a point whose scale is
the whole number `s`: filter size `2 * s`, window side `20 * s` centred on the
point, quadrant step `(20 * s) / 4`, sampling step `((20 * s) / 4) / 5`. -/
def specHaar (poImg : GDALIntegralImage) (poPoint : GDALFeaturePoint) (q : Nat)
    (ab : Nat × Nat) : ℚ × ℚ :=
  let s := poPoint.nScale.num
  let filterSize := 2 * s
  let side := 20 * s
  let quadStep := side / 4
  let sampleStep := quadStep / 5
  let row := poPoint.nY - side / 2 + ((q / 4 : Nat) : Int) * quadStep +
    (ab.1 : Int) * sampleStep + sampleStep / 2 - filterSize / 2
  let col := poPoint.nX - side / 2 + ((q % 4 : Nat) : Int) * quadStep +
    (ab.2 : Int) * sampleStep + sampleStep / 2 - filterSize / 2
  (poImg.HaarWavelet_X row col filterSize, poImg.HaarWavelet_Y row col filterSize)

/-- The four sums of the quadrant number `q` over its 25 samples. -/
def specQuadrant (poImg : GDALIntegralImage) (poPoint : GDALFeaturePoint) (q : Nat) :
    QuadSums :=
  ⟨(sampleGrid.map (fun ab => (specHaar poImg poPoint q ab).1)).sum,
   (sampleGrid.map (fun ab => (specHaar poImg poPoint q ab).2)).sum,
   (sampleGrid.map (fun ab => |(specHaar poImg poPoint q ab).1|)).sum,
   (sampleGrid.map (fun ab => |(specHaar poImg poPoint q ab).2|)).sum⟩

/-- The 64 writes in the words of the specification: quadrant `q = 0 .. 15`
fills the indices `4q .. 4q+3` with its four sums. -/
def specDescriptorWrites (poImg : GDALIntegralImage) (poPoint : GDALFeaturePoint) :
    List (Nat × ℚ) :=
  (List.range 16).flatMap (fun q =>
    [(4 * q, (specQuadrant poImg poPoint q).dx), (4 * q + 1, (specQuadrant poImg poPoint q).dy),
     (4 * q + 2, (specQuadrant poImg poPoint q).abs_dx),
     (4 * q + 3, (specQuadrant poImg poPoint q).abs_dy)])

/-- An integral image for the concrete inputs: the responses are
`row + 2 * col` and `row - col`. -/
def exampleImage : GDALIntegralImage :=
  ⟨fun row col _ => (row : ℚ) + 2 * (col : ℚ), fun row col _ => (row : ℚ) - (col : ℚ)⟩

/-- An integral image whose responses are 1 everywhere: the sums of a quadrant
count its samples. -/
def unitImage : GDALIntegralImage := ⟨fun _ _ _ => 1, fun _ _ _ => 1⟩

/-- A feature point at `(x, y) = (40, 30)` of scale `scale` with a zeroed
descriptor of 64 entries. -/
def pointOfScale (scale : ℚ) : GDALFeaturePoint :=
  ⟨40, 30, scale, 3, true, List.replicate 64 0⟩

/-- A feature point at `(x, y) = (40, 30)` of scale 2 with a zeroed descriptor
of 64 entries. -/
def examplePoint : GDALFeaturePoint := pointOfScale 2

/-- A feature point of scale 1 in the last row an `int` can number. -/
def edgePoint : GDALFeaturePoint := ⟨40, 2147483647, 1, 3, true, List.replicate 64 0⟩

/-- The sums of the quadrant at `(r, c)` when both sample loops run 5 times with
the step `s`: what `quadrantLoops` returns on a regular point. -/
def quadrantSums (poImg : GDALIntegralImage) (haarFilterSize s r c : Int) : QuadSums :=
  (List.range 5).foldl
    (fun acc (a : Nat) => (List.range 5).foldl
      (fun acc1 (b : Nat) =>
        sampleAdd poImg haarFilterSize s (r + (a : Int) * s) acc1 (c + (b : Int) * s)) acc)
    ⟨0, 0, 0, 0⟩

/-- The state of the writes after some quadrants: the counter is four times
their number, the writes are their layout, and each is dominated. -/
def DescInv (st : DescState) : Prop :=
  ∃ quads : List QuadSums, st.count = 4 * quads.length ∧ st.writes = layoutFrom 0 quads ∧
    ∀ s ∈ quads, dominated s

/-! ## ConvertRGBToLuminosity (lines 12-79) -/

/-- Modelled from the spec: `GDALRasterBand` belongs to the raster library, not
to the sources. Of a band the function uses its size (`GetXSize`, `GetYSize`),
the size in bits of its sample type (`GDALGetDataTypeSize(GetRasterDataType())`)
and `RasterIO`: `RasterIO nXSize nYSize nWidth nHeight` is the buffer the read
of line 52 fills, as the sequence of its samples (sample `k` is element `k` of
the buffer seen as an array of the band's sample type). -/
structure GDALRasterBand where
  nXSize : Int
  nYSize : Int
  nDataTypeSize : Int
  RasterIO : Int → Int → Int → Int → Int → ℚ

/-- Lines 61-71 for one pixel: the three samples `SRCVAL(buffer, type, ii)` (the
library macro reads element `ii` of the typed buffer) at the indices the source
computes, combined into the luminosity. -/
def luminosityAt (paRedLayer paGreenLayer paBlueLayer : Int → ℚ)
    (dataRedSize dataGreenSize dataBlueSize nWidth : Int) (row col : Nat) : ℚ :=
  let forRed : ℚ := 0.21
  let forGreen : ℚ := 0.72
  let forBlue : ℚ := 0.07
  let maxValue : ℚ := 255
  let dfRedVal := paRedLayer (nWidth * (row : Int) + (col : Int) * dataRedSize)
  let dfGreenVal := paGreenLayer (nWidth * (row : Int) + (col : Int) * dataGreenSize)
  let dfBlueVal := paBlueLayer (nWidth * (row : Int) + (col : Int) * dataBlueSize)
  (dfRedVal * forRed + dfGreenVal * forGreen + dfBlueVal * forBlue) / maxValue

/-- The assignment `padfImg[row][col] = v`. -/
def setCell (padfImg : Nat → Nat → ℚ) (row col : Nat) (v : ℚ) : Nat → Nat → ℚ :=
  fun r c => if r = row ∧ c = col then v else padfImg r c

/-- `GDALSimpleSURF::ConvertRGBToLuminosity`: the status and the output buffer
after the call (`none` when the pointer was `NULL`). -/
def ConvertRGBToLuminosity (red green blue : Option GDALRasterBand) (nXSize nYSize : Int)
    (padfImg : Option (Nat → Nat → ℚ)) (nHeight nWidth : Int) :
    CPLErr × Option (Nat → Nat → ℚ) :=
  match red, green, blue with
  | some red, some green, some blue =>
    if nXSize > red.nXSize ∨ nYSize > red.nYSize then (CPLErr.CE_Failure, padfImg)
    else
      match padfImg with
      | none => (CPLErr.CE_Failure, none)
      | some img =>
        let dataRedSize := red.nDataTypeSize.tdiv 8
        let dataGreenSize := green.nDataTypeSize.tdiv 8
        let dataBlueSize := blue.nDataTypeSize.tdiv 8
        let paRedLayer := GDALRasterBand.RasterIO red nXSize nYSize nWidth nHeight
        let paGreenLayer := GDALRasterBand.RasterIO green nXSize nYSize nWidth nHeight
        let paBlueLayer := GDALRasterBand.RasterIO blue nXSize nYSize nWidth nHeight
        (CPLErr.CE_None, some ((List.range nHeight.toNat).foldl
          (fun img1 row => (List.range nWidth.toNat).foldl
            (fun img2 col => setCell img2 row col
              (luminosityAt paRedLayer paGreenLayer paBlueLayer
                dataRedSize dataGreenSize dataBlueSize nWidth row col)) img1) img))
  | _, _, _ => (CPLErr.CE_Failure, padfImg)

/-- The luminosity in the words of the specification. -/
def specLuminosity (r g b : ℚ) : ℚ := (0.21 * r + 0.72 * g + 0.07 * b) / 255

/-- A band of 2 by 2 pixels whose buffer holds the samples 10, 20, 30, 40 (the
pixels (0,0), (0,1), (1,0), (1,1)) whatever is requested; `bits` is the size of
its sample type. -/
def exampleBand (bits : Int) : GDALRasterBand :=
  ⟨2, 2, bits, fun _ _ _ _ k =>
    if k = 0 then 10 else if k = 1 then 20 else if k = 2 then 30 else if k = 3 then 40 else 0⟩

/-- A band of 2 by 2 pixels whose samples all have the value `v`. -/
def constantBand (v : ℚ) : GDALRasterBand := ⟨2, 2, 8, fun _ _ _ _ _ => v⟩

/-! ## ExtractFeaturePoints (lines 81-109) -/

/-- Modelled from the spec: `GDALOctaveLayer`, one layer of the octave map, is
declared outside the sources; the function reads its width, height, scale (a
`double`, handed to the feature point), radius and the grid `signs[i][j]`. -/
structure GDALOctaveLayer where
  width : Int
  height : Int
  scale : ℚ
  radius : Int
  signs : Nat → Nat → Bool

/-- Modelled from the spec: `GDALOctaveMap` as `ComputeMap(poImg)` leaves it: the
constant `INTERVALS`, the grid of layers `pMap[octave - 1][interval]` and the
extremum test `PointIsExtremum(row, col, bot, mid, top, threshold)`. -/
structure GDALOctaveMap where
  INTERVALS : Int
  pMap : Int → Nat → GDALOctaveLayer
  PointIsExtremum : Nat → Nat → GDALOctaveLayer → GDALOctaveLayer → GDALOctaveLayer → ℚ → Bool

/-- Lines 100-102: the point `new GDALFeaturePoint(j, i, mid->scale,
mid->radius, mid->signs[i][j])`, with a descriptor of `DESC_SIZE` entries (taken
as zeros) that `SetDescriptor` is about to fill. -/
def newFeaturePoint (mid : GDALOctaveLayer) (i j : Nat) : GDALFeaturePoint :=
  ⟨(j : Int), (i : Int), mid.scale, mid.radius, mid.signs i j, List.replicate DESC_SIZE 0⟩

/-- The body of the loop over `j` (lines 98-106). -/
def extractCell (fuel : Nat) (poOctMap : GDALOctaveMap) (poImg : GDALIntegralImage)
    (dfThreshold : ℚ) (bot mid top : GDALOctaveLayer) (i : Nat)
    (poCollection : List GDALFeaturePoint) (j : Nat) : Option (List GDALFeaturePoint) :=
  if poOctMap.PointIsExtremum i j bot mid top dfThreshold = true then
    match SetDescriptor fuel poImg (newFeaturePoint mid i j) with
    | some poFP => some (poCollection ++ [poFP])
    | none => none
  else some poCollection

/-- The octaves `octaveStart, .., octaveEnd` of the loop of line 88. -/
def octaveRange (octaveStart octaveEnd : Int) : List Int :=
  (List.range (octaveEnd + 1 - octaveStart).toNat).map (fun (d : Nat) => octaveStart + (d : Int))

/-- `GDALSimpleSURF::ExtractFeaturePoints`: the collection after the call;
`none` when a call of `SetDescriptor` does not return within the fuel. The
function has no status. -/
def ExtractFeaturePoints (fuel : Nat) (octaveStart octaveEnd : Int) (poOctMap : GDALOctaveMap)
    (poImg : GDALIntegralImage) (poCollection : List GDALFeaturePoint) (dfThreshold : ℚ) :
    Option (List GDALFeaturePoint) :=
  (octaveRange octaveStart octaveEnd).foldlM
    (fun coll1 oct => (List.range (poOctMap.INTERVALS - 2).toNat).foldlM
      (fun coll2 k =>
        let bot := poOctMap.pMap (oct - 1) k
        let mid := poOctMap.pMap (oct - 1) (k + 1)
        let top := poOctMap.pMap (oct - 1) (k + 2)
        (List.range mid.height.toNat).foldlM
          (fun coll3 i => (List.range mid.width.toNat).foldlM
            (extractCell fuel poOctMap poImg dfThreshold bot mid top i) coll3) coll2) coll1)
    poCollection

/-! ### The extraction in the words of the specification -/

/-- The tuples (octave, k, row i, column j) scanned, in the order octave, k, i,
j: the octaves of the range, `k` in `[0, INTERVALS - 3]`, and the cells of the
mid layer `k + 1`. -/
def specTuples (octaveStart octaveEnd : Int) (poOctMap : GDALOctaveMap) :
    List (Int × Nat × Nat × Nat) :=
  (octaveRange octaveStart octaveEnd).flatMap (fun oct =>
    (List.range (poOctMap.INTERVALS - 2).toNat).flatMap (fun k =>
      (List.range (poOctMap.pMap (oct - 1) (k + 1)).height.toNat).flatMap (fun i =>
        (List.range (poOctMap.pMap (oct - 1) (k + 1)).width.toNat).map (fun j =>
          (oct, k, i, j)))))

/-- The extremum test of a tuple: `PointIsExtremum(i, j, layer k, layer k+1,
layer k+2, threshold)`. -/
def specIsExtremum (poOctMap : GDALOctaveMap) (dfThreshold : ℚ) (t : Int × Nat × Nat × Nat) :
    Bool :=
  poOctMap.PointIsExtremum t.2.2.1 t.2.2.2 (poOctMap.pMap (t.1 - 1) t.2.1)
    (poOctMap.pMap (t.1 - 1) (t.2.1 + 1)) (poOctMap.pMap (t.1 - 1) (t.2.1 + 2)) dfThreshold

/-- The point appended for a tuple: the new point of the mid layer at (i, j)
with the descriptor `SetDescriptor` gives it. -/
def specPoint (fuel : Nat) (poOctMap : GDALOctaveMap) (poImg : GDALIntegralImage)
    (t : Int × Nat × Nat × Nat) : GDALFeaturePoint :=
  (SetDescriptor fuel poImg (newFeaturePoint (poOctMap.pMap (t.1 - 1) (t.2.1 + 1))
    t.2.2.1 t.2.2.2)).getD (newFeaturePoint (poOctMap.pMap (t.1 - 1) (t.2.1 + 1)) t.2.2.1 t.2.2.2)

/-- The lexicographic order on the tuples (octave, k, i, j). -/
def tupleLt (a b : Int × Nat × Nat × Nat) : Prop :=
  a.1 < b.1 ∨ (a.1 = b.1 ∧ (a.2.1 < b.2.1 ∨ (a.2.1 = b.2.1 ∧
    (a.2.2.1 < b.2.2.1 ∨ (a.2.2.1 = b.2.2.1 ∧ a.2.2.2 < b.2.2.2)))))

instance (a b : Int × Nat × Nat × Nat) : Decidable (tupleLt a b) := by
  unfold tupleLt; infer_instance

/-- A layer of 2 rows and 3 columns, of scale 2 and radius 3, all signs true. -/
def exampleLayer : GDALOctaveLayer := ⟨3, 2, 2, 3, fun _ _ => true⟩

/-- An octave map with 4 intervals, every layer `exampleLayer`, whose extremum
test holds on the diagonal cells `i = j`. -/
def exampleMap : GDALOctaveMap :=
  ⟨4, fun _ _ => exampleLayer, fun i j _ _ _ _ => decide (i = j)⟩

/-- An octave map whose mid layers have no cell: the image was too small. -/
def emptyMap : GDALOctaveMap :=
  ⟨4, fun _ _ => ⟨0, 0, 2, 3, fun _ _ => true⟩, fun _ _ _ _ _ _ => true⟩

/-- An octave map like `exampleMap` whose layers have the scale 3/10. -/
def fractionalMap : GDALOctaveMap :=
  ⟨4, fun _ _ => ⟨3, 2, 3 / 10, 3, fun _ _ => true⟩, fun i j _ _ _ _ => decide (i = j)⟩

/-! ## Lemmas on the inner loop -/

theorem innerStep_of_not_candidate (sqrt : ℚ → ℚ) (p : GDALFeaturePoint)
    (p_2 : List GDALFeaturePoint) (am : List Bool) (s : BestState) (j : Nat)
    (h : ¬ isCandidate p p_2 am j) : innerStep sqrt p p_2 am s j = s := by
  unfold isCandidate at h
  unfold innerStep
  split_ifs <;> simp_all

theorem innerStep_bestDist (sqrt : ℚ → ℚ) (p : GDALFeaturePoint)
    (p_2 : List GDALFeaturePoint) (am : List Bool) (s : BestState) (j : Nat)
    (h : isCandidate p p_2 am j) :
    (innerStep sqrt p p_2 am s j).bestDist =
      if s.bestDist = -1 then distTo sqrt p p_2 j
      else if distTo sqrt p p_2 j < s.bestDist then distTo sqrt p p_2 j else s.bestDist := by
  obtain ⟨h1, h2⟩ := h
  unfold innerStep distTo
  simp only [h1, h2, if_true]
  split_ifs <;> simp_all

theorem innerStep_bestIndex (sqrt : ℚ → ℚ) (p : GDALFeaturePoint)
    (p_2 : List GDALFeaturePoint) (am : List Bool) (s : BestState) (j : Nat)
    (h : isCandidate p p_2 am j) :
    (innerStep sqrt p p_2 am s j).bestIndex =
      if s.bestDist = -1 then (j : Int)
      else if distTo sqrt p p_2 j < s.bestDist then (j : Int) else s.bestIndex := by
  obtain ⟨h1, h2⟩ := h
  unfold innerStep distTo
  simp only [h1, h2, if_true]
  split_ifs <;> simp_all

theorem innerScanUpTo_succ (sqrt : ℚ → ℚ) (p : GDALFeaturePoint)
    (p_2 : List GDALFeaturePoint) (am : List Bool) (n : Nat) :
    innerScanUpTo sqrt p p_2 am (n + 1) =
      innerStep sqrt p p_2 am (innerScanUpTo sqrt p p_2 am n) n := by
  simp [innerScanUpTo, List.range_succ, List.foldl_append]

theorem innerScanUpTo_zero (sqrt : ℚ → ℚ) (p : GDALFeaturePoint)
    (p_2 : List GDALFeaturePoint) (am : List Bool) :
    innerScanUpTo sqrt p p_2 am 0 = BestState.init := by
  simp [innerScanUpTo]

/-- Whatever `sqrt` returns: either no candidate was met and the locals still
hold their initial values, or `bestIndex` is the index of a candidate met. -/
theorem innerScanUpTo_index (sqrt : ℚ → ℚ) (p : GDALFeaturePoint)
    (p_2 : List GDALFeaturePoint) (am : List Bool) (n : Nat) :
    (innerScanUpTo sqrt p p_2 am n = BestState.init ∧
        ∀ j, j < n → ¬ isCandidate p p_2 am j) ∨
      ∃ j : Nat, j < n ∧ isCandidate p p_2 am j ∧
        (innerScanUpTo sqrt p p_2 am n).bestIndex = (j : Int) := by
  induction n with
  | zero => left; simp [innerScanUpTo_zero]
  | succ n ih =>
    rw [innerScanUpTo_succ]
    by_cases hc : isCandidate p p_2 am n
    · right
      rw [innerStep_bestIndex sqrt p p_2 am _ n hc]
      rcases ih with ⟨h0, _⟩ | ⟨j, hj, hcj, hbi⟩
      · exact ⟨n, Nat.lt_succ_self n, hc, by simp [h0, BestState.init]⟩
      · split_ifs
        · exact ⟨n, Nat.lt_succ_self n, hc, rfl⟩
        · exact ⟨n, Nat.lt_succ_self n, hc, rfl⟩
        · exact ⟨j, Nat.lt_succ_of_lt hj, hcj, hbi⟩
    · rw [innerStep_of_not_candidate sqrt p p_2 am _ n hc]
      rcases ih with ⟨h0, hno⟩ | ⟨j, hj, hcj, hbi⟩
      · left
        refine ⟨h0, fun j hj => ?_⟩
        rcases Nat.lt_succ_iff_lt_or_eq.mp hj with h | h
        · exact hno j h
        · exact h ▸ hc
      · exact Or.inr ⟨j, Nat.lt_succ_of_lt hj, hcj, hbi⟩

/-- With a non-negative `sqrt`: either no candidate was met and the locals
still hold their initial values, or `bestIndex` is a candidate, `bestDist` is
its distance, and no candidate met is nearer. -/
theorem innerScanUpTo_best (sqrt : ℚ → ℚ) (hsqrt : ∀ x, 0 ≤ sqrt x) (p : GDALFeaturePoint)
    (p_2 : List GDALFeaturePoint) (am : List Bool) (n : Nat) :
    (innerScanUpTo sqrt p p_2 am n = BestState.init ∧
        ∀ j, j < n → ¬ isCandidate p p_2 am j) ∨
      ∃ j : Nat, j < n ∧ isCandidate p p_2 am j ∧
        (innerScanUpTo sqrt p p_2 am n).bestIndex = (j : Int) ∧
        (innerScanUpTo sqrt p p_2 am n).bestDist = distTo sqrt p p_2 j ∧
        ∀ k, k < n → isCandidate p p_2 am k →
          (innerScanUpTo sqrt p p_2 am n).bestDist ≤ distTo sqrt p p_2 k := by
  induction n with
  | zero => left; simp [innerScanUpTo_zero]
  | succ n ih =>
    rw [innerScanUpTo_succ]
    by_cases hc : isCandidate p p_2 am n
    · right
      rw [innerStep_bestIndex sqrt p p_2 am _ n hc, innerStep_bestDist sqrt p p_2 am _ n hc]
      rcases ih with ⟨h0, hno⟩ | ⟨j, hj, hcj, hbi, hbd, hmin⟩
      · refine ⟨n, Nat.lt_succ_self n, hc, by simp [h0, BestState.init],
          by simp [h0, BestState.init], fun k hk hck => ?_⟩
        rcases Nat.lt_succ_iff_lt_or_eq.mp hk with h | h
        · exact absurd hck (hno k h)
        · subst h; simp [h0, BestState.init]
      · have hnn : (innerScanUpTo sqrt p p_2 am n).bestDist ≠ -1 := by
          rw [hbd]
          have := hsqrt (squaredDistance p (p_2.getD j default))
          unfold distTo GetEuclideanDistance
          linarith
        rw [if_neg hnn, if_neg hnn]
        by_cases hlt : distTo sqrt p p_2 n < (innerScanUpTo sqrt p p_2 am n).bestDist
        · rw [if_pos hlt, if_pos hlt]
          refine ⟨n, Nat.lt_succ_self n, hc, rfl, rfl, fun k hk hck => ?_⟩
          rcases Nat.lt_succ_iff_lt_or_eq.mp hk with h | h
          · exact le_trans (le_of_lt hlt) (hmin k h hck)
          · subst h; exact le_refl _
        · rw [if_neg hlt, if_neg hlt]
          refine ⟨j, Nat.lt_succ_of_lt hj, hcj, hbi, hbd, fun k hk hck => ?_⟩
          rcases Nat.lt_succ_iff_lt_or_eq.mp hk with h | h
          · exact hmin k h hck
          · subst h; exact not_lt.mp hlt
    · rw [innerStep_of_not_candidate sqrt p p_2 am _ n hc]
      rcases ih with ⟨h0, hno⟩ | ⟨j, hj, hcj, hbi, hbd, hmin⟩
      · left
        refine ⟨h0, fun j hj => ?_⟩
        rcases Nat.lt_succ_iff_lt_or_eq.mp hj with h | h
        · exact hno j h
        · exact h ▸ hc
      · right
        refine ⟨j, Nat.lt_succ_of_lt hj, hcj, hbi, hbd, fun k hk hck => ?_⟩
        rcases Nat.lt_succ_iff_lt_or_eq.mp hk with h | h
        · exact hmin k h hck
        · subst h; exact absurd hck hc

/-! ## Lemmas on the outer loop -/

theorem getD_set_true (am : List Bool) (j k : Nat) :
    (am.set j true).getD k false =
      if k = j ∧ j < am.length then true else am.getD k false := by
  simp only [List.getD_eq_getElem?_getD, List.getElem?_set]
  by_cases hjk : j = k
  · subst hjk
    by_cases hj : j < am.length
    · simp [hj]
    · simp [hj, List.getElem?_eq_none (not_lt.mp hj)]
  · have hkj : ¬ k = j := fun h => hjk h.symm
    simp [hjk, hkj]

theorem matchLoopUpTo_zero (sqrt : ℚ → ℚ) (p_1 p_2 : List GDALFeaturePoint) :
    matchLoopUpTo sqrt p_1 p_2 0 = MatchState.init p_2 := by
  simp [matchLoopUpTo]

theorem matchLoopUpTo_succ (sqrt : ℚ → ℚ) (p_1 p_2 : List GDALFeaturePoint) (n : Nat) :
    matchLoopUpTo sqrt p_1 p_2 (n + 1) =
      outerStep sqrt p_1 p_2 (matchLoopUpTo sqrt p_1 p_2 n) n := by
  simp [matchLoopUpTo, List.range_succ, List.foldl_append]

/-- An accepted scan has met a candidate: `bestIndex` is an unflagged inner
index in range whose point has the sign of `p`. -/
theorem ratioTest_index (sqrt : ℚ → ℚ) (p : GDALFeaturePoint)
    (p_2 : List GDALFeaturePoint) (am : List Bool)
    (h : (innerScan sqrt p p_2 am).bestDist ≠ -1) :
    ∃ j : Nat, j < p_2.length ∧ isCandidate p p_2 am j ∧
      (innerScan sqrt p p_2 am).bestIndex = (j : Int) := by
  unfold innerScan at h ⊢
  rcases innerScanUpTo_index sqrt p p_2 am p_2.length with ⟨h0, _⟩ | h1
  · exact absurd (by rw [h0]; rfl) h
  · exact h1

theorem ratioTest_bestDist_ne (s : BestState) (h : ratioTest s) : s.bestDist ≠ -1 := by
  obtain ⟨⟨_, h2⟩, _⟩ := h
  intro h3
  rw [h3] at h2
  norm_num at h2

theorem loopInv_init (p_1 p_2 : List GDALFeaturePoint) :
    LoopInv p_1 p_2 0 (MatchState.init p_2) := by
  refine ⟨by simp [MatchState.init], by simp [MatchState.init], ?_,
    by simp [MatchState.init], by simp [MatchState.init]⟩
  intro j hj
  simp only [MatchState.init, List.getD_eq_getElem?_getD] at hj
  by_cases h : j < p_2.length
  · simp [List.getElem?_replicate, h] at hj
  · simp [List.getElem?_replicate, h] at hj

theorem loopInv_step (sqrt : ℚ → ℚ) (p_1 p_2 : List GDALFeaturePoint) (n : Nat)
    (st : MatchState) (inv : LoopInv p_1 p_2 n st) :
    LoopInv p_1 p_2 (n + 1) (outerStep sqrt p_1 p_2 st n) := by
  unfold outerStep
  by_cases hr : ratioTest (innerScan sqrt (p_1.getD n default) p_2 st.alreadyMatched)
  · simp only [hr, if_true]
    obtain ⟨j, hj, ⟨hcj1, hcj2⟩, hbi⟩ :=
      ratioTest_index sqrt (p_1.getD n default) p_2 st.alreadyMatched
        (ratioTest_bestDist_ne _ hr)
    rw [hbi]
    have hjlen : j < st.alreadyMatched.length := by rw [inv.len]; exact hj
    refine ⟨by simp [inv.len], ?_, ?_, ?_, ?_⟩
    · intro m hm
      rcases List.mem_append.mp hm with h | h
      · obtain ⟨h1, k, hk1, hk2, hk3, hk4⟩ := inv.bound m h
        refine ⟨Nat.lt_succ_of_lt h1, k, hk1, hk2, ?_, hk4⟩
        simp only [Int.toNat_ofNat, getD_set_true]
        split_ifs
        · rfl
        · exact hk3
      · simp only [List.mem_singleton] at h
        subst h
        refine ⟨Nat.lt_succ_self n, j, rfl, hj, ?_, hcj2⟩
        simp [getD_set_true, hjlen]
    · intro k hk
      simp only [Int.toNat_ofNat, getD_set_true] at hk
      by_cases hkj : k = j ∧ j < st.alreadyMatched.length
      · exact ⟨⟨n, (j : Int), _⟩, List.mem_append_right _ (List.mem_singleton.mpr rfl),
          by simp [hkj.1]⟩
      · rw [if_neg hkj] at hk
        obtain ⟨m, hm, hm2⟩ := inv.flagged k hk
        exact ⟨m, List.mem_append_left _ hm, hm2⟩
    · simp only [List.map_append, List.map_cons, List.map_nil]
      rw [List.pairwise_append]
      refine ⟨inv.asc, by simp, ?_⟩
      intro a ha b hb
      simp only [List.mem_singleton] at hb
      subst hb
      obtain ⟨m, hm, rfl⟩ := List.mem_map.mp ha
      exact (inv.bound m hm).1
    · simp only [List.map_append, List.map_cons, List.map_nil]
      rw [List.nodup_append]
      refine ⟨inv.nodup, by simp, ?_⟩
      intro a ha hb
      simp only [List.mem_singleton] at hb
      subst hb
      obtain ⟨m, hm, hm2⟩ := List.mem_map.mp ha
      obtain ⟨_, k, hk1, _, hk3, _⟩ := inv.bound m hm
      rw [hk1] at hm2
      have hkj : k = j := by exact_mod_cast hm2
      subst hkj
      rw [hcj1] at hk3
      exact absurd hk3 (by decide)
  · simp only [hr, if_false]
    exact ⟨inv.len, fun m hm => ⟨Nat.lt_succ_of_lt (inv.bound m hm).1, (inv.bound m hm).2⟩,
      inv.flagged, inv.asc, inv.nodup⟩

theorem loopInv_matchLoopUpTo (sqrt : ℚ → ℚ) (p_1 p_2 : List GDALFeaturePoint) (n : Nat) :
    LoopInv p_1 p_2 n (matchLoopUpTo sqrt p_1 p_2 n) := by
  induction n with
  | zero => rw [matchLoopUpTo_zero]; exact loopInv_init p_1 p_2
  | succ n ih => rw [matchLoopUpTo_succ]; exact loopInv_step sqrt p_1 p_2 n _ ih

theorem outerStep_list (sqrt : ℚ → ℚ) (p_1 p_2 : List GDALFeaturePoint)
    (st : MatchState) (n : Nat) :
    (outerStep sqrt p_1 p_2 st n).pairInfoList = st.pairInfoList ∨
      ∃ m : MatchedPointPairInfo, m.ind_1 = n ∧
        (outerStep sqrt p_1 p_2 st n).pairInfoList = st.pairInfoList ++ [m] := by
  unfold outerStep
  by_cases hr : ratioTest (innerScan sqrt (p_1.getD n default) p_2 st.alreadyMatched)
  · right
    simp only [hr, if_true]
    exact ⟨_, rfl, rfl⟩
  · left
    simp only [hr, if_false]

/-- The list after `n` outer iterations is the part of any later list whose
outer index is below `n`: entries are only ever appended, with the current
outer index. -/
theorem matchLoopUpTo_filter (sqrt : ℚ → ℚ) (p_1 p_2 : List GDALFeaturePoint) (n d : Nat) :
    (matchLoopUpTo sqrt p_1 p_2 (n + d)).pairInfoList.filter (fun m => decide (m.ind_1 < n)) =
      (matchLoopUpTo sqrt p_1 p_2 n).pairInfoList := by
  induction d with
  | zero =>
    rw [Nat.add_zero, List.filter_eq_self]
    intro m hm
    simpa using ((loopInv_matchLoopUpTo sqrt p_1 p_2 n).bound m hm).1
  | succ d ih =>
    rw [← Nat.add_assoc, matchLoopUpTo_succ]
    rcases outerStep_list sqrt p_1 p_2 (matchLoopUpTo sqrt p_1 p_2 (n + d)) (n + d) with
      h | ⟨m, hm1, hm2⟩
    · rw [h, ih]
    · rw [hm2, List.filter_append, ih]
      have : ¬ m.ind_1 < n := by rw [hm1]; omega
      simp [this]

theorem tentativeMatches_filter (sqrt : ℚ → ℚ) (p_1 p_2 : List GDALFeaturePoint) (n : Nat)
    (hn : n ≤ p_1.length) :
    (tentativeMatches sqrt p_1 p_2).filter (fun m => decide (m.ind_1 < n)) =
      (matchLoopUpTo sqrt p_1 p_2 n).pairInfoList := by
  obtain ⟨d, hd⟩ := Nat.exists_eq_add_of_le hn
  unfold tentativeMatches
  rw [hd]
  exact matchLoopUpTo_filter sqrt p_1 p_2 n d

/-! ## Lemmas on NormalizeDistances and the final filter -/

theorem NormalizeDistances_map_ind_1 (l : List MatchedPointPairInfo) :
    (NormalizeDistances l).map MatchedPointPairInfo.ind_1 =
      l.map MatchedPointPairInfo.ind_1 := by
  unfold NormalizeDistances
  by_cases h : maxDistance l ≠ 0
  · simp [h, List.map_map, Function.comp_def]
  · simp [h]

theorem NormalizeDistances_map_ind_2 (l : List MatchedPointPairInfo) :
    (NormalizeDistances l).map MatchedPointPairInfo.ind_2 =
      l.map MatchedPointPairInfo.ind_2 := by
  unfold NormalizeDistances
  by_cases h : maxDistance l ≠ 0
  · simp [h, List.map_map, Function.comp_def]
  · simp [h]

theorem NormalizeDistances_length (l : List MatchedPointPairInfo) :
    (NormalizeDistances l).length = l.length := by
  unfold NormalizeDistances
  by_cases h : maxDistance l ≠ 0
  · simp [h]
  · simp [h]

theorem finalFilter_sublist (thr : ℚ) (l : List MatchedPointPairInfo) :
    (finalFilter thr l).Sublist l := by
  unfold finalFilter
  exact List.filter_sublist l

theorem emittedInfos_ind_1_sublist (sqrt : ℚ → ℚ) (p_1 p_2 : List GDALFeaturePoint) (thr : ℚ) :
    ((emittedInfos sqrt p_1 p_2 thr).map MatchedPointPairInfo.ind_1).Sublist
      ((tentativeMatches sqrt p_1 p_2).map MatchedPointPairInfo.ind_1) := by
  rw [← NormalizeDistances_map_ind_1 (tentativeMatches sqrt p_1 p_2)]
  exact (finalFilter_sublist thr _).map _

theorem emittedInfos_ind_2_sublist (sqrt : ℚ → ℚ) (p_1 p_2 : List GDALFeaturePoint) (thr : ℚ) :
    ((emittedInfos sqrt p_1 p_2 thr).map MatchedPointPairInfo.ind_2).Sublist
      ((tentativeMatches sqrt p_1 p_2).map MatchedPointPairInfo.ind_2) := by
  rw [← NormalizeDistances_map_ind_2 (tentativeMatches sqrt p_1 p_2)]
  exact (finalFilter_sublist thr _).map _

theorem emittedInfos_ascending (sqrt : ℚ → ℚ) (p_1 p_2 : List GDALFeaturePoint) (thr : ℚ) :
    ((emittedInfos sqrt p_1 p_2 thr).map MatchedPointPairInfo.ind_1).Pairwise
      (fun a b => a < b) :=
  List.Pairwise.sublist (emittedInfos_ind_1_sublist sqrt p_1 p_2 thr)
    (loopInv_matchLoopUpTo sqrt p_1 p_2 p_1.length).asc

theorem MatchFeaturePoints_some (sqrt : ℚ → ℚ)
    (matched : List (GDALFeaturePoint × GDALFeaturePoint))
    (first second : List GDALFeaturePoint) (thr : ℚ) :
    MatchFeaturePoints sqrt (some matched) (some first) (some second) thr =
      (CPLErr.CE_None, some (matched ++
        (emittedInfos sqrt (orient first second).p_1 (orient first second).p_2 thr).map
          (toPair (orient first second)))) := by
  simp [MatchFeaturePoints, emittedPairs]

/-! ## The claims -/

/-- C1: for every pair of feature point collections, every threshold and every
`sqrt`, the call appends the pairs of the triples `emittedInfos`, and among
these triples no inner index (`ind_2`) occurs twice and no outer index
(`ind_1`) occurs twice. -/
theorem C1_emitted_pairs_injective (sqrt : ℚ → ℚ)
    (matched : List (GDALFeaturePoint × GDALFeaturePoint))
    (first second : List GDALFeaturePoint) (dfThreshold : ℚ) :
    MatchFeaturePoints sqrt (some matched) (some first) (some second) dfThreshold =
        (CPLErr.CE_None, some (matched ++
          (emittedInfos sqrt (orient first second).p_1 (orient first second).p_2
            dfThreshold).map (toPair (orient first second)))) ∧
      ((emittedInfos sqrt (orient first second).p_1 (orient first second).p_2
          dfThreshold).map MatchedPointPairInfo.ind_2).Nodup ∧
      ((emittedInfos sqrt (orient first second).p_1 (orient first second).p_2
          dfThreshold).map MatchedPointPairInfo.ind_1).Nodup := by
  refine ⟨MatchFeaturePoints_some sqrt matched first second dfThreshold, ?_, ?_⟩
  · exact List.Nodup.sublist (emittedInfos_ind_2_sublist sqrt _ _ dfThreshold)
      (loopInv_matchLoopUpTo sqrt _ _ _).nodup
  · have h := emittedInfos_ascending sqrt (orient first second).p_1
      (orient first second).p_2 dfThreshold
    exact h.imp (fun hab => Nat.ne_of_lt hab)

theorem sqrtExact_nonneg (x : ℚ) : 0 ≤ sqrtExact x :=
  div_nonneg (Nat.cast_nonneg _) (Nat.cast_nonneg _)

/-- At outer iteration `i` the candidates of the inner scan are the eligible
inner indices. -/
theorem isCandidate_iff_eligible (sqrt : ℚ → ℚ) (p_1 p_2 : List GDALFeaturePoint)
    (i j : Nat) (hi : i ≤ p_1.length) (hj : j < p_2.length) :
    isCandidate (p_1.getD i default) p_2 (matchLoopUpTo sqrt p_1 p_2 i).alreadyMatched j ↔
      eligible sqrt p_1 p_2 i j := by
  have inv := loopInv_matchLoopUpTo sqrt p_1 p_2 i
  have hfl := tentativeMatches_filter sqrt p_1 p_2 i hi
  unfold isCandidate eligible
  constructor
  · rintro ⟨h1, h2⟩
    refine ⟨hj, h2, fun m hm hlt heq => ?_⟩
    have hm2 : m ∈ (matchLoopUpTo sqrt p_1 p_2 i).pairInfoList := by
      rw [← hfl]
      exact List.mem_filter.mpr ⟨hm, by simpa using hlt⟩
    obtain ⟨_, k, hk1, _, hk3, _⟩ := inv.bound m hm2
    rw [hk1] at heq
    have hkj : k = j := by exact_mod_cast heq
    subst hkj
    rw [h1] at hk3
    exact absurd hk3 (by decide)
  · rintro ⟨_, h2, h3⟩
    refine ⟨?_, h2⟩
    by_contra hne
    have htrue : (matchLoopUpTo sqrt p_1 p_2 i).alreadyMatched.getD j false = true := by
      simpa using hne
    obtain ⟨m, hm, hm2⟩ := inv.flagged j htrue
    rw [← hfl] at hm
    obtain ⟨hm3, hm4⟩ := List.mem_filter.mp hm
    exact h3 m hm3 (by simpa using hm4) hm2

/-- C2 (the code at a failing input): the outer point has descriptor
`(0, 0, ..)` and the two inner points, both unclaimed and of its sign, have
descriptors `(1, 0, ..)` and `(5, 0, ..)`, at distances 1 and 5. The scan ends
with `bestDist = 1`, `bestIndex = 0` and `bestDist_2 = 1`, not 5, the distance
of the only other candidate; the call then emits nothing. With the inner
points at distances 5, 3, 1 the scan ends with `bestDist_2 = 5`, not 3. -/
theorem C2_second_best_at_failing_input :
    isCandidate (pointAt true 0) [pointAt true 1, pointAt true 5] [false, false] 0 ∧
      isCandidate (pointAt true 0) [pointAt true 1, pointAt true 5] [false, false] 1 ∧
      distTo sqrtExact (pointAt true 0) [pointAt true 1, pointAt true 5] 0 = 1 ∧
      distTo sqrtExact (pointAt true 0) [pointAt true 1, pointAt true 5] 1 = 5 ∧
      innerScan sqrtExact (pointAt true 0) [pointAt true 1, pointAt true 5] [false, false] =
        ⟨1, 0, 1⟩ ∧
      emittedPairs sqrtExact [pointAt true 0] [pointAt true 1, pointAt true 5] 1 = [] ∧
      innerScan sqrtExact (pointAt true 0) [pointAt true 5, pointAt true 3, pointAt true 1]
        [false, false, false] = ⟨1, 2, 5⟩ := by
  decide!

/-- C3: with a non-negative `sqrt`, at every outer index `i` the scan ends with
`bestDist` no larger than the distance of any eligible inner index (in range,
of the sign of the outer point, not the inner index of a tentative match of a
smaller outer index); when an eligible index exists, `bestIndex` is an eligible
index and `bestDist` is its distance; when none exists the locals keep their
initial values; and `bestIndex` is never the inner index of a tentative match
of a smaller outer index. -/
theorem C3_best_is_minimum_over_unclaimed (sqrt : ℚ → ℚ) (hsqrt : ∀ x, 0 ≤ sqrt x)
    (p_1 p_2 : List GDALFeaturePoint) (i : Nat) (hi : i < p_1.length) :
    (∀ j, eligible sqrt p_1 p_2 i j →
        (scanAt sqrt p_1 p_2 i).bestDist ≤ distTo sqrt (p_1.getD i default) p_2 j) ∧
      ((∃ j, eligible sqrt p_1 p_2 i j) →
        ∃ j : Nat, eligible sqrt p_1 p_2 i j ∧ (scanAt sqrt p_1 p_2 i).bestIndex = (j : Int) ∧
          (scanAt sqrt p_1 p_2 i).bestDist = distTo sqrt (p_1.getD i default) p_2 j) ∧
      ((¬ ∃ j, eligible sqrt p_1 p_2 i j) → scanAt sqrt p_1 p_2 i = BestState.init) ∧
      (∀ m ∈ tentativeMatches sqrt p_1 p_2, m.ind_1 < i →
        (scanAt sqrt p_1 p_2 i).bestIndex ≠ m.ind_2) := by
  have hile : i ≤ p_1.length := Nat.le_of_lt hi
  have key := innerScanUpTo_best sqrt hsqrt (p_1.getD i default) p_2
    (matchLoopUpTo sqrt p_1 p_2 i).alreadyMatched p_2.length
  have inv := loopInv_matchLoopUpTo sqrt p_1 p_2 (p_1.length)
  unfold scanAt innerScan
  rcases key with ⟨h0, hno⟩ | ⟨j, hj, hcj, hbi, hbd, hmin⟩
  · have hnone : ¬ ∃ j, eligible sqrt p_1 p_2 i j := by
      rintro ⟨j, hej⟩
      exact hno j hej.1 ((isCandidate_iff_eligible sqrt p_1 p_2 i j hile hej.1).mpr hej)
    refine ⟨fun j hej => absurd ⟨j, hej⟩ hnone, fun hex => absurd hex hnone,
      fun _ => h0, fun m hm _ => ?_⟩
    rw [h0]
    obtain ⟨_, k, hk1, _⟩ := inv.bound m hm
    rw [hk1]
    simp only [BestState.init]
    omega
  · have hej := (isCandidate_iff_eligible sqrt p_1 p_2 i j hile hj).mp hcj
    refine ⟨fun k hek => hmin k hek.1
        ((isCandidate_iff_eligible sqrt p_1 p_2 i k hile hek.1).mpr hek),
      fun _ => ⟨j, hej, hbi, hbd⟩, fun hnone => absurd ⟨j, hej⟩ hnone, fun m hm hlt => ?_⟩
    rw [hbi]
    exact fun h => hej.2.2 m hm hlt h.symm

/-- C3 at a concrete input: the outer points 0 and 1 against the inner points
10, 2, 7. The outer index 0 claims the inner index 1 (the point at 2), which is
also the nearest inner point of the outer index 1. -/
theorem C3_best_is_minimum_over_unclaimed_witness :
    (∀ x, 0 ≤ sqrtExact x) ∧ 1 < exampleOuter.length ∧
    tentativeMatches sqrtExact exampleOuter exampleInner = [⟨0, 1, 2⟩, ⟨1, 2, 6⟩] ∧
    ((∀ j, eligible sqrtExact exampleOuter exampleInner 1 j →
        (scanAt sqrtExact exampleOuter exampleInner 1).bestDist ≤
          distTo sqrtExact (exampleOuter.getD 1 default) exampleInner j) ∧
      ((∃ j, eligible sqrtExact exampleOuter exampleInner 1 j) →
        ∃ j : Nat, eligible sqrtExact exampleOuter exampleInner 1 j ∧
          (scanAt sqrtExact exampleOuter exampleInner 1).bestIndex = (j : Int) ∧
          (scanAt sqrtExact exampleOuter exampleInner 1).bestDist =
            distTo sqrtExact (exampleOuter.getD 1 default) exampleInner j) ∧
      ((¬ ∃ j, eligible sqrtExact exampleOuter exampleInner 1 j) →
        scanAt sqrtExact exampleOuter exampleInner 1 = BestState.init) ∧
      (∀ m ∈ tentativeMatches sqrtExact exampleOuter exampleInner, m.ind_1 < 1 →
        (scanAt sqrtExact exampleOuter exampleInner 1).bestIndex ≠ m.ind_2)) :=
  ⟨sqrtExact_nonneg, by decide, by decide!,
    C3_best_is_minimum_over_unclaimed sqrtExact sqrtExact_nonneg exampleOuter exampleInner 1
      (by decide)⟩

theorem matchLoopUpTo_succ_of_ratioTest (sqrt : ℚ → ℚ) (p_1 p_2 : List GDALFeaturePoint)
    (i : Nat) (h : ratioTest (scanAt sqrt p_1 p_2 i)) :
    matchLoopUpTo sqrt p_1 p_2 (i + 1) =
      { pairInfoList := (matchLoopUpTo sqrt p_1 p_2 i).pairInfoList ++
          [⟨i, (scanAt sqrt p_1 p_2 i).bestIndex, (scanAt sqrt p_1 p_2 i).bestDist⟩],
        alreadyMatched := (matchLoopUpTo sqrt p_1 p_2 i).alreadyMatched.set
          (scanAt sqrt p_1 p_2 i).bestIndex.toNat true } := by
  rw [matchLoopUpTo_succ]
  unfold scanAt at h ⊢
  unfold outerStep
  simp only [h, if_true]

theorem matchLoopUpTo_succ_of_not_ratioTest (sqrt : ℚ → ℚ) (p_1 p_2 : List GDALFeaturePoint)
    (i : Nat) (h : ¬ ratioTest (scanAt sqrt p_1 p_2 i)) :
    matchLoopUpTo sqrt p_1 p_2 (i + 1) = matchLoopUpTo sqrt p_1 p_2 i := by
  rw [matchLoopUpTo_succ]
  unfold scanAt at h
  unfold outerStep
  simp only [h, if_false]

theorem ratioTest_iff (s : BestState) :
    ratioTest s ↔ s.bestDist_2 > 0 ∧ s.bestDist ≥ 0 ∧ s.bestDist / s.bestDist_2 < 0.8 := by
  unfold ratioTest ratioThreshold
  tauto

/-- When the ratio is exactly 0.8 a candidate was met, so `bestIndex` is an
unflagged inner index. -/
theorem scanAt_unflagged_of_ratio (sqrt : ℚ → ℚ) (p_1 p_2 : List GDALFeaturePoint) (i : Nat)
    (h : (scanAt sqrt p_1 p_2 i).bestDist / (scanAt sqrt p_1 p_2 i).bestDist_2 = 0.8) :
    (matchLoopUpTo sqrt p_1 p_2 i).alreadyMatched.getD
      (scanAt sqrt p_1 p_2 i).bestIndex.toNat false = false := by
  unfold scanAt innerScan at h ⊢
  rcases innerScanUpTo_index sqrt (p_1.getD i default) p_2
    (matchLoopUpTo sqrt p_1 p_2 i).alreadyMatched p_2.length with ⟨h0, _⟩ | ⟨j, _, hcj, hbi⟩
  · rw [h0] at h
    norm_num [BestState.init] at h
  · rw [hbi]
    exact hcj.1

/-- C4: at every outer index `i`, the triple `(i, bestIndex, bestDist)` is in
the list of tentative matches if and only if `bestDist_2 > 0`, `bestDist >= 0`
and `bestDist / bestDist_2 < 0.8`, and it is the only triple of outer index
`i`; when the test holds the iteration appends exactly that triple and flags
`bestIndex`; when it fails the iteration changes nothing; and when the ratio is
exactly 0.8 the iteration changes nothing and `bestIndex` stays unflagged. -/
theorem C4_ratio_test_strict (sqrt : ℚ → ℚ) (p_1 p_2 : List GDALFeaturePoint) (i : Nat)
    (hi : i < p_1.length) :
    ((⟨i, (scanAt sqrt p_1 p_2 i).bestIndex, (scanAt sqrt p_1 p_2 i).bestDist⟩ ∈
          tentativeMatches sqrt p_1 p_2) ↔
        ((scanAt sqrt p_1 p_2 i).bestDist_2 > 0 ∧ (scanAt sqrt p_1 p_2 i).bestDist ≥ 0 ∧
          (scanAt sqrt p_1 p_2 i).bestDist / (scanAt sqrt p_1 p_2 i).bestDist_2 < 0.8)) ∧
      (∀ m ∈ tentativeMatches sqrt p_1 p_2, m.ind_1 = i →
        m = ⟨i, (scanAt sqrt p_1 p_2 i).bestIndex, (scanAt sqrt p_1 p_2 i).bestDist⟩ ∧
          ((scanAt sqrt p_1 p_2 i).bestDist_2 > 0 ∧ (scanAt sqrt p_1 p_2 i).bestDist ≥ 0 ∧
            (scanAt sqrt p_1 p_2 i).bestDist / (scanAt sqrt p_1 p_2 i).bestDist_2 < 0.8)) ∧
      (((scanAt sqrt p_1 p_2 i).bestDist_2 > 0 ∧ (scanAt sqrt p_1 p_2 i).bestDist ≥ 0 ∧
          (scanAt sqrt p_1 p_2 i).bestDist / (scanAt sqrt p_1 p_2 i).bestDist_2 < 0.8) →
        (matchLoopUpTo sqrt p_1 p_2 (i + 1)).pairInfoList =
            (matchLoopUpTo sqrt p_1 p_2 i).pairInfoList ++
              [⟨i, (scanAt sqrt p_1 p_2 i).bestIndex, (scanAt sqrt p_1 p_2 i).bestDist⟩] ∧
          (matchLoopUpTo sqrt p_1 p_2 (i + 1)).alreadyMatched =
            (matchLoopUpTo sqrt p_1 p_2 i).alreadyMatched.set
              (scanAt sqrt p_1 p_2 i).bestIndex.toNat true ∧
          (matchLoopUpTo sqrt p_1 p_2 i).alreadyMatched.getD
            (scanAt sqrt p_1 p_2 i).bestIndex.toNat false = false ∧
          (matchLoopUpTo sqrt p_1 p_2 (i + 1)).alreadyMatched.getD
            (scanAt sqrt p_1 p_2 i).bestIndex.toNat false = true) ∧
      ((¬ ((scanAt sqrt p_1 p_2 i).bestDist_2 > 0 ∧ (scanAt sqrt p_1 p_2 i).bestDist ≥ 0 ∧
          (scanAt sqrt p_1 p_2 i).bestDist / (scanAt sqrt p_1 p_2 i).bestDist_2 < 0.8)) →
        matchLoopUpTo sqrt p_1 p_2 (i + 1) = matchLoopUpTo sqrt p_1 p_2 i) ∧
      ((scanAt sqrt p_1 p_2 i).bestDist / (scanAt sqrt p_1 p_2 i).bestDist_2 = 0.8 →
        matchLoopUpTo sqrt p_1 p_2 (i + 1) = matchLoopUpTo sqrt p_1 p_2 i ∧
          (matchLoopUpTo sqrt p_1 p_2 (i + 1)).alreadyMatched.getD
            (scanAt sqrt p_1 p_2 i).bestIndex.toNat false = false) := by
  have hfl := tentativeMatches_filter sqrt p_1 p_2 (i + 1) hi
  have inv := loopInv_matchLoopUpTo sqrt p_1 p_2 i
  -- membership in the final list, for a triple of outer index `i`
  have hmem : ∀ m : MatchedPointPairInfo, m.ind_1 = i →
      (m ∈ tentativeMatches sqrt p_1 p_2 ↔
        m ∈ (matchLoopUpTo sqrt p_1 p_2 (i + 1)).pairInfoList) := by
    intro m hm
    rw [← hfl, List.mem_filter]
    simp [hm]
  have hold : ∀ m ∈ (matchLoopUpTo sqrt p_1 p_2 i).pairInfoList, m.ind_1 ≠ i :=
    fun m hm => Nat.ne_of_lt (inv.bound m hm).1
  rw [← ratioTest_iff]
  by_cases hr : ratioTest (scanAt sqrt p_1 p_2 i)
  · have hstep := matchLoopUpTo_succ_of_ratioTest sqrt p_1 p_2 i hr
    obtain ⟨j, hj, hcj, hbi⟩ := ratioTest_index sqrt (p_1.getD i default) p_2
      (matchLoopUpTo sqrt p_1 p_2 i).alreadyMatched (ratioTest_bestDist_ne _ hr)
    have hbi2 : (scanAt sqrt p_1 p_2 i).bestIndex = (j : Int) := hbi
    refine ⟨⟨fun _ => hr, fun _ => ?_⟩, fun m hm hmi => ⟨?_, hr⟩, fun _ => ⟨?_, ?_, ?_, ?_⟩,
      fun hn => absurd hr hn, fun h8 => ?_⟩
    · rw [hmem _ rfl, hstep]
      simp
    · rw [hmem m hmi, hstep] at hm
      rcases List.mem_append.mp hm with h | h
      · exact absurd hmi (hold m h)
      · simpa using h
    · rw [hstep]
    · rw [hstep]
    · rw [hbi2]; exact hcj.1
    · rw [hstep, hbi2]
      simp [getD_set_true, inv.len, hj]
    · exfalso
      have := ((ratioTest_iff _).mp hr).2.2
      rw [h8] at this
      exact lt_irrefl _ this
  · have hstep := matchLoopUpTo_succ_of_not_ratioTest sqrt p_1 p_2 i hr
    refine ⟨⟨fun hm => ?_, fun h => absurd h hr⟩, fun m hm hmi => ?_, fun h => absurd h hr,
      fun _ => hstep, fun h8 => ⟨hstep, ?_⟩⟩
    · rw [hmem _ rfl, hstep] at hm
      exact absurd rfl (hold _ hm)
    · rw [hmem m hmi, hstep] at hm
      exact absurd hmi (hold m hm)
    · rw [hstep]
      exact scanAt_unflagged_of_ratio sqrt p_1 p_2 i h8

/-- C4 at a concrete input: one outer point at 0 against inner points at 5 and
4. The scan ends with `bestDist = 4` and `bestDist_2 = 5`, a ratio of exactly
0.8: nothing is accepted and the inner index 1 stays unflagged. -/
theorem C4_ratio_test_strict_witness :
    scanAt sqrtExact [pointAt true 0] [pointAt true 5, pointAt true 4] 0 = ⟨4, 1, 5⟩ ∧
      tentativeMatches sqrtExact [pointAt true 0] [pointAt true 5, pointAt true 4] = [] ∧
      (matchLoopUpTo sqrtExact [pointAt true 0] [pointAt true 5, pointAt true 4] (0 + 1) =
          matchLoopUpTo sqrtExact [pointAt true 0] [pointAt true 5, pointAt true 4] 0 ∧
        (matchLoopUpTo sqrtExact [pointAt true 0] [pointAt true 5, pointAt true 4]
          (0 + 1)).alreadyMatched.getD
            (scanAt sqrtExact [pointAt true 0] [pointAt true 5, pointAt true 4] 0).bestIndex.toNat
            false = false) :=
  ⟨by decide!, by decide!,
    (C4_ratio_test_strict sqrtExact [pointAt true 0] [pointAt true 5, pointAt true 4] 0
      (by decide)).2.2.2.2 (by decide!)⟩

/-! ### NormalizeDistances -/

theorem foldl_max_ge_init (l : List MatchedPointPairInfo) (a : ℚ) :
    a ≤ l.foldl (fun max i => if i.euclideanDist > max then i.euclideanDist else max) a := by
  induction l generalizing a with
  | nil => simp
  | cons x xs ih =>
    simp only [List.foldl_cons]
    refine le_trans ?_ (ih _)
    split_ifs with h
    · exact le_of_lt h
    · exact le_refl a

theorem foldl_max_ge_mem (l : List MatchedPointPairInfo) (a : ℚ) :
    ∀ m ∈ l, m.euclideanDist ≤
      l.foldl (fun max i => if i.euclideanDist > max then i.euclideanDist else max) a := by
  induction l generalizing a with
  | nil => simp
  | cons x xs ih =>
    intro m hm
    simp only [List.foldl_cons]
    rcases List.mem_cons.mp hm with h | h
    · subst h
      refine le_trans ?_ (foldl_max_ge_init xs _)
      split_ifs with h
      · exact le_refl _
      · exact not_lt.mp h
    · exact ih _ m h

theorem foldl_max_eq (l : List MatchedPointPairInfo) (a : ℚ) :
    l.foldl (fun max i => if i.euclideanDist > max then i.euclideanDist else max) a = a ∨
      ∃ m ∈ l, m.euclideanDist =
        l.foldl (fun max i => if i.euclideanDist > max then i.euclideanDist else max) a := by
  induction l generalizing a with
  | nil => simp
  | cons x xs ih =>
    simp only [List.foldl_cons]
    rcases ih (if x.euclideanDist > a then x.euclideanDist else a) with h | ⟨m, hm, hm2⟩
    · by_cases hx : x.euclideanDist > a
      · right
        rw [if_pos hx] at h ⊢
        exact ⟨x, List.mem_cons_self _ _, h.symm⟩
      · left
        rw [if_neg hx] at h ⊢
        exact h
    · exact Or.inr ⟨m, List.mem_cons_of_mem _ hm, hm2⟩

/-- C5: for a list of triples with non-negative distances, `maxDistance` (the
`max` of the source) bounds every distance, is attained when the list is not
empty and is 0 when it is empty; when it is not 0 `NormalizeDistances` divides
every distance by it and keeps both index fields, when it is 0 the list is
returned unchanged; length and the two index columns are kept in every case.
For the distances 2, 4, 8 the result is 1/4, 1/2, 1 and the final filter at
threshold 1/2 keeps the first two triples. -/
theorem C5_normalize_distances (l : List MatchedPointPairInfo)
    (h : ∀ m ∈ l, 0 ≤ m.euclideanDist) :
    (∀ m ∈ l, m.euclideanDist ≤ maxDistance l) ∧
      (l ≠ [] → ∃ m ∈ l, m.euclideanDist = maxDistance l) ∧
      (l = [] → maxDistance l = 0) ∧
      (maxDistance l ≠ 0 → NormalizeDistances l =
        l.map (fun m => ⟨m.ind_1, m.ind_2, m.euclideanDist / maxDistance l⟩)) ∧
      (maxDistance l = 0 → NormalizeDistances l = l) ∧
      (NormalizeDistances l).length = l.length ∧
      (NormalizeDistances l).map MatchedPointPairInfo.ind_1 =
        l.map MatchedPointPairInfo.ind_1 ∧
      (NormalizeDistances l).map MatchedPointPairInfo.ind_2 =
        l.map MatchedPointPairInfo.ind_2 ∧
      NormalizeDistances [⟨0, 0, 2⟩, ⟨1, 1, 4⟩, ⟨2, 2, 8⟩] =
        [⟨0, 0, 1 / 4⟩, ⟨1, 1, 1 / 2⟩, ⟨2, 2, 1⟩] ∧
      finalFilter (1 / 2) (NormalizeDistances [⟨0, 0, 2⟩, ⟨1, 1, 4⟩, ⟨2, 2, 8⟩]) =
        [⟨0, 0, 1 / 4⟩, ⟨1, 1, 1 / 2⟩] ∧
      (finalFilter (1 / 2) (NormalizeDistances [⟨0, 0, 2⟩, ⟨1, 1, 4⟩, ⟨2, 2, 8⟩])).length = 2 := by
  refine ⟨foldl_max_ge_mem l 0, fun hne => ?_, fun hnil => by rw [hnil]; rfl, fun hM => ?_,
    fun hM => ?_, NormalizeDistances_length l, NormalizeDistances_map_ind_1 l,
    NormalizeDistances_map_ind_2 l, by decide!, by decide!, by decide!⟩
  · rcases foldl_max_eq l 0 with h0 | hex
    · obtain ⟨x, hx⟩ := List.exists_mem_of_ne_nil l hne
      refine ⟨x, hx, ?_⟩
      have h1 : x.euclideanDist ≤ maxDistance l := foldl_max_ge_mem l 0 x hx
      have h2 : maxDistance l = 0 := h0
      exact le_antisymm h1 (h2 ▸ h x hx)
    · exact hex
  · unfold NormalizeDistances
    simp only [hM, ne_eq, not_false_eq_true, if_true]
  · unfold NormalizeDistances
    simp [hM]

/-- C5 at the distances 2, 4, 8. -/
theorem C5_normalize_distances_witness :
    (∀ m ∈ [(⟨0, 0, 2⟩ : MatchedPointPairInfo), ⟨1, 1, 4⟩, ⟨2, 2, 8⟩], 0 ≤ m.euclideanDist) ∧
      maxDistance [⟨0, 0, 2⟩, ⟨1, 1, 4⟩, ⟨2, 2, 8⟩] = 8 ∧
      (∀ m ∈ [(⟨0, 0, 2⟩ : MatchedPointPairInfo), ⟨1, 1, 4⟩, ⟨2, 2, 8⟩],
        m.euclideanDist ≤ maxDistance [⟨0, 0, 2⟩, ⟨1, 1, 4⟩, ⟨2, 2, 8⟩]) :=
  ⟨by decide!, by decide!,
    (C5_normalize_distances [⟨0, 0, 2⟩, ⟨1, 1, 4⟩, ⟨2, 2, 8⟩] (by decide!)).1⟩

/-! ### The final filter and the emitted pairs -/

/-- C6: the call appends one pair per triple of `emittedInfos`, in list order;
a triple is in `emittedInfos` exactly when it is a normalized tentative match
whose distance is `<= dfThreshold`; `emittedInfos` is a sublist of the
normalized tentative matches, which are the tentative matches with their
index fields kept; no triple is emitted twice; and the outer indices of the
emitted triples are strictly ascending. -/
theorem C6_emitted_are_filtered_ascending (sqrt : ℚ → ℚ)
    (matched : List (GDALFeaturePoint × GDALFeaturePoint))
    (first second : List GDALFeaturePoint) (dfThreshold : ℚ) :
    MatchFeaturePoints sqrt (some matched) (some first) (some second) dfThreshold =
        (CPLErr.CE_None, some (matched ++
          (emittedInfos sqrt (orient first second).p_1 (orient first second).p_2
            dfThreshold).map (toPair (orient first second)))) ∧
      (∀ m, m ∈ emittedInfos sqrt (orient first second).p_1 (orient first second).p_2
            dfThreshold ↔
          m ∈ NormalizeDistances
              (tentativeMatches sqrt (orient first second).p_1 (orient first second).p_2) ∧
            m.euclideanDist ≤ dfThreshold) ∧
      (emittedInfos sqrt (orient first second).p_1 (orient first second).p_2
          dfThreshold).Sublist
        (NormalizeDistances
          (tentativeMatches sqrt (orient first second).p_1 (orient first second).p_2)) ∧
      (NormalizeDistances
          (tentativeMatches sqrt (orient first second).p_1 (orient first second).p_2)).map
          MatchedPointPairInfo.ind_1 =
        (tentativeMatches sqrt (orient first second).p_1 (orient first second).p_2).map
          MatchedPointPairInfo.ind_1 ∧
      (NormalizeDistances
          (tentativeMatches sqrt (orient first second).p_1 (orient first second).p_2)).map
          MatchedPointPairInfo.ind_2 =
        (tentativeMatches sqrt (orient first second).p_1 (orient first second).p_2).map
          MatchedPointPairInfo.ind_2 ∧
      (emittedInfos sqrt (orient first second).p_1 (orient first second).p_2
          dfThreshold).Nodup ∧
      ((emittedInfos sqrt (orient first second).p_1 (orient first second).p_2
          dfThreshold).map MatchedPointPairInfo.ind_1).Pairwise (fun a b => a < b) := by
  have hasc := emittedInfos_ascending sqrt (orient first second).p_1
    (orient first second).p_2 dfThreshold
  refine ⟨MatchFeaturePoints_some sqrt matched first second dfThreshold, fun m => ?_,
    finalFilter_sublist dfThreshold _, NormalizeDistances_map_ind_1 _,
    NormalizeDistances_map_ind_2 _, ?_, hasc⟩
  · unfold emittedInfos finalFilter
    simp [List.mem_filter]
  · have hnd : ((emittedInfos sqrt (orient first second).p_1 (orient first second).p_2
        dfThreshold).map MatchedPointPairInfo.ind_1).Nodup :=
      hasc.imp (fun hab => Nat.ne_of_lt hab)
    exact List.Nodup.of_map _ hnd

theorem orient_cases (first second : List GDALFeaturePoint) :
    (second.length ≤ first.length ∧ orient first second = ⟨second, first, true⟩) ∨
      (first.length < second.length ∧ orient first second = ⟨first, second, false⟩) := by
  unfold orient
  by_cases h : first.length < second.length
  · right
    have hne : first.length ≠ second.length := Nat.ne_of_lt h
    simp [h, hne]
  · left
    simp [h, not_lt.mp h]

/-- The indices of a tentative match are in range. -/
theorem tentativeMatches_bound (sqrt : ℚ → ℚ) (p_1 p_2 : List GDALFeaturePoint) :
    ∀ m ∈ tentativeMatches sqrt p_1 p_2,
      m.ind_1 < p_1.length ∧ 0 ≤ m.ind_2 ∧ m.ind_2.toNat < p_2.length := by
  intro m hm
  obtain ⟨h1, j, hj1, hj2, _⟩ := (loopInv_matchLoopUpTo sqrt p_1 p_2 p_1.length).bound m hm
  refine ⟨h1, by rw [hj1]; exact Int.ofNat_nonneg j, ?_⟩
  rw [hj1]
  simpa using hj2

theorem emittedInfos_bound (sqrt : ℚ → ℚ) (p_1 p_2 : List GDALFeaturePoint) (thr : ℚ) :
    ∀ m ∈ emittedInfos sqrt p_1 p_2 thr,
      m.ind_1 < p_1.length ∧ 0 ≤ m.ind_2 ∧ m.ind_2.toNat < p_2.length := by
  intro m hm
  have h1 : m.ind_1 ∈ (tentativeMatches sqrt p_1 p_2).map MatchedPointPairInfo.ind_1 :=
    (emittedInfos_ind_1_sublist sqrt p_1 p_2 thr).subset (List.mem_map_of_mem _ hm)
  have h2 : m.ind_2 ∈ (tentativeMatches sqrt p_1 p_2).map MatchedPointPairInfo.ind_2 :=
    (emittedInfos_ind_2_sublist sqrt p_1 p_2 thr).subset (List.mem_map_of_mem _ hm)
  obtain ⟨a, ha, ha2⟩ := List.mem_map.mp h1
  obtain ⟨b, hb, hb2⟩ := List.mem_map.mp h2
  have hA := tentativeMatches_bound sqrt p_1 p_2 a ha
  have hB := tentativeMatches_bound sqrt p_1 p_2 b hb
  rw [ha2] at hA
  rw [hb2] at hB
  exact ⟨hA.1, hB.2⟩

theorem getD_mem (l : List GDALFeaturePoint) (i : Nat) (h : i < l.length) :
    l.getD i default ∈ l := by
  rw [List.getD_eq_getElem l default h]
  exact List.getElem_mem h

/-- C7: the outer collection `p_1` is one of the two collections, the inner
`p_2` is the other, `p_1` has the smaller size (the minimum of the two, the
second collection on equal sizes), and every pair the call appends has its
first component in the first collection and its second component in the second
collection. -/
theorem C7_orientation_and_labels (sqrt : ℚ → ℚ)
    (matched : List (GDALFeaturePoint × GDALFeaturePoint))
    (first second : List GDALFeaturePoint) (dfThreshold : ℚ) :
    (orient first second).p_1.length = min first.length second.length ∧
      (orient first second).p_1.length ≤ (orient first second).p_2.length ∧
      (((orient first second).p_1 = first ∧ (orient first second).p_2 = second ∧
          (orient first second).isSwap = false) ∨
        ((orient first second).p_1 = second ∧ (orient first second).p_2 = first ∧
          (orient first second).isSwap = true)) ∧
      MatchFeaturePoints sqrt (some matched) (some first) (some second) dfThreshold =
        (CPLErr.CE_None, some (matched ++ emittedPairs sqrt first second dfThreshold)) ∧
      (∀ uv ∈ emittedPairs sqrt first second dfThreshold, uv.1 ∈ first ∧ uv.2 ∈ second) := by
  have hpairs : ∀ uv ∈ emittedPairs sqrt first second dfThreshold,
      uv.1 ∈ first ∧ uv.2 ∈ second := by
    intro uv huv
    unfold emittedPairs at huv
    obtain ⟨m, hm, rfl⟩ := List.mem_map.mp huv
    have hb := emittedInfos_bound sqrt _ _ dfThreshold m hm
    rcases orient_cases first second with ⟨_, ho⟩ | ⟨_, ho⟩
    · rw [ho] at hb
      simp only [toPair, ho]
      exact ⟨getD_mem first _ hb.2.2, getD_mem second _ hb.1⟩
    · rw [ho] at hb
      simp only [toPair, ho]
      exact ⟨getD_mem first _ hb.1, getD_mem second _ hb.2.2⟩
  refine ⟨?_, ?_, ?_, rfl, hpairs⟩
  · rcases orient_cases first second with ⟨h, ho⟩ | ⟨h, ho⟩
    · rw [ho]; exact (Nat.min_eq_right h).symm
    · rw [ho]; exact (Nat.min_eq_left (Nat.le_of_lt h)).symm
  · rcases orient_cases first second with ⟨h, ho⟩ | ⟨h, ho⟩
    · rw [ho]; exact h
    · rw [ho]; exact Nat.le_of_lt h
  · rcases orient_cases first second with ⟨_, ho⟩ | ⟨_, ho⟩
    · rw [ho]; exact Or.inr ⟨rfl, rfl, rfl⟩
    · rw [ho]; exact Or.inl ⟨rfl, rfl, rfl⟩

/-! ### Exchanging the two collections -/

/-- C8 (counterexample): two collections of two points each, all of one sign,
whose four cross distances 5, 7, 1, 3 are distinct (and distinct from the
distances 4 and 2 inside each collection). Called with
`(tiedSizeA, tiedSizeB)` at threshold 1 the matcher emits the pair (point at 1,
point at 0); called with `(tiedSizeB, tiedSizeA)` it emits nothing, so the
pair (point at 0, point at 1) is missing. -/
theorem C8_counterexample_equal_sizes :
    tiedSizeA.length = tiedSizeB.length ∧
      (tiedSizeA.product tiedSizeB).map
        (fun ab => GetEuclideanDistance sqrtExact ab.1 ab.2) = [5, 7, 1, 3] ∧
      ((tiedSizeA.product tiedSizeB).map
        (fun ab => GetEuclideanDistance sqrtExact ab.1 ab.2)).Nodup ∧
      GetEuclideanDistance sqrtExact (pointAt true 5) (pointAt true 1) = 4 ∧
      GetEuclideanDistance sqrtExact (pointAt true 0) (pointAt true (-2)) = 2 ∧
      emittedPairs sqrtExact tiedSizeA tiedSizeB 1 = [(pointAt true 1, pointAt true 0)] ∧
      emittedPairs sqrtExact tiedSizeB tiedSizeA 1 = [] ∧
      (pointAt true 1, pointAt true 0) ∈ emittedPairs sqrtExact tiedSizeA tiedSizeB 1 ∧
      (pointAt true 0, pointAt true 1) ∉ emittedPairs sqrtExact tiedSizeB tiedSizeA 1 := by
  decide!

theorem orient_of_lt (first second : List GDALFeaturePoint)
    (h : first.length < second.length) :
    orient first second = ⟨first, second, false⟩ ∧
      orient second first = ⟨first, second, true⟩ := by
  constructor
  · rcases orient_cases first second with ⟨h2, _⟩ | ⟨_, ho⟩
    · omega
    · exact ho
  · rcases orient_cases second first with ⟨_, ho⟩ | ⟨h2, _⟩
    · exact ho
    · omega

theorem emittedPairs_swap_of_lt (sqrt : ℚ → ℚ) (first second : List GDALFeaturePoint)
    (thr : ℚ) (h : first.length < second.length) :
    emittedPairs sqrt second first thr =
      (emittedPairs sqrt first second thr).map Prod.swap := by
  obtain ⟨h1, h2⟩ := orient_of_lt first second h
  unfold emittedPairs
  rw [h1, h2, List.map_map]
  apply List.map_congr_left
  intro m _
  simp [toPair]

theorem emittedPairs_swap (sqrt : ℚ → ℚ) (first second : List GDALFeaturePoint)
    (thr : ℚ) (h : first.length ≠ second.length) :
    emittedPairs sqrt second first thr =
      (emittedPairs sqrt first second thr).map Prod.swap := by
  rcases Nat.lt_or_gt_of_ne h with hlt | hgt
  · exact emittedPairs_swap_of_lt sqrt first second thr hlt
  · rw [emittedPairs_swap_of_lt sqrt second first thr hgt, List.map_map]
    simp

/-- C8 (amended): for collections of different sizes, with or without ties and
for every threshold, the call with the collections exchanged emits the same
pairs in the same order with the two components exchanged; so `(a, b)` is
emitted by the first call if and only if `(b, a)` is emitted by the second. -/
theorem C8_swap_symmetric_of_sizes_ne (sqrt : ℚ → ℚ)
    (matched : List (GDALFeaturePoint × GDALFeaturePoint))
    (first second : List GDALFeaturePoint) (dfThreshold : ℚ)
    (h : first.length ≠ second.length) :
    MatchFeaturePoints sqrt (some matched) (some first) (some second) dfThreshold =
        (CPLErr.CE_None, some (matched ++ emittedPairs sqrt first second dfThreshold)) ∧
      MatchFeaturePoints sqrt (some matched) (some second) (some first) dfThreshold =
        (CPLErr.CE_None, some (matched ++
          (emittedPairs sqrt first second dfThreshold).map Prod.swap)) ∧
      (∀ a b, (a, b) ∈ emittedPairs sqrt first second dfThreshold ↔
        (b, a) ∈ emittedPairs sqrt second first dfThreshold) := by
  have hsw := emittedPairs_swap sqrt first second dfThreshold h
  refine ⟨rfl, ?_, fun a b => ?_⟩
  · rw [← hsw]; rfl
  · rw [hsw, List.mem_map]
    constructor
    · intro hab
      exact ⟨(a, b), hab, rfl⟩
    · rintro ⟨⟨x, y⟩, hxy, heq⟩
      simp only [Prod.swap_prod_mk, Prod.mk.injEq] at heq
      obtain ⟨rfl, rfl⟩ := heq
      exact hxy

/-- C8 (amended) at a concrete input: two outer points against three inner
points; both calls emit the two matches, the second with the components
exchanged. -/
theorem C8_swap_symmetric_of_sizes_ne_witness :
    exampleOuter.length ≠ exampleInner.length ∧
      emittedPairs sqrtExact exampleOuter exampleInner 1 =
        [(pointAt true 0, pointAt true 2), (pointAt true 1, pointAt true 7)] ∧
      (MatchFeaturePoints sqrtExact (some []) (some exampleOuter) (some exampleInner) 1 =
          (CPLErr.CE_None, some ([] ++ emittedPairs sqrtExact exampleOuter exampleInner 1)) ∧
        MatchFeaturePoints sqrtExact (some []) (some exampleInner) (some exampleOuter) 1 =
          (CPLErr.CE_None, some ([] ++
            (emittedPairs sqrtExact exampleOuter exampleInner 1).map Prod.swap)) ∧
        (∀ a b, (a, b) ∈ emittedPairs sqrtExact exampleOuter exampleInner 1 ↔
          (b, a) ∈ emittedPairs sqrtExact exampleInner exampleOuter 1)) :=
  ⟨by decide, by decide!,
    C8_swap_symmetric_of_sizes_ne sqrtExact [] exampleOuter exampleInner 1 (by decide)⟩

/-! ### Status and degenerate inputs -/

/-- C9: the call returns `CE_Failure` exactly when the matched collection, the
first collection or the second collection is `NULL`; when it fails the matched
collection is what it was; and when all three are set it returns `CE_None`. -/
theorem C9_failure_iff_unset (sqrt : ℚ → ℚ)
    (poMatched : Option (List (GDALFeaturePoint × GDALFeaturePoint)))
    (poFirstCollect poSecondCollect : Option (List GDALFeaturePoint)) (dfThreshold : ℚ) :
    ((MatchFeaturePoints sqrt poMatched poFirstCollect poSecondCollect dfThreshold).1 =
          CPLErr.CE_Failure ↔
        (poMatched = none ∨ poFirstCollect = none ∨ poSecondCollect = none)) ∧
      ((MatchFeaturePoints sqrt poMatched poFirstCollect poSecondCollect dfThreshold).1 =
          CPLErr.CE_Failure →
        (MatchFeaturePoints sqrt poMatched poFirstCollect poSecondCollect dfThreshold).2 =
          poMatched) ∧
      ((poMatched ≠ none ∧ poFirstCollect ≠ none ∧ poSecondCollect ≠ none) →
        (MatchFeaturePoints sqrt poMatched poFirstCollect poSecondCollect dfThreshold).1 =
          CPLErr.CE_None) := by
  cases poMatched <;> cases poFirstCollect <;> cases poSecondCollect <;>
    simp [MatchFeaturePoints]

theorem tentativeMatches_nil (sqrt : ℚ → ℚ) (p_2 : List GDALFeaturePoint) :
    tentativeMatches sqrt [] p_2 = [] := by
  simp [tentativeMatches, matchLoopUpTo, MatchState.init]

theorem emittedInfos_nil (sqrt : ℚ → ℚ) (p_2 : List GDALFeaturePoint) (thr : ℚ) :
    emittedInfos sqrt [] p_2 thr = [] := by
  simp [emittedInfos, tentativeMatches_nil, NormalizeDistances, maxDistance, finalFilter]

/-- C10: when the three arguments are set and one of the two collections is
empty, the call returns `CE_None` and the matched collection is what it was. -/
theorem C10_empty_collection (sqrt : ℚ → ℚ)
    (matched : List (GDALFeaturePoint × GDALFeaturePoint))
    (first second : List GDALFeaturePoint) (dfThreshold : ℚ)
    (h : first = [] ∨ second = []) :
    MatchFeaturePoints sqrt (some matched) (some first) (some second) dfThreshold =
        (CPLErr.CE_None, some matched) ∧
      emittedPairs sqrt first second dfThreshold = [] := by
  have hp1 : (orient first second).p_1 = [] := by
    rcases orient_cases first second with ⟨hle, ho⟩ | ⟨hlt, ho⟩
    · rw [ho]
      rcases h with h | h
      · subst h
        exact List.eq_nil_of_length_eq_zero (Nat.le_zero.mp hle)
      · exact h
    · rw [ho]
      rcases h with h | h
      · exact h
      · subst h
        exact absurd hlt (Nat.not_lt_zero _)
  have hem : emittedPairs sqrt first second dfThreshold = [] := by
    unfold emittedPairs
    simp only [hp1, emittedInfos_nil, List.map_nil]
  refine ⟨?_, hem⟩
  simp [MatchFeaturePoints, hem]

/-- C10 at concrete inputs: an empty first collection against three points. -/
theorem C10_empty_collection_witness :
    (([] : List GDALFeaturePoint) = [] ∨ exampleInner = []) ∧
      MatchFeaturePoints sqrtExact (some [(pointAt true 3, pointAt false 4)]) (some [])
          (some exampleInner) 1 =
        (CPLErr.CE_None, some [(pointAt true 3, pointAt false 4)]) ∧
      emittedPairs sqrtExact [] exampleInner 1 = [] :=
  ⟨Or.inl rfl,
    C10_empty_collection sqrtExact [(pointAt true 3, pointAt false 4)] [] exampleInner 1
      (Or.inl rfl)⟩

/-! ### Signs of the emitted pairs -/

theorem mem_NormalizeDistances (l : List MatchedPointPairInfo) (m : MatchedPointPairInfo)
    (h : m ∈ NormalizeDistances l) :
    ∃ m0 ∈ l, m0.ind_1 = m.ind_1 ∧ m0.ind_2 = m.ind_2 ∧
      (m.euclideanDist = m0.euclideanDist / maxDistance l ∨
        (maxDistance l = 0 ∧ m = m0)) := by
  unfold NormalizeDistances at h
  by_cases hM : maxDistance l ≠ 0
  · simp only [hM, ne_eq, not_false_eq_true, if_true] at h
    obtain ⟨m0, hm0, rfl⟩ := List.mem_map.mp h
    exact ⟨m0, hm0, rfl, rfl, Or.inl rfl⟩
  · have hM0 : maxDistance l = 0 := not_not.mp hM
    simp only [hM0, ne_eq, not_true_eq_false, if_false] at h
    exact ⟨m, h, rfl, rfl, Or.inr ⟨hM0, rfl⟩⟩

theorem mem_emittedInfos (sqrt : ℚ → ℚ) (p_1 p_2 : List GDALFeaturePoint) (thr : ℚ)
    (m : MatchedPointPairInfo) (h : m ∈ emittedInfos sqrt p_1 p_2 thr) :
    m ∈ NormalizeDistances (tentativeMatches sqrt p_1 p_2) ∧ m.euclideanDist ≤ thr := by
  unfold emittedInfos finalFilter at h
  simpa [List.mem_filter] using h

/-- The two points of a tentative match have the same sign. -/
theorem emittedInfos_sign (sqrt : ℚ → ℚ) (p_1 p_2 : List GDALFeaturePoint) (thr : ℚ)
    (m : MatchedPointPairInfo) (h : m ∈ emittedInfos sqrt p_1 p_2 thr) :
    (p_1.getD m.ind_1 default).nSign = (p_2.getD m.ind_2.toNat default).nSign := by
  obtain ⟨m0, hm0, h1, h2, _⟩ :=
    mem_NormalizeDistances _ m (mem_emittedInfos sqrt p_1 p_2 thr m h).1
  obtain ⟨_, j, hj1, _, _, hj4⟩ :=
    (loopInv_matchLoopUpTo sqrt p_1 p_2 p_1.length).bound m0 hm0
  rw [← h1, ← h2, hj1]
  simpa using hj4

/-- C16: the call appends the pairs `emittedPairs`, and the two points of every
one of these pairs have the same sign flag. -/
theorem C16_emitted_pairs_same_sign (sqrt : ℚ → ℚ)
    (matched : List (GDALFeaturePoint × GDALFeaturePoint))
    (first second : List GDALFeaturePoint) (dfThreshold : ℚ) :
    MatchFeaturePoints sqrt (some matched) (some first) (some second) dfThreshold =
        (CPLErr.CE_None, some (matched ++ emittedPairs sqrt first second dfThreshold)) ∧
      (∀ uv ∈ emittedPairs sqrt first second dfThreshold, uv.1.nSign = uv.2.nSign) := by
  refine ⟨rfl, fun uv huv => ?_⟩
  unfold emittedPairs at huv
  obtain ⟨m, hm, rfl⟩ := List.mem_map.mp huv
  have hs := emittedInfos_sign sqrt _ _ dfThreshold m hm
  unfold toPair
  by_cases hsw : (orient first second).isSwap = false
  · simp only [hsw, if_true]
    exact hs
  · simp only [hsw, if_false]
    exact hs.symm

/-! ### Fewer than two candidates -/

theorem candidate_unique_of_count_lt_two (p : GDALFeaturePoint) (p_2 : List GDALFeaturePoint)
    (am : List Bool) (h : candidateCount p p_2 am < 2) (j k : Nat)
    (hj : j < p_2.length) (hk : k < p_2.length)
    (hcj : isCandidate p p_2 am j) (hck : isCandidate p p_2 am k) : j = k := by
  by_contra hne
  have hsub : [j, k] ⊆ (List.range p_2.length).filter
      (fun j => decide (isCandidate p p_2 am j)) := by
    intro x hx
    simp only [List.mem_cons, List.mem_singleton, List.not_mem_nil, or_false] at hx
    rcases hx with rfl | rfl
    · exact List.mem_filter.mpr ⟨List.mem_range.mpr hj, by simpa using hcj⟩
    · exact List.mem_filter.mpr ⟨List.mem_range.mpr hk, by simpa using hck⟩
  have hnd : [j, k].Nodup := by simp [hne]
  have hle := (List.subperm_of_subset hnd hsub).length_le
  unfold candidateCount at h
  simp only [List.length_cons, List.length_nil] at hle
  omega

theorem innerStep_init (sqrt : ℚ → ℚ) (p : GDALFeaturePoint)
    (p_2 : List GDALFeaturePoint) (am : List Bool) (j : Nat)
    (h : isCandidate p p_2 am j) :
    innerStep sqrt p p_2 am BestState.init j =
      ⟨distTo sqrt p p_2 j, (j : Int), distTo sqrt p p_2 j⟩ := by
  obtain ⟨h1, h2⟩ := h
  unfold innerStep distTo BestState.init
  simp only [h1, h2, if_true]
  norm_num

/-- With at most one candidate the scan ends with the initial locals or with
`bestDist = bestDist_2`, the distance of the single candidate. -/
theorem innerScanUpTo_of_unique (sqrt : ℚ → ℚ) (p : GDALFeaturePoint)
    (p_2 : List GDALFeaturePoint) (am : List Bool)
    (huniq : ∀ j k, j < p_2.length → k < p_2.length →
      isCandidate p p_2 am j → isCandidate p p_2 am k → j = k)
    (n : Nat) (hn : n ≤ p_2.length) :
    innerScanUpTo sqrt p p_2 am n = BestState.init ∨
      ∃ j : Nat, j < n ∧ isCandidate p p_2 am j ∧
        innerScanUpTo sqrt p p_2 am n =
          ⟨distTo sqrt p p_2 j, (j : Int), distTo sqrt p p_2 j⟩ := by
  induction n with
  | zero => left; exact innerScanUpTo_zero sqrt p p_2 am
  | succ n ih =>
    have hn1 : n ≤ p_2.length := Nat.le_of_succ_le hn
    have hn2 : n < p_2.length := hn
    rw [innerScanUpTo_succ]
    by_cases hc : isCandidate p p_2 am n
    · right
      rcases ih hn1 with h0 | ⟨j, hj, hcj, _⟩
      · rw [h0, innerStep_init sqrt p p_2 am n hc]
        exact ⟨n, Nat.lt_succ_self n, hc, rfl⟩
      · have := huniq j n (Nat.lt_of_lt_of_le hj hn1) hn2 hcj hc
        omega
    · rw [innerStep_of_not_candidate sqrt p p_2 am _ n hc]
      rcases ih hn1 with h0 | ⟨j, hj, hcj, hst⟩
      · exact Or.inl h0
      · exact Or.inr ⟨j, Nat.lt_succ_of_lt hj, hcj, hst⟩

theorem not_ratioTest_init : ¬ ratioTest BestState.init := by
  unfold ratioTest BestState.init
  norm_num

theorem not_ratioTest_same (d : ℚ) (j : Int) : ¬ ratioTest ⟨d, j, d⟩ := by
  unfold ratioTest ratioThreshold
  rintro ⟨⟨h1, _⟩, h3⟩
  have hd : d ≠ 0 := ne_of_gt h1
  simp only [div_self hd] at h3
  norm_num at h3

/-- An outer iteration that rejects leaves no triple of its outer index in the
list of tentative matches. -/
theorem tentativeMatches_no_index (sqrt : ℚ → ℚ) (p_1 p_2 : List GDALFeaturePoint) (i : Nat)
    (h : ¬ ratioTest (scanAt sqrt p_1 p_2 i)) :
    ∀ m ∈ tentativeMatches sqrt p_1 p_2, m.ind_1 ≠ i := by
  intro m hm hmi
  by_cases hi : i < p_1.length
  · have hfl := tentativeMatches_filter sqrt p_1 p_2 (i + 1) hi
    have hstep := matchLoopUpTo_succ_of_not_ratioTest sqrt p_1 p_2 i h
    have hm2 : m ∈ (matchLoopUpTo sqrt p_1 p_2 (i + 1)).pairInfoList := by
      rw [← hfl]
      exact List.mem_filter.mpr ⟨hm, by simp [hmi]⟩
    rw [hstep] at hm2
    have := ((loopInv_matchLoopUpTo sqrt p_1 p_2 i).bound m hm2).1
    omega
  · have := (tentativeMatches_bound sqrt p_1 p_2 m hm).1
    omega

theorem emittedPairs_eq_nil_of_tentative (sqrt : ℚ → ℚ) (first second : List GDALFeaturePoint)
    (thr : ℚ)
    (h : tentativeMatches sqrt (orient first second).p_1 (orient first second).p_2 = []) :
    emittedPairs sqrt first second thr = [] := by
  unfold emittedPairs emittedInfos
  simp [h, NormalizeDistances, maxDistance, finalFilter]

theorem candidateCount_le_length (p : GDALFeaturePoint) (p_2 : List GDALFeaturePoint)
    (am : List Bool) : candidateCount p p_2 am ≤ p_2.length := by
  unfold candidateCount
  have := List.length_filter_le
    (fun j => decide (isCandidate p p_2 am j)) (List.range p_2.length)
  simpa using this

/-- C17: an outer point with fewer than two candidates (unflagged inner points
of its sign) fails the ratio test: its iteration leaves the list and the flags
as they were and no tentative match carries its outer index. Consequently,
when the larger of the two collections has a single point, the call emits no
pair. -/
theorem C17_fewer_than_two_candidates (sqrt : ℚ → ℚ) (p_1 p_2 : List GDALFeaturePoint)
    (i : Nat)
    (h : candidateCount (p_1.getD i default) p_2
      (matchLoopUpTo sqrt p_1 p_2 i).alreadyMatched < 2) :
    ¬ ((scanAt sqrt p_1 p_2 i).bestDist_2 > 0 ∧ (scanAt sqrt p_1 p_2 i).bestDist ≥ 0 ∧
        (scanAt sqrt p_1 p_2 i).bestDist / (scanAt sqrt p_1 p_2 i).bestDist_2 < 0.8) ∧
      matchLoopUpTo sqrt p_1 p_2 (i + 1) = matchLoopUpTo sqrt p_1 p_2 i ∧
      (∀ m ∈ tentativeMatches sqrt p_1 p_2, m.ind_1 ≠ i) ∧
      (∀ (first second : List GDALFeaturePoint) (dfThreshold : ℚ),
        max first.length second.length = 1 →
          emittedPairs sqrt first second dfThreshold = []) := by
  have key : ∀ (q_1 q_2 : List GDALFeaturePoint) (k : Nat),
      candidateCount (q_1.getD k default) q_2
        (matchLoopUpTo sqrt q_1 q_2 k).alreadyMatched < 2 →
      ¬ ratioTest (scanAt sqrt q_1 q_2 k) := by
    intro q_1 q_2 k hk
    have huniq := candidate_unique_of_count_lt_two _ _ _ hk
    unfold scanAt innerScan
    rcases innerScanUpTo_of_unique sqrt _ q_2 _ huniq q_2.length (Nat.le_refl _) with
      h0 | ⟨j, _, _, hst⟩
    · rw [h0]; exact not_ratioTest_init
    · rw [hst]; exact not_ratioTest_same _ _
  have hr := key p_1 p_2 i h
  refine ⟨fun hacc => hr ((ratioTest_iff _).mpr hacc),
    matchLoopUpTo_succ_of_not_ratioTest sqrt p_1 p_2 i hr,
    tentativeMatches_no_index sqrt p_1 p_2 i hr, fun first second thr hmax => ?_⟩
  apply emittedPairs_eq_nil_of_tentative
  have hlen : (orient first second).p_2.length ≤ 1 := by
    rcases orient_cases first second with ⟨_, ho⟩ | ⟨_, ho⟩
    · rw [ho]; simp only; rw [← hmax]; exact Nat.le_max_left _ _
    · rw [ho]; simp only; rw [← hmax]; exact Nat.le_max_right _ _
  rw [List.eq_nil_iff_forall_not_mem]
  intro m hm
  have hcnt : candidateCount ((orient first second).p_1.getD m.ind_1 default)
      (orient first second).p_2
      (matchLoopUpTo sqrt (orient first second).p_1 (orient first second).p_2
        m.ind_1).alreadyMatched < 2 :=
    Nat.lt_of_le_of_lt (candidateCount_le_length _ _ _) (Nat.lt_succ_of_le hlen)
  exact tentativeMatches_no_index sqrt _ _ m.ind_1 (key _ _ _ hcnt) m hm rfl

/-- C17 at a concrete input: one outer point at 0 against one inner point at
5. The single candidate gives `bestDist = bestDist_2 = 5`; nothing is accepted. -/
theorem C17_fewer_than_two_candidates_witness :
    candidateCount ([pointAt true 0].getD 0 default) [pointAt true 5]
        (matchLoopUpTo sqrtExact [pointAt true 0] [pointAt true 5] 0).alreadyMatched = 1 ∧
      scanAt sqrtExact [pointAt true 0] [pointAt true 5] 0 = ⟨5, 0, 5⟩ ∧
      tentativeMatches sqrtExact [pointAt true 0] [pointAt true 5] = [] ∧
      matchLoopUpTo sqrtExact [pointAt true 0] [pointAt true 5] (0 + 1) =
        matchLoopUpTo sqrtExact [pointAt true 0] [pointAt true 5] 0 :=
  ⟨by decide!, by decide!, by decide!,
    (C17_fewer_than_two_candidates sqrtExact [pointAt true 0] [pointAt true 5] 0
      (by decide!)).2.1⟩

/-! ### The first candidate is the nearest -/

theorem innerStep_of_first_nearest (sqrt : ℚ → ℚ) (p : GDALFeaturePoint)
    (p_2 : List GDALFeaturePoint) (am : List Bool) (d : ℚ) (j0 : Int) (k : Nat)
    (hd : 0 ≤ d) (hk : isCandidate p p_2 am k → d ≤ distTo sqrt p p_2 k) :
    innerStep sqrt p p_2 am ⟨d, j0, d⟩ k = ⟨d, j0, d⟩ := by
  by_cases hc : isCandidate p p_2 am k
  · have hle := hk hc
    obtain ⟨h1, h2⟩ := hc
    unfold distTo at hle
    unfold innerStep
    simp only [h1, h2, if_true]
    have hne : d ≠ -1 := by linarith
    have hnlt : ¬ GetEuclideanDistance sqrt p (p_2.getD k default) < d := not_lt.mpr hle
    have hn0 : ¬ d < 0 := not_lt.mpr hd
    simp only [hne, hnlt, hn0, if_false]
    split_ifs with hand
    · exact hand.2.elim
    · rfl
  · exact innerStep_of_not_candidate sqrt p p_2 am _ k hc

/-- When the first candidate met is a nearest one, the scan ends with
`bestDist = bestDist_2`, its distance. -/
theorem innerScanUpTo_of_first_nearest (sqrt : ℚ → ℚ) (hsqrt : ∀ x, 0 ≤ sqrt x)
    (p : GDALFeaturePoint) (p_2 : List GDALFeaturePoint) (am : List Bool) (j0 : Nat)
    (hc : isCandidate p p_2 am j0)
    (hfirst : ∀ k, k < j0 → ¬ isCandidate p p_2 am k)
    (hmin : ∀ k, k < p_2.length → isCandidate p p_2 am k →
      distTo sqrt p p_2 j0 ≤ distTo sqrt p p_2 k)
    (n : Nat) (hn : n ≤ p_2.length) :
    (n ≤ j0 → innerScanUpTo sqrt p p_2 am n = BestState.init) ∧
      (j0 < n → innerScanUpTo sqrt p p_2 am n =
        ⟨distTo sqrt p p_2 j0, (j0 : Int), distTo sqrt p p_2 j0⟩) := by
  induction n with
  | zero => exact ⟨fun _ => innerScanUpTo_zero sqrt p p_2 am, fun h => absurd h (Nat.not_lt_zero _)⟩
  | succ n ih =>
    have hn1 : n ≤ p_2.length := Nat.le_of_succ_le hn
    have hn2 : n < p_2.length := hn
    obtain ⟨ih1, ih2⟩ := ih hn1
    rw [innerScanUpTo_succ]
    constructor
    · intro hle
      have hlt : n < j0 := hle
      rw [ih1 (Nat.le_of_lt hlt)]
      exact innerStep_of_not_candidate sqrt p p_2 am _ n (hfirst n hlt)
    · intro hlt
      rcases Nat.lt_succ_iff_lt_or_eq.mp hlt with h | h
      · rw [ih2 h]
        exact innerStep_of_first_nearest sqrt p p_2 am _ _ n
          (hsqrt _) (fun hcn => hmin n hn2 hcn)
      · subst h
        rw [ih1 (Nat.le_refl _)]
        exact innerStep_init sqrt p p_2 am j0 hc

/-- C18: with a non-negative `sqrt`, when the lowest-index candidate `j0` of the
outer index `i` is at the minimum distance among the candidates, the scan ends
with `bestIndex = j0` and `bestDist_2 = bestDist`, the distance of `j0`; the
ratio test fails, the iteration changes neither the list nor the flags, and no
tentative match carries the outer index `i`. -/
theorem C18_first_candidate_nearest_never_matched (sqrt : ℚ → ℚ) (hsqrt : ∀ x, 0 ≤ sqrt x)
    (p_1 p_2 : List GDALFeaturePoint) (i j0 : Nat) (hj0 : j0 < p_2.length)
    (hc : isCandidate (p_1.getD i default) p_2
      (matchLoopUpTo sqrt p_1 p_2 i).alreadyMatched j0)
    (hfirst : ∀ k, k < j0 → ¬ isCandidate (p_1.getD i default) p_2
      (matchLoopUpTo sqrt p_1 p_2 i).alreadyMatched k)
    (hmin : ∀ k, k < p_2.length → isCandidate (p_1.getD i default) p_2
        (matchLoopUpTo sqrt p_1 p_2 i).alreadyMatched k →
      distTo sqrt (p_1.getD i default) p_2 j0 ≤ distTo sqrt (p_1.getD i default) p_2 k) :
    (scanAt sqrt p_1 p_2 i).bestDist_2 = (scanAt sqrt p_1 p_2 i).bestDist ∧
      (scanAt sqrt p_1 p_2 i).bestDist = distTo sqrt (p_1.getD i default) p_2 j0 ∧
      (scanAt sqrt p_1 p_2 i).bestIndex = (j0 : Int) ∧
      ¬ ((scanAt sqrt p_1 p_2 i).bestDist_2 > 0 ∧ (scanAt sqrt p_1 p_2 i).bestDist ≥ 0 ∧
        (scanAt sqrt p_1 p_2 i).bestDist / (scanAt sqrt p_1 p_2 i).bestDist_2 < 0.8) ∧
      matchLoopUpTo sqrt p_1 p_2 (i + 1) = matchLoopUpTo sqrt p_1 p_2 i ∧
      (∀ m ∈ tentativeMatches sqrt p_1 p_2, m.ind_1 ≠ i) := by
  have hst : scanAt sqrt p_1 p_2 i =
      ⟨distTo sqrt (p_1.getD i default) p_2 j0, (j0 : Int),
        distTo sqrt (p_1.getD i default) p_2 j0⟩ :=
    (innerScanUpTo_of_first_nearest sqrt hsqrt _ p_2 _ j0 hc hfirst hmin p_2.length
      (Nat.le_refl _)).2 hj0
  have hr : ¬ ratioTest (scanAt sqrt p_1 p_2 i) := by
    rw [hst]; exact not_ratioTest_same _ _
  refine ⟨by rw [hst], by rw [hst], by rw [hst],
    fun hacc => hr ((ratioTest_iff _).mpr hacc),
    matchLoopUpTo_succ_of_not_ratioTest sqrt p_1 p_2 i hr,
    tentativeMatches_no_index sqrt p_1 p_2 i hr⟩

/-- C18 at a concrete input: one outer point at 0 against inner points at 1,
5 and 100. The first candidate is the nearest; the scan ends with
`bestDist = bestDist_2 = 1` and nothing is accepted. -/
theorem C18_first_candidate_nearest_never_matched_witness :
    scanAt sqrtExact [pointAt true 0] [pointAt true 1, pointAt true 5, pointAt true 100] 0 =
        ⟨1, 0, 1⟩ ∧
      tentativeMatches sqrtExact [pointAt true 0]
        [pointAt true 1, pointAt true 5, pointAt true 100] = [] ∧
      (scanAt sqrtExact [pointAt true 0]
          [pointAt true 1, pointAt true 5, pointAt true 100] 0).bestDist_2 =
        (scanAt sqrtExact [pointAt true 0]
          [pointAt true 1, pointAt true 5, pointAt true 100] 0).bestDist :=
  ⟨by decide!, by decide!,
    (C18_first_candidate_nearest_never_matched sqrtExact sqrtExact_nonneg [pointAt true 0]
      [pointAt true 1, pointAt true 5, pointAt true 100] 0 0 (by decide) (by decide!)
      (by decide) (by decide!)).1⟩

/-! ### The range of the normalized distances -/

theorem matchLoopUpTo_nonneg (sqrt : ℚ → ℚ) (p_1 p_2 : List GDALFeaturePoint) (n : Nat) :
    ∀ m ∈ (matchLoopUpTo sqrt p_1 p_2 n).pairInfoList, 0 ≤ m.euclideanDist := by
  induction n with
  | zero => simp [matchLoopUpTo_zero, MatchState.init]
  | succ n ih =>
    by_cases hr : ratioTest (scanAt sqrt p_1 p_2 n)
    · rw [matchLoopUpTo_succ_of_ratioTest sqrt p_1 p_2 n hr]
      intro m hm
      rcases List.mem_append.mp hm with h | h
      · exact ih m h
      · simp only [List.mem_singleton] at h
        subst h
        exact hr.1.2
    · rw [matchLoopUpTo_succ_of_not_ratioTest sqrt p_1 p_2 n hr]
      exact ih

theorem maxDistance_nonneg (l : List MatchedPointPairInfo) : 0 ≤ maxDistance l :=
  foldl_max_ge_init l 0

theorem NormalizeDistances_range (l : List MatchedPointPairInfo)
    (h : ∀ m ∈ l, 0 ≤ m.euclideanDist) :
    ∀ m ∈ NormalizeDistances l, 0 ≤ m.euclideanDist ∧ m.euclideanDist ≤ 1 := by
  intro m hm
  obtain ⟨m0, hm0, _, _, hd | ⟨hM, rfl⟩⟩ := mem_NormalizeDistances l m hm
  · rw [hd]
    have h0 := h m0 hm0
    have hle : m0.euclideanDist ≤ maxDistance l := foldl_max_ge_mem l 0 m0 hm0
    exact ⟨div_nonneg h0 (maxDistance_nonneg l),
      div_le_one_of_le₀ hle (maxDistance_nonneg l)⟩
  · have h0 := h m hm0
    have hle : m.euclideanDist ≤ maxDistance l := foldl_max_ge_mem l 0 m hm0
    rw [hM] at hle
    exact ⟨h0, le_trans hle zero_le_one⟩

theorem maxDistance_pos_of_ne_zero (l : List MatchedPointPairInfo)
    (h : ∀ m ∈ l, 0 ≤ m.euclideanDist) (hex : ∃ m ∈ l, m.euclideanDist ≠ 0) :
    0 < maxDistance l := by
  obtain ⟨m, hm, hne⟩ := hex
  have h0 := h m hm
  have hle : m.euclideanDist ≤ maxDistance l := foldl_max_ge_mem l 0 m hm
  exact lt_of_lt_of_le (lt_of_le_of_ne h0 (Ne.symm hne)) hle

/-- C19: every normalized distance of a call lies in `[0, 1]`; every raw
distance is at most `maxDistance`; when some tentative match has a non-zero raw
distance, some normalized distance is exactly 1; with `dfThreshold >= 1` every
normalized tentative match passes the final filter; with `dfThreshold < 1` and
some non-zero raw distance, no emitted triple carries the outer index of a
tentative match of largest raw distance, and a lone tentative match with a
non-zero distance is not emitted. On the outer points 0, 1 against the inner
points 10, 2, 7 the raw distances 2 and 6 become 1/3 and 1 and only the first
passes threshold 1/2. -/
theorem C19_normalized_distances_range (sqrt : ℚ → ℚ) (p_1 p_2 : List GDALFeaturePoint)
    (dfThreshold : ℚ) :
    (∀ m ∈ NormalizeDistances (tentativeMatches sqrt p_1 p_2),
        0 ≤ m.euclideanDist ∧ m.euclideanDist ≤ 1) ∧
      (∀ m ∈ tentativeMatches sqrt p_1 p_2,
        0 ≤ m.euclideanDist ∧ m.euclideanDist ≤ maxDistance (tentativeMatches sqrt p_1 p_2)) ∧
      ((∃ m ∈ tentativeMatches sqrt p_1 p_2, m.euclideanDist ≠ 0) →
        ∃ m ∈ NormalizeDistances (tentativeMatches sqrt p_1 p_2), m.euclideanDist = 1) ∧
      (1 ≤ dfThreshold →
        emittedInfos sqrt p_1 p_2 dfThreshold =
          NormalizeDistances (tentativeMatches sqrt p_1 p_2)) ∧
      (dfThreshold < 1 → (∃ m ∈ tentativeMatches sqrt p_1 p_2, m.euclideanDist ≠ 0) →
        ∀ m ∈ tentativeMatches sqrt p_1 p_2,
          m.euclideanDist = maxDistance (tentativeMatches sqrt p_1 p_2) →
          ∀ e ∈ emittedInfos sqrt p_1 p_2 dfThreshold, e.ind_1 ≠ m.ind_1) ∧
      (dfThreshold < 1 → ∀ m : MatchedPointPairInfo, tentativeMatches sqrt p_1 p_2 = [m] →
        m.euclideanDist ≠ 0 → emittedInfos sqrt p_1 p_2 dfThreshold = []) ∧
      tentativeMatches sqrtExact exampleOuter exampleInner = [⟨0, 1, 2⟩, ⟨1, 2, 6⟩] ∧
      NormalizeDistances (tentativeMatches sqrtExact exampleOuter exampleInner) =
        [⟨0, 1, 1 / 3⟩, ⟨1, 2, 1⟩] ∧
      emittedInfos sqrtExact exampleOuter exampleInner (1 / 2) = [⟨0, 1, 1 / 3⟩] := by
  have hnn : ∀ m ∈ tentativeMatches sqrt p_1 p_2, 0 ≤ m.euclideanDist :=
    matchLoopUpTo_nonneg sqrt p_1 p_2 p_1.length
  have hrange := NormalizeDistances_range _ hnn
  have hnd : ((tentativeMatches sqrt p_1 p_2).map MatchedPointPairInfo.ind_1).Nodup :=
    (loopInv_matchLoopUpTo sqrt p_1 p_2 p_1.length).asc.imp (fun hab => Nat.ne_of_lt hab)
  -- with a positive maximum, no triple of largest raw distance survives a threshold below 1
  have hdisc : dfThreshold < 1 → 0 < maxDistance (tentativeMatches sqrt p_1 p_2) →
      ∀ m ∈ tentativeMatches sqrt p_1 p_2,
        m.euclideanDist = maxDistance (tentativeMatches sqrt p_1 p_2) →
        ∀ e ∈ emittedInfos sqrt p_1 p_2 dfThreshold, e.ind_1 ≠ m.ind_1 := by
    intro hthr hpos m hm hmax e he heq
    obtain ⟨heN, hle⟩ := mem_emittedInfos sqrt p_1 p_2 dfThreshold e he
    obtain ⟨m0, hm0, h1, _, hd | ⟨hM, _⟩⟩ := mem_NormalizeDistances _ e heN
    · have hmm : m0 = m := List.inj_on_of_nodup_map hnd hm0 hm (h1.trans heq)
      rw [hmm, hmax, div_self (ne_of_gt hpos)] at hd
      rw [hd] at hle
      exact absurd (lt_of_le_of_lt hle hthr) (lt_irrefl _)
    · rw [hM] at hpos
      exact absurd hpos (lt_irrefl _)
  refine ⟨hrange, fun m hm => ⟨hnn m hm, foldl_max_ge_mem _ 0 m hm⟩, fun hex => ?_,
    fun hthr => ?_, fun hthr hex => hdisc hthr (maxDistance_pos_of_ne_zero _ hnn hex),
    fun hthr m hT hne => ?_, by decide!, by decide!, by decide!⟩
  · have hpos := maxDistance_pos_of_ne_zero _ hnn hex
    rcases foldl_max_eq (tentativeMatches sqrt p_1 p_2) 0 with h0 | ⟨m, hm, hmM⟩
    · have h0M : maxDistance (tentativeMatches sqrt p_1 p_2) = 0 := h0
      rw [h0M] at hpos
      exact absurd hpos (lt_irrefl _)
    · have hmM2 : m.euclideanDist = maxDistance (tentativeMatches sqrt p_1 p_2) := hmM
      refine ⟨⟨m.ind_1, m.ind_2, m.euclideanDist / maxDistance (tentativeMatches sqrt p_1 p_2)⟩,
        ?_, ?_⟩
      · unfold NormalizeDistances
        simp only [ne_of_gt hpos, ne_eq, not_false_eq_true, if_true]
        exact List.mem_map.mpr ⟨m, hm, rfl⟩
      · simp only [hmM2]
        exact div_self (ne_of_gt hpos)
  · unfold emittedInfos finalFilter
    rw [List.filter_eq_self]
    intro m hm
    simpa using le_trans (hrange m hm).2 hthr
  · have hm : m ∈ tentativeMatches sqrt p_1 p_2 := by rw [hT]; exact List.mem_singleton.mpr rfl
    have hpos := maxDistance_pos_of_ne_zero _ hnn ⟨m, hm, hne⟩
    have hmax : m.euclideanDist = maxDistance (tentativeMatches sqrt p_1 p_2) := by
      rcases foldl_max_eq (tentativeMatches sqrt p_1 p_2) 0 with h0 | ⟨m1, hm1, hmM⟩
      · have h0M : maxDistance (tentativeMatches sqrt p_1 p_2) = 0 := h0
        rw [h0M] at hpos
        exact absurd hpos (lt_irrefl _)
      · rw [hT] at hm1
        rw [List.mem_singleton.mp hm1] at hmM
        exact hmM
    rw [List.eq_nil_iff_forall_not_mem]
    intro e he
    obtain ⟨m0, hm0, h1, _⟩ :=
      mem_NormalizeDistances _ e (mem_emittedInfos sqrt p_1 p_2 dfThreshold e he).1
    rw [hT] at hm0
    rw [List.mem_singleton.mp hm0] at h1
    exact hdisc hthr hpos m hm hmax e he h1.symm

/-! ## Lemmas on SetDescriptor -/

theorem wrapInt_of_range (x : Int) (h1 : INT_MIN ≤ x) (h2 : x ≤ INT_MAX) : wrapInt x = x := by
  unfold INT_MIN at h1
  unfold INT_MAX at h2
  unfold wrapInt
  omega

theorem toCInt_intCast (n : Int) : toCInt (n : ℚ) = wrapInt n := by
  unfold toCInt
  rw [Rat.num_intCast, Rat.den_intCast]
  simp

/-- A loop whose step is positive, whose range is `n` steps long and whose
index stays in the range of `int` runs its body `n` times, at `i, i + step,
..`, once the fuel exceeds `n`. -/
theorem forLoop_eq_foldlM {σ : Type} (body : σ → Int → Option σ) (step : Int)
    (hstep : 0 < step) (n : Nat) :
    ∀ (fuel : Nat) (i : Int) (st : σ), n < fuel → INT_MIN ≤ i →
      i + (n : Int) * step ≤ INT_MAX →
      forLoop fuel i (i + (n : Int) * step) step body st =
        (List.range n).foldlM (fun st1 (k : Nat) => body st1 (i + (k : Int) * step)) st := by
  induction n with
  | zero =>
    intro fuel i st hf _ _
    obtain ⟨f, rfl⟩ := Nat.exists_eq_succ_of_ne_zero (Nat.ne_of_gt hf)
    simp [forLoop]
  | succ n ih =>
    intro fuel i st hf hlo hhi
    obtain ⟨f, rfl⟩ := Nat.exists_eq_succ_of_ne_zero
      (Nat.ne_of_gt (Nat.lt_of_le_of_lt (Nat.zero_le _) hf))
    have hnn : (0 : Int) ≤ (n : Int) * step :=
      Int.mul_nonneg (Int.ofNat_nonneg n) (Int.le_of_lt hstep)
    have hexp : ((n + 1 : Nat) : Int) * step = (n : Int) * step + step := by
      push_cast; ring
    have hlt : i < i + ((n + 1 : Nat) : Int) * step := by
      rw [hexp]; omega
    have hstop : i + ((n + 1 : Nat) : Int) * step = (i + step) + (n : Int) * step := by
      rw [hexp]; ring
    have hwrap : wrapInt (i + step) = i + step :=
      wrapInt_of_range _ (by omega) (by rw [hexp] at hhi; omega)
    have hfun : (fun (st1 : σ) (k : Nat) => body st1 (i + ((Nat.succ k : Nat) : Int) * step)) =
        (fun (st1 : σ) (k : Nat) => body st1 (i + step + (k : Int) * step)) := by
      funext st2 k
      congr 1
      push_cast
      ring
    rw [List.range_succ_eq_map, List.foldlM_cons]
    simp only [forLoop, hlt, if_true, List.foldlM_map]
    cases hb : body st i with
    | none => simp [hb]
    | some st1 =>
      simp only [Nat.cast_zero, zero_mul, add_zero, hb]
      rw [hstop, hwrap, ih f (i + step) st1 (Nat.lt_of_succ_lt_succ hf) (by omega)
        (by rw [hexp] at hhi; omega), hfun]
      rfl

theorem foldlM_some_of_mem {σ ι : Type} (f : σ → ι → Option σ) (g : σ → ι → σ) (l : List ι)
    (h : ∀ st, ∀ k ∈ l, f st k = some (g st k)) (st : σ) :
    l.foldlM f st = some (l.foldl g st) := by
  induction l generalizing st with
  | nil => rfl
  | cons x xs ih =>
    rw [List.foldlM_cons, h st x (List.mem_cons_self _ _)]
    simp only [Option.some_bind, Option.bind_eq_bind, List.foldl_cons]
    exact ih (fun st1 k hk => h st1 k (List.mem_cons_of_mem _ hk)) _

/-- The sizes of `SetDescriptor` for a whole positive scale `s`: the divisions
are exact. -/
theorem sizes_of_pos (s : Int) (hs : 0 < s) :
    (20 * s).tdiv 4 = 5 * s ∧ (5 * s).tdiv 5 = s ∧ (20 * s).tdiv 2 = 10 * s ∧
      (2 * s).tdiv 2 = s ∧ (20 * s) / 4 = 5 * s ∧ (5 * s) / 5 = s ∧
      (20 * s) / 2 = 10 * s ∧ (2 * s) / 2 = s ∧ s.tdiv 2 = s / 2 := by
  have h1 : (20 * s) / 4 = 5 * s := by omega
  have h2 : (5 * s) / 5 = s := by omega
  have h3 : (20 * s) / 2 = 10 * s := by omega
  have h4 : (2 * s) / 2 = s := by omega
  have e1 : (20 * s).tdiv 4 = (20 * s) / 4 := Int.tdiv_eq_ediv (by omega) (by omega)
  have e2 : (5 * s).tdiv 5 = (5 * s) / 5 := Int.tdiv_eq_ediv (by omega) (by omega)
  have e3 : (20 * s).tdiv 2 = (20 * s) / 2 := Int.tdiv_eq_ediv (by omega) (by omega)
  have e4 : (2 * s).tdiv 2 = (2 * s) / 2 := Int.tdiv_eq_ediv (by omega) (by omega)
  have e5 : s.tdiv 2 = s / 2 := Int.tdiv_eq_ediv (by omega) (by omega)
  exact ⟨by rw [e1, h1], by rw [e2, h2], by rw [e3, h3], by rw [e4, h4], h1, h2, h3, h4, e5⟩

/-- The sums accumulated by the two sample loops of the quadrant at `(r, c)`,
with the iterations resolved: 5 rows of 5 samples. -/
theorem quadrantLoops_of_pos (fuel : Nat) (hfuel : 5 < fuel) (poImg : GDALIntegralImage)
    (haarFilterSize s r c : Int) (hs : 0 < s)
    (hr1 : INT_MIN ≤ r) (hr2 : r + 5 * s ≤ INT_MAX)
    (hc1 : INT_MIN ≤ c) (hc2 : c + 5 * s ≤ INT_MAX) :
    quadrantLoops fuel poImg haarFilterSize (5 * s) s r c =
      some (quadrantSums poImg haarFilterSize s r c) := by
  unfold quadrantLoops quadrantSums
  have hr : r + 5 * s = r + ((5 : Nat) : Int) * s := by push_cast; ring
  have hc : c + 5 * s = c + ((5 : Nat) : Int) * s := by push_cast; ring
  rw [wrapInt_of_range (r + 5 * s) (by omega) hr2, wrapInt_of_range (c + 5 * s) (by omega) hc2]
  rw [hr, forLoop_eq_foldlM _ s hs 5 fuel r _ hfuel hr1 (by rw [← hr]; exact hr2)]
  apply foldlM_some_of_mem
  intro st1 k _
  rw [hc, forLoop_eq_foldlM _ s hs 5 fuel c _ hfuel hc1 (by rw [← hc]; exact hc2)]
  exact foldlM_some_of_mem _ _ _ (fun _ _ _ => rfl) _

theorem mul_step_bounds (k b : Nat) (m : Int) (hk : k ≤ b) (hm : 0 ≤ m) :
    0 ≤ (k : Int) * m ∧ (k : Int) * m ≤ (b : Int) * m :=
  ⟨Int.mul_nonneg (Int.ofNat_nonneg k) hm,
    Int.mul_le_mul_of_nonneg_right (by exact_mod_cast hk) hm⟩

/-- On a regular point of scale `s` the locals of lines 145-157 are `2 * s`,
`20 * s`, `5 * s`, `s` and the corner `(nY - 10 * s, nX - 10 * s)`. -/
theorem regularPoint_sizes (poPoint : GDALFeaturePoint) (h : regularPoint poPoint) :
    toCInt (2 * poPoint.nScale) = 2 * poPoint.nScale.num ∧
      toCInt (20 * poPoint.nScale) = 20 * poPoint.nScale.num := by
  obtain ⟨hden, hpos, hmax, _⟩ := h
  unfold INT_MAX at hmax
  have hq : poPoint.nScale = (poPoint.nScale.num : ℚ) :=
    (Rat.coe_int_num_of_den_eq_one hden).symm
  have h2 : (2 : ℚ) * poPoint.nScale = ((2 * poPoint.nScale.num : Int) : ℚ) := by
    rw [hq]; push_cast; simp
  have h20 : (20 : ℚ) * poPoint.nScale = ((20 * poPoint.nScale.num : Int) : ℚ) := by
    rw [hq]; push_cast; simp
  constructor
  · rw [h2, toCInt_intCast]
    exact wrapInt_of_range _ (by unfold INT_MIN; omega) (by unfold INT_MAX; omega)
  · rw [h20, toCInt_intCast]
    exact wrapInt_of_range _ (by unfold INT_MIN; omega) (by unfold INT_MAX; omega)

/-- The writes of `SetDescriptor` on a regular point, with the iterations
resolved: 4 rows of 4 quadrants. -/
theorem SetDescriptorWrites_of_regular (fuel : Nat) (hfuel : 5 < fuel)
    (poImg : GDALIntegralImage) (poPoint : GDALFeaturePoint) (h : regularPoint poPoint) :
    SetDescriptorWrites fuel poImg poPoint =
      some ((List.range 4).foldl
        (fun st (k : Nat) => (List.range 4).foldl
          (fun st1 (l : Nat) => fillQuadrant st1
            (quadrantSums poImg (2 * poPoint.nScale.num) poPoint.nScale.num
              (poPoint.nY - 10 * poPoint.nScale.num + (k : Int) * (5 * poPoint.nScale.num))
              (poPoint.nX - 10 * poPoint.nScale.num + (l : Int) * (5 * poPoint.nScale.num)))) st)
        ⟨0, []⟩) := by
  obtain ⟨t2, t20⟩ := regularPoint_sizes poPoint h
  obtain ⟨_, hs, hmax, hy1, hy2, hx1, hx2⟩ := h
  obtain ⟨h1, h2, h3, _⟩ := sizes_of_pos poPoint.nScale.num hs
  have hq : 0 < 5 * poPoint.nScale.num := by omega
  have hfuel4 : 4 < fuel := Nat.lt_of_succ_lt hfuel
  have hside : ∀ a : Int, a + 20 * poPoint.nScale.num =
      a + ((4 : Nat) : Int) * (5 * poPoint.nScale.num) := by
    intro a; push_cast; ring
  unfold SetDescriptorWrites
  simp only [t2, t20, h1, h2, h3]
  rw [wrapInt_of_range (poPoint.nY - 10 * poPoint.nScale.num) (by omega) (by omega),
    wrapInt_of_range (poPoint.nX - 10 * poPoint.nScale.num) (by omega) (by omega),
    wrapInt_of_range (poPoint.nY - 10 * poPoint.nScale.num + 20 * poPoint.nScale.num)
      (by omega) (by omega),
    wrapInt_of_range (poPoint.nX - 10 * poPoint.nScale.num + 20 * poPoint.nScale.num)
      (by omega) (by omega)]
  rw [hside, hside, forLoop_eq_foldlM _ _ hq 4 fuel _ _ hfuel4 (by omega)
    (by rw [← hside]; omega)]
  apply foldlM_some_of_mem
  intro st1 k hk
  have hk4 : k < 4 := List.mem_range.mp hk
  rw [forLoop_eq_foldlM _ _ hq 4 fuel _ _ hfuel4 (by omega) (by rw [← hside]; omega)]
  apply foldlM_some_of_mem
  intro st2 l hl
  have hl4 : l < 4 := List.mem_range.mp hl
  obtain ⟨bk1, bk2⟩ := mul_step_bounds k 3 (5 * poPoint.nScale.num) (by omega) (by omega)
  obtain ⟨bl1, bl2⟩ := mul_step_bounds l 3 (5 * poPoint.nScale.num) (by omega) (by omega)
  simp only [Nat.cast_ofNat] at bk2 bl2
  unfold quadrantBody
  rw [quadrantLoops_of_pos fuel hfuel poImg _ _ _ _ hs (by omega) (by omega) (by omega)
    (by omega)]

/-- Four rows of four quadrants fill the indices `0 .. 63`, quadrant `q` (row
`q / 4`, column `q % 4`) the indices `4q .. 4q+3`. -/
theorem fill_sixteen (F : Nat → Nat → QuadSums) :
    (List.range 4).foldl
        (fun st (k : Nat) => (List.range 4).foldl
          (fun st1 (l : Nat) => fillQuadrant st1 (F k l)) st) ⟨0, []⟩ =
      ⟨64, (List.range 16).flatMap (fun q =>
        [(4 * q, (F (q / 4) (q % 4)).dx), (4 * q + 1, (F (q / 4) (q % 4)).dy),
         (4 * q + 2, (F (q / 4) (q % 4)).abs_dx), (4 * q + 3, (F (q / 4) (q % 4)).abs_dy)])⟩ := by
  simp [List.range_succ, fillQuadrant]

theorem foldl_flatMap_eq {α β γ : Type} (f : γ → β → γ) (g : α → List β) (l : List α) (c : γ) :
    (l.flatMap g).foldl f c = l.foldl (fun c1 x => (g x).foldl f c1) c := by
  induction l generalizing c with
  | nil => rfl
  | cons x xs ih => simp only [List.flatMap_cons, List.foldl_append, List.foldl_cons]; exact ih _

/-- Accumulating responses and their absolute values along a list gives the
four sums. -/
theorem foldl_sums {ι : Type} (f g : ι → ℚ) (l : List ι) (acc : QuadSums) :
    l.foldl (fun a x => (⟨a.dx + f x, a.dy + g x, a.abs_dx + |f x|, a.abs_dy + |g x|⟩ : QuadSums))
        acc =
      ⟨acc.dx + (l.map f).sum, acc.dy + (l.map g).sum,
        acc.abs_dx + (l.map (fun x => |f x|)).sum, acc.abs_dy + (l.map (fun x => |g x|)).sum⟩ := by
  induction l generalizing acc with
  | nil => simp
  | cons x xs ih =>
    simp only [List.foldl_cons, List.map_cons, List.sum_cons]
    rw [ih]
    simp only [add_assoc]

theorem quadrantSums_eq_foldl_grid (poImg : GDALIntegralImage) (haarFilterSize s r c : Int) :
    quadrantSums poImg haarFilterSize s r c =
      sampleGrid.foldl (fun acc ab =>
        sampleAdd poImg haarFilterSize s (r + (ab.1 : Int) * s) acc (c + (ab.2 : Int) * s))
        ⟨0, 0, 0, 0⟩ := by
  unfold quadrantSums sampleGrid
  rw [foldl_flatMap_eq]
  simp only [List.foldl_map]

theorem mem_sampleGrid (ab : Nat × Nat) (h : ab ∈ sampleGrid) : ab.1 < 5 ∧ ab.2 < 5 := by
  unfold sampleGrid at h
  obtain ⟨a, ha, hb⟩ := List.mem_flatMap.mp h
  obtain ⟨b, hb1, rfl⟩ := List.mem_map.mp hb
  exact ⟨List.mem_range.mp ha, List.mem_range.mp hb1⟩

/-- On a regular point the sums of the quadrant in row `q / 4` and column
`q % 4` are the sums of the specification for the quadrant number `q`. -/
theorem quadrantSums_eq_spec (poImg : GDALIntegralImage) (poPoint : GDALFeaturePoint)
    (h : regularPoint poPoint) (q : Nat) (hq : q < 16) :
    quadrantSums poImg (2 * poPoint.nScale.num) poPoint.nScale.num
        (poPoint.nY - 10 * poPoint.nScale.num + ((q / 4 : Nat) : Int) * (5 * poPoint.nScale.num))
        (poPoint.nX - 10 * poPoint.nScale.num + ((q % 4 : Nat) : Int) * (5 * poPoint.nScale.num)) =
      specQuadrant poImg poPoint q := by
  obtain ⟨_, hs, hmax, hy1, hy2, hx1, hx2⟩ := h
  obtain ⟨_, _, _, h4, h5, h6, h7, h8, h9⟩ := sizes_of_pos poPoint.nScale.num hs
  rw [quadrantSums_eq_foldl_grid]
  have hstep : ∀ (acc : QuadSums), ∀ ab ∈ sampleGrid,
      sampleAdd poImg (2 * poPoint.nScale.num) poPoint.nScale.num
        (poPoint.nY - 10 * poPoint.nScale.num + ((q / 4 : Nat) : Int) * (5 * poPoint.nScale.num) +
          (ab.1 : Int) * poPoint.nScale.num) acc
        (poPoint.nX - 10 * poPoint.nScale.num + ((q % 4 : Nat) : Int) * (5 * poPoint.nScale.num) +
          (ab.2 : Int) * poPoint.nScale.num) =
        (⟨acc.dx + (specHaar poImg poPoint q ab).1, acc.dy + (specHaar poImg poPoint q ab).2,
          acc.abs_dx + |(specHaar poImg poPoint q ab).1|,
          acc.abs_dy + |(specHaar poImg poPoint q ab).2|⟩ : QuadSums) := by
    intro acc ab hab
    obtain ⟨ha, hb⟩ := mem_sampleGrid ab hab
    obtain ⟨bk1, bk2⟩ := mul_step_bounds (q / 4) 3 (5 * poPoint.nScale.num) (by omega) (by omega)
    obtain ⟨bl1, bl2⟩ := mul_step_bounds (q % 4) 3 (5 * poPoint.nScale.num) (by omega) (by omega)
    obtain ⟨ba1, ba2⟩ := mul_step_bounds ab.1 4 poPoint.nScale.num (by omega) (by omega)
    obtain ⟨bb1, bb2⟩ := mul_step_bounds ab.2 4 poPoint.nScale.num (by omega) (by omega)
    simp only [Nat.cast_ofNat] at bk2 bl2 ba2 bb2
    have hhalf : 0 ≤ poPoint.nScale.num / 2 ∧ poPoint.nScale.num / 2 ≤ poPoint.nScale.num := by
      omega
    unfold sampleAdd specHaar
    simp only [h4, h5, h6, h7, h8, h9]
    rw [wrapInt_of_range (poPoint.nY - 10 * poPoint.nScale.num +
        ((q / 4 : Nat) : Int) * (5 * poPoint.nScale.num) + (ab.1 : Int) * poPoint.nScale.num +
        poPoint.nScale.num / 2) (by omega) (by omega),
      wrapInt_of_range (poPoint.nX - 10 * poPoint.nScale.num +
        ((q % 4 : Nat) : Int) * (5 * poPoint.nScale.num) + (ab.2 : Int) * poPoint.nScale.num +
        poPoint.nScale.num / 2) (by omega) (by omega),
      wrapInt_of_range (poPoint.nY - 10 * poPoint.nScale.num +
        ((q / 4 : Nat) : Int) * (5 * poPoint.nScale.num) + (ab.1 : Int) * poPoint.nScale.num +
        poPoint.nScale.num / 2 - poPoint.nScale.num) (by omega) (by omega),
      wrapInt_of_range (poPoint.nX - 10 * poPoint.nScale.num +
        ((q % 4 : Nat) : Int) * (5 * poPoint.nScale.num) + (ab.2 : Int) * poPoint.nScale.num +
        poPoint.nScale.num / 2 - poPoint.nScale.num) (by omega) (by omega)]
  rw [List.foldl_ext _ _ _ hstep, foldl_sums]
  unfold specQuadrant
  simp only [zero_add]

/-- On a regular point and with a fuel above 5, `SetDescriptor` returns and its
writes are those of the specification. -/
theorem SetDescriptorWrites_eq_spec (fuel : Nat) (hfuel : 5 < fuel) (poImg : GDALIntegralImage)
    (poPoint : GDALFeaturePoint) (h : regularPoint poPoint) :
    SetDescriptorWrites fuel poImg poPoint =
      some ⟨64, specDescriptorWrites poImg poPoint⟩ := by
  rw [SetDescriptorWrites_of_regular fuel hfuel poImg poPoint h,
    fill_sixteen (fun k l => quadrantSums poImg (2 * poPoint.nScale.num) poPoint.nScale.num
      (poPoint.nY - 10 * poPoint.nScale.num + (k : Int) * (5 * poPoint.nScale.num))
      (poPoint.nX - 10 * poPoint.nScale.num + (l : Int) * (5 * poPoint.nScale.num)))]
  unfold specDescriptorWrites
  congr 2
  apply List.flatMap_congr
  intro q hq
  simp only [quadrantSums_eq_spec poImg poPoint h q (List.mem_range.mp hq)]

/-! ### The layout of the writes of any returning call -/

/-- What holds before a loop and is kept by every run of its body holds when
the loop returns. -/
theorem forLoop_invariant {σ : Type} (P : σ → Prop) (body : σ → Int → Option σ)
    (hb : ∀ st i r, P st → body st i = some r → P r) :
    ∀ (fuel : Nat) (i stop step : Int) (st r : σ), P st →
      forLoop fuel i stop step body st = some r → P r := by
  intro fuel
  induction fuel with
  | zero => intro i stop step st r _ h; simp [forLoop] at h
  | succ f ih =>
    intro i stop step st r hP h
    simp only [forLoop] at h
    by_cases hlt : i < stop
    · simp only [hlt, if_true] at h
      cases hbody : body st i with
      | none => simp [hbody] at h
      | some st1 =>
        simp only [hbody] at h
        exact ih _ _ _ _ _ (hb st i st1 hP hbody) h
    · simp only [hlt, if_false, Option.some.injEq] at h
      exact h ▸ hP

theorem sampleAdd_dominated (poImg : GDALIntegralImage) (haarFilterSize subQuadStep sub_r : Int)
    (acc : QuadSums) (sub_c : Int) (h : dominated acc) :
    dominated (sampleAdd poImg haarFilterSize subQuadStep sub_r acc sub_c) := by
  obtain ⟨h1, h2⟩ := h
  unfold sampleAdd dominated
  exact ⟨le_trans (abs_add _ _) (add_le_add_right h1 _),
    le_trans (abs_add _ _) (add_le_add_right h2 _)⟩

theorem quadrantLoops_dominated (fuel : Nat) (poImg : GDALIntegralImage)
    (haarFilterSize quadStep subQuadStep r c : Int) (q : QuadSums)
    (h : quadrantLoops fuel poImg haarFilterSize quadStep subQuadStep r c = some q) :
    dominated q := by
  unfold quadrantLoops at h
  refine forLoop_invariant dominated _ (fun st i x hst hx => ?_) fuel _ _ _ _ _ ?_ h
  · refine forLoop_invariant dominated _ (fun st1 j y hst1 hy => ?_) fuel _ _ _ _ _ hst hx
    simp only [Option.some.injEq] at hy
    exact hy ▸ sampleAdd_dominated poImg _ _ _ _ _ hst1
  · unfold dominated
    simp

theorem layoutFrom_append (n : Nat) (l1 l2 : List QuadSums) :
    layoutFrom n (l1 ++ l2) = layoutFrom n l1 ++ layoutFrom (n + l1.length) l2 := by
  induction l1 generalizing n with
  | nil => simp [layoutFrom]
  | cons x xs ih =>
    have e : n + 1 + xs.length = n + (xs.length + 1) := by omega
    show layoutFrom n (x :: (xs ++ l2)) = _
    simp only [layoutFrom, ih, List.length_cons, List.append_assoc, e]

theorem fillQuadrant_inv (st : DescState) (q : QuadSums) (h : DescInv st) (hq : dominated q) :
    DescInv (fillQuadrant st q) := by
  obtain ⟨quads, h1, h2, h3⟩ := h
  refine ⟨quads ++ [q], ?_, ?_, ?_⟩
  · simp [fillQuadrant, h1]; ring
  · rw [layoutFrom_append]
    simp [fillQuadrant, h1, h2, layoutFrom]
  · intro s hs
    rcases List.mem_append.mp hs with h | h
    · exact h3 s h
    · rw [List.mem_singleton.mp h]; exact hq

/-- Whenever `SetDescriptor` returns, its writes are the layout of a sequence of
dominated quadrants. -/
theorem SetDescriptorWrites_inv (fuel : Nat) (poImg : GDALIntegralImage)
    (poPoint : GDALFeaturePoint) (st : DescState)
    (h : SetDescriptorWrites fuel poImg poPoint = some st) : DescInv st := by
  unfold SetDescriptorWrites at h
  refine forLoop_invariant DescInv _ (fun st1 i x hst1 hx => ?_) fuel _ _ _ _ _ ?_ h
  · refine forLoop_invariant DescInv _ (fun st2 j y hst2 hy => ?_) fuel _ _ _ _ _ hst1 hx
    unfold quadrantBody at hy
    cases hq : quadrantLoops fuel poImg (toCInt (2 * poPoint.nScale))
        ((toCInt (20 * poPoint.nScale)).tdiv 4)
        (((toCInt (20 * poPoint.nScale)).tdiv 4).tdiv 5) i j with
    | none => simp [hq] at hy
    | some q =>
      simp only [hq, Option.some.injEq] at hy
      exact hy ▸ fillQuadrant_inv st2 q hst2 (quadrantLoops_dominated _ _ _ _ _ _ _ q hq)
  · exact ⟨[], rfl, rfl, fun s hs => absurd hs (List.not_mem_nil s)⟩

/-! ### Windows whose side is a multiple of 4 -/

/-- A loop whose step is positive and whose index stays in the range of `int`
runs its body `n` times, at `i, i + step, ..`, when `n` is the number of
indices below `stop`, once the fuel exceeds `n`. -/
theorem forLoop_steps {σ : Type} (body : σ → Int → Option σ) (step : Int)
    (hstep : 0 < step) (n : Nat) :
    ∀ (fuel : Nat) (i stop : Int) (st : σ), n < fuel → INT_MIN ≤ i →
      i + (n : Int) * step ≤ INT_MAX →
      (∀ k : Nat, k < n → i + (k : Int) * step < stop) → stop ≤ i + (n : Int) * step →
      forLoop fuel i stop step body st =
        (List.range n).foldlM (fun st1 (k : Nat) => body st1 (i + (k : Int) * step)) st := by
  induction n with
  | zero =>
    intro fuel i stop st hf _ _ _ hstop
    obtain ⟨f, rfl⟩ := Nat.exists_eq_succ_of_ne_zero (Nat.ne_of_gt hf)
    have hnlt : ¬ i < stop := by simp only [Nat.cast_zero, zero_mul, add_zero] at hstop; omega
    simp [forLoop, hnlt]
  | succ n ih =>
    intro fuel i stop st hf hlo hhi hbelow hstop
    obtain ⟨f, rfl⟩ := Nat.exists_eq_succ_of_ne_zero
      (Nat.ne_of_gt (Nat.lt_of_le_of_lt (Nat.zero_le _) hf))
    have hnn : (0 : Int) ≤ (n : Int) * step :=
      Int.mul_nonneg (Int.ofNat_nonneg n) (Int.le_of_lt hstep)
    have hexp : ((n + 1 : Nat) : Int) * step = (n : Int) * step + step := by
      push_cast; ring
    have hlt : i < stop := by
      have h0 := hbelow 0 (Nat.succ_pos n)
      simpa using h0
    have hwrap : wrapInt (i + step) = i + step :=
      wrapInt_of_range _ (by omega) (by rw [hexp] at hhi; omega)
    have hfun : (fun (st1 : σ) (k : Nat) => body st1 (i + ((Nat.succ k : Nat) : Int) * step)) =
        (fun (st1 : σ) (k : Nat) => body st1 (i + step + (k : Int) * step)) := by
      funext st2 k
      congr 1
      push_cast
      ring
    rw [List.range_succ_eq_map, List.foldlM_cons]
    simp only [forLoop, hlt, if_true, List.foldlM_map]
    cases hb : body st i with
    | none => simp [hb]
    | some st1 =>
      simp only [Nat.cast_zero, zero_mul, add_zero, hb]
      rw [hwrap, ih f (i + step) stop st1 (Nat.lt_of_succ_lt_succ hf) (by omega)
        (by rw [hexp] at hhi; omega)
        (fun k hk => by
          have h1 := hbelow (k + 1) (Nat.succ_lt_succ hk)
          have e : ((k + 1 : Nat) : Int) * step = (k : Int) * step + step := by push_cast; ring
          rw [e] at h1; omega)
        (by rw [hexp] at hstop; omega), hfun]
      rfl

/-- The number of sampling steps that cover a quadrant: at most 9, the last
index below the quadrant step, the next one at or past it. -/
theorem sample_steps (Q S : Int) (hS : 0 < S) (hQ0 : 0 ≤ Q) (hQ : Q ≤ 5 * S + 4) :
    ∃ n : Nat, n ≤ 9 ∧ (∀ k : Nat, k < n → (k : Int) * S < Q) ∧ Q ≤ (n : Int) * S ∧
      (n : Int) * S ≤ Q + S - 1 := by
  have hne : S ≠ 0 := by omega
  have h1 : (Q + S - 1) / S * S ≤ Q + S - 1 := Int.ediv_mul_le _ hne
  have h2 : Q + S - 1 < ((Q + S - 1) / S + 1) * S := Int.lt_ediv_add_one_mul_self _ hS
  have h0 : 0 ≤ (Q + S - 1) / S := Int.ediv_nonneg (by omega) (by omega)
  have h2a : ((Q + S - 1) / S + 1) * S = (Q + S - 1) / S * S + S := by ring
  have hcast : (((Q + S - 1) / S).toNat : Int) = (Q + S - 1) / S := Int.toNat_of_nonneg h0
  refine ⟨((Q + S - 1) / S).toNat, ?_, fun k hk => ?_, ?_, ?_⟩
  · by_contra hgt
    have h10 : (10 : Int) ≤ (Q + S - 1) / S := by omega
    have h3 : 10 * S ≤ (Q + S - 1) / S * S := Int.mul_le_mul_of_nonneg_right h10 (by omega)
    omega
  · have hk1 : (k : Int) + 1 ≤ (Q + S - 1) / S := by omega
    have h3 : ((k : Int) + 1) * S ≤ (Q + S - 1) / S * S :=
      Int.mul_le_mul_of_nonneg_right hk1 (by omega)
    have h4 : ((k : Int) + 1) * S = (k : Int) * S + S := by ring
    omega
  · rw [hcast]; omega
  · rw [hcast]; exact h1

/-- The two sample loops of a quadrant return when the sampling step is
positive and is the quadrant step divided by 5, on indices in the range of
`int`. -/
theorem quadrantLoops_returns (fuel : Nat) (hfuel : 9 < fuel) (poImg : GDALIntegralImage)
    (haarFilterSize Q S r c : Int) (hS : 0 < S) (hQ0 : 0 ≤ Q) (hQ : Q ≤ 5 * S + 4)
    (hr1 : INT_MIN ≤ r) (hr2 : r + Q + S ≤ INT_MAX)
    (hc1 : INT_MIN ≤ c) (hc2 : c + Q + S ≤ INT_MAX) :
    ∃ q : QuadSums, quadrantLoops fuel poImg haarFilterSize Q S r c = some q := by
  obtain ⟨n, hn9, hbelow, hcover, hlast⟩ := sample_steps Q S hS hQ0 hQ
  have hnf : n < fuel := Nat.lt_of_le_of_lt hn9 hfuel
  unfold quadrantLoops
  rw [wrapInt_of_range (r + Q) (by omega) (by omega),
    wrapInt_of_range (c + Q) (by omega) (by omega),
    forLoop_steps _ S hS n fuel r (r + Q) _ hnf hr1 (by omega)
      (fun k hk => by have := hbelow k hk; omega) (by omega)]
  refine ⟨_, foldlM_some_of_mem _
    (fun acc (k : Nat) => (List.range n).foldl (fun acc1 (l : Nat) =>
      sampleAdd poImg haarFilterSize S (r + (k : Int) * S) acc1 (c + (l : Int) * S)) acc)
    _ (fun st1 k _ => ?_) _⟩
  rw [forLoop_steps _ S hS n fuel c (c + Q) _ hnf hc1 (by omega)
      (fun k hk => by have := hbelow k hk; omega) (by omega)]
  exact foldlM_some_of_mem _ _ _ (fun _ _ _ => rfl) _

/-- On an aligned point `SetDescriptor` returns once the fuel exceeds 9, with 64
writes: four at `4q .. 4q+3` for each of 16 quadrants. -/
theorem SetDescriptorWrites_of_aligned (fuel : Nat) (hfuel : 9 < fuel)
    (poImg : GDALIntegralImage) (poPoint : GDALFeaturePoint) (h : alignedPoint poPoint) :
    ∃ F : Nat → Nat → QuadSums, SetDescriptorWrites fuel poImg poPoint =
      some ⟨64, (List.range 16).flatMap (fun q =>
        [(4 * q, (F (q / 4) (q % 4)).dx), (4 * q + 1, (F (q / 4) (q % 4)).dy),
         (4 * q + 2, (F (q / 4) (q % 4)).abs_dx), (4 * q + 3, (F (q / 4) (q % 4)).abs_dy)])⟩ := by
  obtain ⟨h20, h4, hy1, hy2, hx1, hx2⟩ := h
  generalize hD : toCInt (20 * poPoint.nScale) = D at h20 h4 hy1 hy2 hx1 hx2
  have e4 : D.tdiv 4 = D / 4 := Int.tdiv_eq_ediv (by omega) (by omega)
  have e2 : D.tdiv 2 = D / 2 := Int.tdiv_eq_ediv (by omega) (by omega)
  have e5 : (D / 4).tdiv 5 = D / 4 / 5 := Int.tdiv_eq_ediv (by omega) (by omega)
  have hQ : 0 < D / 4 := by omega
  have hS : 0 < D / 4 / 5 := by omega
  have hside : ∀ a : Int, a + D = a + ((4 : Nat) : Int) * (D / 4) := by
    intro a; push_cast; omega
  have hfuel4 : 4 < fuel := by omega
  have hfold : SetDescriptorWrites fuel poImg poPoint =
      some ((List.range 4).foldl
        (fun st (k : Nat) => (List.range 4).foldl
          (fun st1 (l : Nat) => fillQuadrant st1
            ((quadrantLoops fuel poImg (toCInt (2 * poPoint.nScale)) (D / 4) (D / 4 / 5)
              (poPoint.nY - D / 2 + (k : Int) * (D / 4))
              (poPoint.nX - D / 2 + (l : Int) * (D / 4))).getD ⟨0, 0, 0, 0⟩)) st)
        ⟨0, []⟩) := ?_
  · exact ⟨fun k l => (quadrantLoops fuel poImg (toCInt (2 * poPoint.nScale)) (D / 4)
      (D / 4 / 5) (poPoint.nY - D / 2 + (k : Int) * (D / 4))
      (poPoint.nX - D / 2 + (l : Int) * (D / 4))).getD ⟨0, 0, 0, 0⟩, by rw [hfold, fill_sixteen]⟩
  unfold SetDescriptorWrites
  simp only [hD, e4, e2, e5]
  rw [wrapInt_of_range (poPoint.nY - D / 2) (by omega) (by omega),
    wrapInt_of_range (poPoint.nX - D / 2) (by omega) (by omega),
    wrapInt_of_range (poPoint.nY - D / 2 + D) (by omega) (by omega),
    wrapInt_of_range (poPoint.nX - D / 2 + D) (by omega) (by omega)]
  rw [hside, hside, forLoop_eq_foldlM _ _ hQ 4 fuel _ _ hfuel4 (by omega)
    (by rw [← hside]; omega)]
  apply foldlM_some_of_mem
  intro st1 k hk
  have hk4 : k < 4 := List.mem_range.mp hk
  rw [forLoop_eq_foldlM _ _ hQ 4 fuel _ _ hfuel4 (by omega) (by rw [← hside]; omega)]
  apply foldlM_some_of_mem
  intro st2 l hl
  have hl4 : l < 4 := List.mem_range.mp hl
  obtain ⟨bk1, bk2⟩ := mul_step_bounds k 3 (D / 4) (by omega) (by omega)
  obtain ⟨bl1, bl2⟩ := mul_step_bounds l 3 (D / 4) (by omega) (by omega)
  simp only [Nat.cast_ofNat] at bk2 bl2
  unfold quadrantBody
  obtain ⟨q, hq⟩ := quadrantLoops_returns fuel hfuel poImg (toCInt (2 * poPoint.nScale))
    (D / 4) (D / 4 / 5) (poPoint.nY - D / 2 + (k : Int) * (D / 4))
    (poPoint.nX - D / 2 + (l : Int) * (D / 4)) hS (by omega) (by omega) (by omega) (by omega)
    (by omega) (by omega)
  rw [hq]
  rfl

/-! ### Fuel, and the descriptor after the writes -/

/-- More fuel, and a body that returns at least where the other one does, do
not change what a loop returns. -/
theorem forLoop_mono {σ : Type} (body body1 : σ → Int → Option σ)
    (hb : ∀ st i r, body st i = some r → body1 st i = some r) :
    ∀ (fuel fuel1 : Nat), fuel ≤ fuel1 → ∀ (i stop step : Int) (st r : σ),
      forLoop fuel i stop step body st = some r →
        forLoop fuel1 i stop step body1 st = some r := by
  intro fuel
  induction fuel with
  | zero => intro fuel1 _ i stop step st r h; simp [forLoop] at h
  | succ f ih =>
    intro fuel1 hle i stop step st r h
    obtain ⟨f1, rfl⟩ := Nat.exists_eq_succ_of_ne_zero
      (Nat.ne_of_gt (Nat.lt_of_lt_of_le (Nat.succ_pos f) hle))
    simp only [forLoop] at h ⊢
    by_cases hlt : i < stop
    · simp only [hlt, if_true] at h ⊢
      cases hbody : body st i with
      | none => simp [hbody] at h
      | some st1 =>
        simp only [hbody] at h
        rw [hb st i st1 hbody]
        exact ih f1 (Nat.le_of_succ_le_succ hle) _ _ _ _ _ h
    · simp only [hlt, if_false] at h ⊢
      exact h

theorem quadrantLoops_mono (fuel fuel1 : Nat) (hle : fuel ≤ fuel1) (poImg : GDALIntegralImage)
    (haarFilterSize quadStep subQuadStep r c : Int) (q : QuadSums)
    (h : quadrantLoops fuel poImg haarFilterSize quadStep subQuadStep r c = some q) :
    quadrantLoops fuel1 poImg haarFilterSize quadStep subQuadStep r c = some q := by
  unfold quadrantLoops at h ⊢
  refine forLoop_mono _ _ (fun st i x hx => ?_) fuel fuel1 hle _ _ _ _ _ h
  exact forLoop_mono _ _ (fun _ _ _ hy => hy) fuel fuel1 hle _ _ _ _ _ hx

/-- A call of `SetDescriptor` that returns within some fuel returns the same
writes within any larger fuel. -/
theorem SetDescriptorWrites_mono (fuel fuel1 : Nat) (hle : fuel ≤ fuel1)
    (poImg : GDALIntegralImage) (poPoint : GDALFeaturePoint) (st : DescState)
    (h : SetDescriptorWrites fuel poImg poPoint = some st) :
    SetDescriptorWrites fuel1 poImg poPoint = some st := by
  unfold SetDescriptorWrites at h ⊢
  refine forLoop_mono _ _ (fun st1 i x hx => ?_) fuel fuel1 hle _ _ _ _ _ h
  refine forLoop_mono _ _ (fun st2 j y hy => ?_) fuel fuel1 hle _ _ _ _ _ hx
  unfold quadrantBody at hy ⊢
  cases hq : quadrantLoops fuel poImg (toCInt (2 * poPoint.nScale))
      ((toCInt (20 * poPoint.nScale)).tdiv 4)
      (((toCInt (20 * poPoint.nScale)).tdiv 4).tdiv 5) i j with
  | none => simp [hq] at hy
  | some q =>
    rw [quadrantLoops_mono fuel fuel1 hle _ _ _ _ _ _ q hq]
    simpa [hq] using hy

/-- A loop whose body does not return at its first index does not return. -/
theorem forLoop_body_none {σ : Type} (body : σ → Int → Option σ) (fuel : Nat)
    (i stop step : Int) (st : σ) (hlt : i < stop) (hb : body st i = none) :
    forLoop fuel i stop step body st = none := by
  cases fuel with
  | zero => rfl
  | succ f => simp [forLoop, hlt, hb]

/-- A loop of step 0 whose condition holds and whose body always returns never
returns: no fuel is enough. -/
theorem forLoop_stuck {σ : Type} (body : σ → Int → Option σ) (i stop : Int) (hlt : i < stop)
    (h1 : INT_MIN ≤ i) (h2 : i ≤ INT_MAX) :
    ∀ (fuel : Nat) (st : σ), forLoop fuel i stop 0 body st = none := by
  intro fuel
  induction fuel with
  | zero => intro st; rfl
  | succ f ih =>
    intro st
    simp only [forLoop, hlt, if_true, add_zero, wrapInt_of_range i h1 h2]
    cases body st i with
    | none => rfl
    | some st1 => exact ih st1

theorem flatMap_four_indices (n : Nat) :
    (List.range n).flatMap (fun q => [4 * q, 4 * q + 1, 4 * q + 2, 4 * q + 3]) =
      List.range (4 * n) := by
  induction n with
  | zero => rfl
  | succ n ih =>
    have h4 : 4 * (n + 1) = 4 * n + 1 + 1 + 1 + 1 := by ring
    rw [List.range_succ, List.flatMap_append, ih, h4, List.range_succ, List.range_succ,
      List.range_succ, List.range_succ]
    simp

theorem specDescriptorWrites_indices (poImg : GDALIntegralImage) (poPoint : GDALFeaturePoint) :
    (specDescriptorWrites poImg poPoint).map Prod.fst = List.range 64 := by
  unfold specDescriptorWrites
  rw [List.map_flatMap]
  exact flatMap_four_indices 16

theorem applyWrites_of_range (w : List (Nat × ℚ)) :
    ∀ d : List ℚ, w.map Prod.fst = List.range w.length → w.length ≤ d.length →
      applyWrites d w = w.map Prod.snd ++ d.drop w.length := by
  induction w using List.reverseRecOn with
  | nil => intro d _ _; simp [applyWrites]
  | append_singleton w x ih =>
    intro d hfst hlen
    simp only [List.length_append, List.length_singleton] at hfst hlen
    rw [List.map_append, List.range_succ] at hfst
    obtain ⟨h1, h2⟩ := List.append_inj hfst (by simp)
    simp only [List.map_cons, List.map_nil, List.cons.injEq, and_true] at h2
    have hlt : w.length < d.length := hlen
    have hstep : applyWrites d (w ++ [x]) = (applyWrites d w).set x.1 x.2 := by
      simp [applyWrites, List.foldl_append]
    rw [hstep, ih d h1 (Nat.le_of_lt hlt), h2, List.set_append]
    simp only [List.length_map, lt_self_iff_false, if_false, Nat.sub_self]
    rw [List.drop_eq_getElem_cons hlt, List.set_cons_zero, List.map_append]
    simp

/-- The descriptor in the words of the specification: quadrant `q` contributes
its four sums, in the order `dx`, `dy`, `abs_dx`, `abs_dy`. -/
theorem specDescriptorWrites_values (poImg : GDALIntegralImage) (poPoint : GDALFeaturePoint) :
    (specDescriptorWrites poImg poPoint).map Prod.snd =
      (List.range 16).flatMap (fun q =>
        [(specQuadrant poImg poPoint q).dx, (specQuadrant poImg poPoint q).dy,
         (specQuadrant poImg poPoint q).abs_dx, (specQuadrant poImg poPoint q).abs_dy]) := by
  unfold specDescriptorWrites
  rw [List.map_flatMap]
  simp

theorem specDescriptorWrites_length (poImg : GDALIntegralImage) (poPoint : GDALFeaturePoint) :
    (specDescriptorWrites poImg poPoint).length = 64 := by
  have h := congrArg List.length (specDescriptorWrites_indices poImg poPoint)
  simpa using h

/-- On a descriptor of 64 entries the writes of the specification replace
every entry. -/
theorem applyWrites_spec (poImg : GDALIntegralImage) (poPoint : GDALFeaturePoint)
    (d : List ℚ) (hd : d.length = 64) :
    applyWrites d (specDescriptorWrites poImg poPoint) =
      (specDescriptorWrites poImg poPoint).map Prod.snd := by
  have hlen := specDescriptorWrites_length poImg poPoint
  rw [applyWrites_of_range _ d (by rw [hlen]; exact specDescriptorWrites_indices poImg poPoint)
    (by rw [hlen, hd]), hlen]
  have : List.drop 64 d = [] := List.drop_eq_nil_of_le (by rw [hd])
  rw [this, List.append_nil]

theorem flatMap_four_length (a b c d : Nat → ℚ) (n : Nat) :
    ((List.range n).flatMap (fun q => [a q, b q, c q, d q])).length = 4 * n := by
  induction n with
  | zero => rfl
  | succ n ih =>
    rw [List.range_succ, List.flatMap_append, List.length_append, ih]
    simp
    ring

theorem flatMap_four_getD (a b c d : Nat → ℚ) (n q : Nat) (hq : q < n) :
    ((List.range n).flatMap (fun q => [a q, b q, c q, d q])).getD (4 * q) 0 = a q ∧
      ((List.range n).flatMap (fun q => [a q, b q, c q, d q])).getD (4 * q + 1) 0 = b q ∧
      ((List.range n).flatMap (fun q => [a q, b q, c q, d q])).getD (4 * q + 2) 0 = c q ∧
      ((List.range n).flatMap (fun q => [a q, b q, c q, d q])).getD (4 * q + 3) 0 = d q := by
  induction n with
  | zero => exact absurd hq (Nat.not_lt_zero _)
  | succ n ih =>
    have hlen := flatMap_four_length a b c d n
    rw [List.range_succ, List.flatMap_append]
    rcases Nat.lt_succ_iff_lt_or_eq.mp hq with h | h
    · obtain ⟨h0, h1, h2, h3⟩ := ih h
      refine ⟨?_, ?_, ?_, ?_⟩
      · rw [List.getD_append _ _ _ _ (by rw [hlen]; omega)]; exact h0
      · rw [List.getD_append _ _ _ _ (by rw [hlen]; omega)]; exact h1
      · rw [List.getD_append _ _ _ _ (by rw [hlen]; omega)]; exact h2
      · rw [List.getD_append _ _ _ _ (by rw [hlen]; omega)]; exact h3
    · subst h
      refine ⟨?_, ?_, ?_, ?_⟩
      · rw [List.getD_append_right _ _ _ _ (by rw [hlen])]
        simp [hlen]
      · rw [List.getD_append_right _ _ _ _ (by rw [hlen]; omega)]
        simp [hlen]
      · rw [List.getD_append_right _ _ _ _ (by rw [hlen]; omega)]
        simp [hlen]
      · rw [List.getD_append_right _ _ _ _ (by rw [hlen]; omega)]
        simp [hlen]

/-- For a regular point with a descriptor of 64 entries, the point returned by
`SetDescriptor` carries the descriptor of the specification. -/
theorem SetDescriptor_eq_spec (fuel : Nat) (hfuel : 5 < fuel) (poImg : GDALIntegralImage)
    (poPoint : GDALFeaturePoint) (hs : regularPoint poPoint)
    (hd : poPoint.padfDescriptor.length = 64) :
    SetDescriptor fuel poImg poPoint = some { poPoint with
      padfDescriptor := (List.range 16).flatMap (fun q =>
        [(specQuadrant poImg poPoint q).dx, (specQuadrant poImg poPoint q).dy,
         (specQuadrant poImg poPoint q).abs_dx, (specQuadrant poImg poPoint q).abs_dy]) } := by
  unfold SetDescriptor
  rw [SetDescriptorWrites_eq_spec fuel hfuel poImg poPoint hs]
  simp only [hd, le_refl, if_true]
  rw [applyWrites_spec poImg poPoint _ hd, specDescriptorWrites_values]

theorem sampleGrid_length : sampleGrid.length = 25 := by decide

/-- What `SetDescriptor` returns, in terms of its writes. -/
theorem SetDescriptor_eq_some (fuel : Nat) (poImg : GDALIntegralImage)
    (poPoint p : GDALFeaturePoint) (h : SetDescriptor fuel poImg poPoint = some p) :
    ∃ st : DescState, SetDescriptorWrites fuel poImg poPoint = some st ∧
      st.count ≤ poPoint.padfDescriptor.length ∧
      p = { poPoint with padfDescriptor := applyWrites poPoint.padfDescriptor st.writes } := by
  unfold SetDescriptor at h
  cases hw : SetDescriptorWrites fuel poImg poPoint with
  | none => simp [hw] at h
  | some st =>
    simp only [hw] at h
    by_cases hc : st.count ≤ poPoint.padfDescriptor.length
    · simp only [hc, if_true, Option.some.injEq] at h
      exact ⟨st, rfl, hc, h.symm⟩
    · simp [hc] at h

theorem layoutFrom_length (n : Nat) (quads : List QuadSums) :
    (layoutFrom n quads).length = 4 * quads.length := by
  induction quads generalizing n with
  | nil => rfl
  | cons s rest ih => simp [layoutFrom, ih]; ring

theorem layoutFrom_values (n : Nat) (quads : List QuadSums) :
    (layoutFrom n quads).map Prod.snd =
      quads.flatMap (fun s => [s.dx, s.dy, s.abs_dx, s.abs_dy]) := by
  induction quads generalizing n with
  | nil => rfl
  | cons s rest ih => simp [layoutFrom, ih]

theorem layoutFrom_indices (quads : List QuadSums) :
    (layoutFrom 0 quads).map Prod.fst = List.range (4 * quads.length) := by
  induction quads using List.reverseRecOn with
  | nil => rfl
  | append_singleton quads s ih =>
    have h4 : 4 * (quads.length + 1) = 4 * quads.length + 1 + 1 + 1 + 1 := by ring
    rw [layoutFrom_append, List.map_append, ih, List.length_append, List.length_singleton, h4,
      List.range_succ, List.range_succ, List.range_succ, List.range_succ]
    simp [layoutFrom]

theorem quads_getD (quads : List QuadSums) :
    ∀ q, q < quads.length → ∃ s ∈ quads,
      (quads.flatMap (fun s => [s.dx, s.dy, s.abs_dx, s.abs_dy])).getD (4 * q) 0 = s.dx ∧
      (quads.flatMap (fun s => [s.dx, s.dy, s.abs_dx, s.abs_dy])).getD (4 * q + 1) 0 = s.dy ∧
      (quads.flatMap (fun s => [s.dx, s.dy, s.abs_dx, s.abs_dy])).getD (4 * q + 2) 0 = s.abs_dx ∧
      (quads.flatMap (fun s => [s.dx, s.dy, s.abs_dx, s.abs_dy])).getD (4 * q + 3) 0 =
        s.abs_dy := by
  induction quads with
  | nil => intro q hq; exact absurd hq (Nat.not_lt_zero _)
  | cons x xs ih =>
    intro q hq
    cases q with
    | zero => exact ⟨x, List.mem_cons_self _ _, by simp, by simp, by simp, by simp⟩
    | succ q =>
      obtain ⟨s, hs, h0, h1, h2, h3⟩ := ih q (Nat.lt_of_succ_lt_succ hq)
      have e0 : 4 * (q + 1) = 4 * q + 4 := by ring
      have e1 : 4 * (q + 1) + 1 = 4 * q + 1 + 4 := by ring
      have e2 : 4 * (q + 1) + 2 = 4 * q + 2 + 4 := by ring
      have e3 : 4 * (q + 1) + 3 = 4 * q + 3 + 4 := by ring
      refine ⟨s, List.mem_cons_of_mem _ hs, ?_, ?_, ?_, ?_⟩
      · rw [List.flatMap_cons, e0, List.getD_append_right _ _ _ _ (by simp)]
        simpa using h0
      · rw [List.flatMap_cons, e1, List.getD_append_right _ _ _ _ (by simp)]
        simpa using h1
      · rw [List.flatMap_cons, e2, List.getD_append_right _ _ _ _ (by simp)]
        simpa using h2
      · rw [List.flatMap_cons, e3, List.getD_append_right _ _ _ _ (by simp)]
        simpa using h3

/-- With the scale 3 / 10 the window side is 6, the quadrant step 1 and the
sampling step 0: the sample loops never end, whatever the fuel. -/
theorem SetDescriptorWrites_of_step_zero (poImg : GDALIntegralImage) (x y : Int)
    (radius : Int) (sign : Bool) (d : List ℚ) (hy1 : INT_MIN ≤ y - 3) (hy2 : y + 3 ≤ INT_MAX)
    (hx1 : INT_MIN ≤ x - 3) (hx2 : x + 3 ≤ INT_MAX) (fuel : Nat) :
    SetDescriptorWrites fuel poImg ⟨x, y, 3 / 10, radius, sign, d⟩ = none := by
  have h20 : toCInt (20 * (3 / 10 : ℚ)) = 6 := by decide!
  have h2 : toCInt (2 * (3 / 10 : ℚ)) = 0 := by decide!
  have e1 : (6 : Int).tdiv 4 = 1 := by decide
  have e2 : (1 : Int).tdiv 5 = 0 := by decide
  have e3 : (6 : Int).tdiv 2 = 3 := by decide
  unfold INT_MIN at hy1 hx1
  unfold INT_MAX at hy2 hx2
  unfold SetDescriptorWrites
  simp only [h20, h2, e1, e2, e3]
  rw [wrapInt_of_range (y - 3) (by unfold INT_MIN; omega) (by unfold INT_MAX; omega),
    wrapInt_of_range (x - 3) (by unfold INT_MIN; omega) (by unfold INT_MAX; omega),
    wrapInt_of_range (y - 3 + 6) (by unfold INT_MIN; omega) (by unfold INT_MAX; omega),
    wrapInt_of_range (x - 3 + 6) (by unfold INT_MIN; omega) (by unfold INT_MAX; omega)]
  apply forLoop_body_none _ _ _ _ _ _ (by omega)
  apply forLoop_body_none _ _ _ _ _ _ (by omega)
  unfold quadrantBody quadrantLoops
  rw [wrapInt_of_range (y - 3 + 1) (by unfold INT_MIN; omega) (by unfold INT_MAX; omega),
    forLoop_stuck _ (y - 3) (y - 3 + 1) (by omega) (by unfold INT_MIN; omega)
      (by unfold INT_MAX; omega)]

/-- With a window side that is not positive the window is empty: a call that
returns has written nothing, when the ends of the window are within the range
of `int`. -/
theorem SetDescriptorWrites_of_nonpos (fuel : Nat) (poImg : GDALIntegralImage)
    (poPoint : GDALFeaturePoint) (hs : toCInt (20 * poPoint.nScale) ≤ 0)
    (h1 : INT_MIN ≤ poPoint.nY + toCInt (20 * poPoint.nScale))
    (h2 : poPoint.nY - toCInt (20 * poPoint.nScale) ≤ INT_MAX) (st : DescState)
    (h : SetDescriptorWrites fuel poImg poPoint = some st) : st = ⟨0, []⟩ := by
  generalize hD : toCInt (20 * poPoint.nScale) = D at hs h1 h2
  have e2 : D.tdiv 2 = -((-D) / 2) := by
    have e := Int.neg_tdiv (-D) 2
    rw [neg_neg] at e
    rw [e, Int.tdiv_eq_ediv (by omega) (by omega)]
  unfold INT_MIN at h1
  unfold INT_MAX at h2
  unfold SetDescriptorWrites at h
  simp only [hD, e2] at h
  rw [wrapInt_of_range (poPoint.nY - -(-D / 2)) (by unfold INT_MIN; omega)
      (by unfold INT_MAX; omega),
    wrapInt_of_range (poPoint.nY - -(-D / 2) + D) (by unfold INT_MIN; omega)
      (by unfold INT_MAX; omega)] at h
  cases fuel with
  | zero => simp [forLoop] at h
  | succ f =>
    have hnlt : ¬ (poPoint.nY - -(-D / 2) < poPoint.nY - -(-D / 2) + D) := by omega
    simp only [forLoop, hnlt, if_false, Option.some.injEq] at h
    exact h.symm

theorem abs_sum_map_le {ι : Type} (f : ι → ℚ) (l : List ι) :
    |(l.map f).sum| ≤ (l.map (fun x => |f x|)).sum := by
  induction l with
  | nil => simp
  | cons x xs ih =>
    simp only [List.map_cons, List.sum_cons]
    exact le_trans (abs_add _ _) (add_le_add_left ih _)

theorem specQuadrant_bounds (poImg : GDALIntegralImage) (poPoint : GDALFeaturePoint) (q : Nat) :
    |(specQuadrant poImg poPoint q).dx| ≤ (specQuadrant poImg poPoint q).abs_dx ∧
      |(specQuadrant poImg poPoint q).dy| ≤ (specQuadrant poImg poPoint q).abs_dy ∧
      0 ≤ (specQuadrant poImg poPoint q).abs_dx ∧ 0 ≤ (specQuadrant poImg poPoint q).abs_dy := by
  have h1 : |(specQuadrant poImg poPoint q).dx| ≤ (specQuadrant poImg poPoint q).abs_dx :=
    abs_sum_map_le (fun ab => (specHaar poImg poPoint q ab).1) sampleGrid
  have h2 : |(specQuadrant poImg poPoint q).dy| ≤ (specQuadrant poImg poPoint q).abs_dy :=
    abs_sum_map_le (fun ab => (specHaar poImg poPoint q ab).2) sampleGrid
  exact ⟨h1, h2, le_trans (abs_nonneg _) h1, le_trans (abs_nonneg _) h2⟩

/-- The entries of the descriptor after a returning call: each quadrant
written holds dominated sums. -/
theorem SetDescriptor_dominated (fuel : Nat) (poImg : GDALIntegralImage)
    (poPoint p : GDALFeaturePoint) (st : DescState)
    (hw : SetDescriptorWrites fuel poImg poPoint = some st)
    (hp : SetDescriptor fuel poImg poPoint = some p) (q : Nat) (hq : 4 * q + 3 < st.count) :
    p.descAt (4 * q + 2) ≥ |p.descAt (4 * q)| ∧
      p.descAt (4 * q + 3) ≥ |p.descAt (4 * q + 1)| ∧
      0 ≤ p.descAt (4 * q + 2) ∧ 0 ≤ p.descAt (4 * q + 3) := by
  obtain ⟨st1, hw1, hcount, hpeq⟩ := SetDescriptor_eq_some fuel poImg poPoint p hp
  rw [hw] at hw1
  obtain rfl := Option.some.inj hw1
  obtain ⟨quads, hc, hwr, hdom⟩ := SetDescriptorWrites_inv fuel poImg poPoint st hw
  have hlen : st.writes.length = 4 * quads.length := by rw [hwr, layoutFrom_length]
  have hdesc : p.padfDescriptor =
      quads.flatMap (fun s => [s.dx, s.dy, s.abs_dx, s.abs_dy]) ++
        poPoint.padfDescriptor.drop st.writes.length := by
    rw [hpeq]
    simp only
    rw [applyWrites_of_range st.writes poPoint.padfDescriptor
      (by rw [hlen, hwr]; exact layoutFrom_indices quads) (by rw [hlen, ← hc]; exact hcount),
      hwr, layoutFrom_values]
  have hflen : (quads.flatMap (fun s => [s.dx, s.dy, s.abs_dx, s.abs_dy])).length =
      4 * quads.length := by
    rw [← layoutFrom_values 0 quads, List.length_map, layoutFrom_length]
  have hql : q < quads.length := by omega
  obtain ⟨s, hs, g0, g1, g2, g3⟩ := quads_getD quads q hql
  obtain ⟨b1, b2⟩ := hdom s hs
  unfold GDALFeaturePoint.descAt
  rw [hdesc, List.getD_append _ _ _ _ (by rw [hflen]; omega),
    List.getD_append _ _ _ _ (by rw [hflen]; omega),
    List.getD_append _ _ _ _ (by rw [hflen]; omega),
    List.getD_append _ _ _ _ (by rw [hflen]; omega), g0, g1, g2, g3]
  exact ⟨b1, b2, le_trans (abs_nonneg _) b1, le_trans (abs_nonneg _) b2⟩

/-- C20: whenever `SetDescriptor` returns, for every feature point (of any
scale, whole or not) and every integral image: the writes are those of a
sequence of quadrants, quadrant `q` at the indices `4q .. 4q+3`, whose sums
satisfy `abs_dx >= |dx|`, `abs_dy >= |dy|` and so `abs_dx, abs_dy >= 0`, and the
returned point satisfies, for every quadrant `q` written,
`descriptor[4q+2] >= |descriptor[4q]|`, `descriptor[4q+3] >= |descriptor[4q+1]|`,
both left sides being non-negative; with a window side that is not positive
nothing is written; on a regular point the writes are the 16 quadrants of the
specification, and on a descriptor of 64 entries the call succeeds and the
inequalities hold for every `q < 16`. -/
theorem C20_abs_sums_dominate (fuel : Nat) (poImg : GDALIntegralImage)
    (poPoint : GDALFeaturePoint) (st : DescState)
    (h : SetDescriptorWrites fuel poImg poPoint = some st) :
    (∃ quads : List QuadSums, st.count = 4 * quads.length ∧
        st.writes = layoutFrom 0 quads ∧
        (∀ s ∈ quads, |s.dx| ≤ s.abs_dx ∧ |s.dy| ≤ s.abs_dy ∧ 0 ≤ s.abs_dx ∧ 0 ≤ s.abs_dy) ∧
        ∀ p : GDALFeaturePoint, SetDescriptor fuel poImg poPoint = some p →
          ∀ q, q < quads.length →
            p.descAt (4 * q + 2) ≥ |p.descAt (4 * q)| ∧
            p.descAt (4 * q + 3) ≥ |p.descAt (4 * q + 1)| ∧
            0 ≤ p.descAt (4 * q + 2) ∧ 0 ≤ p.descAt (4 * q + 3)) ∧
      (toCInt (20 * poPoint.nScale) ≤ 0 →
        INT_MIN ≤ poPoint.nY + toCInt (20 * poPoint.nScale) →
        poPoint.nY - toCInt (20 * poPoint.nScale) ≤ INT_MAX → st.writes = []) ∧
      (regularPoint poPoint → st.writes =
        (List.range 16).flatMap (fun q =>
          [(4 * q, (specQuadrant poImg poPoint q).dx),
           (4 * q + 1, (specQuadrant poImg poPoint q).dy),
           (4 * q + 2, (specQuadrant poImg poPoint q).abs_dx),
           (4 * q + 3, (specQuadrant poImg poPoint q).abs_dy)])) ∧
      (∀ q, |(specQuadrant poImg poPoint q).dx| ≤ (specQuadrant poImg poPoint q).abs_dx ∧
        |(specQuadrant poImg poPoint q).dy| ≤ (specQuadrant poImg poPoint q).abs_dy ∧
        0 ≤ (specQuadrant poImg poPoint q).abs_dx ∧
        0 ≤ (specQuadrant poImg poPoint q).abs_dy) ∧
      (regularPoint poPoint → poPoint.padfDescriptor.length = 64 →
        ∃ p : GDALFeaturePoint, SetDescriptor fuel poImg poPoint = some p ∧
          ∀ q, q < 16 →
            p.descAt (4 * q + 2) ≥ |p.descAt (4 * q)| ∧
            p.descAt (4 * q + 3) ≥ |p.descAt (4 * q + 1)| ∧
            0 ≤ p.descAt (4 * q + 2) ∧ 0 ≤ p.descAt (4 * q + 3)) := by
  have hreg : regularPoint poPoint → st = ⟨64, specDescriptorWrites poImg poPoint⟩ := by
    intro hs
    have h1 := SetDescriptorWrites_mono fuel (max fuel 6) (Nat.le_max_left _ _) poImg poPoint st h
    rw [SetDescriptorWrites_eq_spec (max fuel 6)
      (Nat.lt_of_lt_of_le (by decide) (Nat.le_max_right fuel 6)) poImg poPoint hs] at h1
    exact (Option.some.inj h1).symm
  obtain ⟨quads, hc, hwr, hdom⟩ := SetDescriptorWrites_inv fuel poImg poPoint st h
  refine ⟨⟨quads, hc, hwr, fun s hs => ?_, fun p hp q hq => ?_⟩, fun hs h1 h2 => ?_,
    fun hs => ?_, specQuadrant_bounds poImg poPoint, fun hs hd => ?_⟩
  · obtain ⟨b1, b2⟩ := hdom s hs
    exact ⟨b1, b2, le_trans (abs_nonneg _) b1, le_trans (abs_nonneg _) b2⟩
  · exact SetDescriptor_dominated fuel poImg poPoint p st h hp q (by omega)
  · rw [SetDescriptorWrites_of_nonpos fuel poImg poPoint hs h1 h2 st h]
  · rw [hreg hs]
    rfl
  · have hst := hreg hs
    have hsome : ∃ p, SetDescriptor fuel poImg poPoint = some p := by
      unfold SetDescriptor
      rw [h, hst]
      simp only [hd, le_refl, if_true]
      exact ⟨_, rfl⟩
    obtain ⟨p, hp⟩ := hsome
    exact ⟨p, hp, fun q hq =>
      SetDescriptor_dominated fuel poImg poPoint p st h hp q (by rw [hst]; simp only; omega)⟩

/-- C20 at a concrete input: the point of scale 2 at (40, 30); its first
quadrant holds the sums 1475, -250, 1475, 250. -/
theorem C20_abs_sums_dominate_witness :
    SetDescriptorWrites 6 exampleImage examplePoint =
        some ⟨64, specDescriptorWrites exampleImage examplePoint⟩ ∧
      (SetDescriptor 6 exampleImage examplePoint).map
        (fun p => p.padfDescriptor.take 4) = some [1475, -250, 1475, 250] ∧
      (∃ quads : List QuadSums, 64 = 4 * quads.length ∧
        specDescriptorWrites exampleImage examplePoint = layoutFrom 0 quads ∧
        (∀ s ∈ quads, |s.dx| ≤ s.abs_dx ∧ |s.dy| ≤ s.abs_dy ∧ 0 ≤ s.abs_dx ∧ 0 ≤ s.abs_dy) ∧
        ∀ p : GDALFeaturePoint, SetDescriptor 6 exampleImage examplePoint = some p →
          ∀ q, q < quads.length →
            p.descAt (4 * q + 2) ≥ |p.descAt (4 * q)| ∧
            p.descAt (4 * q + 3) ≥ |p.descAt (4 * q + 1)| ∧
            0 ≤ p.descAt (4 * q + 2) ∧ 0 ≤ p.descAt (4 * q + 3)) :=
  ⟨by decide!, by decide!,
    (C20_abs_sums_dominate 6 exampleImage examplePoint
      ⟨64, specDescriptorWrites exampleImage examplePoint⟩ (by decide!)).1⟩

/-! ## Lemmas on ConvertRGBToLuminosity -/

theorem foldl_setCell_cols (f : Nat → ℚ) (row : Nat) (n : Nat) (img : Nat → Nat → ℚ) :
    (List.range n).foldl (fun img2 col => setCell img2 row col (f col)) img =
      fun r c => if r = row ∧ c < n then f c else img r c := by
  induction n with
  | zero => funext r c; simp
  | succ n ih =>
    rw [List.range_succ, List.foldl_append, ih]
    funext r c
    simp only [List.foldl_cons, List.foldl_nil, setCell]
    by_cases hr : r = row
    · by_cases hc : c = n
      · simp [hr, hc]
      · by_cases hlt : c < n
        · have : c < n + 1 := Nat.lt_succ_of_lt hlt
          simp [hr, hc, hlt, this]
        · have : ¬ c < n + 1 := by omega
          simp [hr, hc, hlt, this]
    · simp [hr]

theorem foldl_setCell_rows (f : Nat → Nat → ℚ) (w n : Nat) (img : Nat → Nat → ℚ) :
    (List.range n).foldl (fun img1 row => (List.range w).foldl
        (fun img2 col => setCell img2 row col (f row col)) img1) img =
      fun r c => if r < n ∧ c < w then f r c else img r c := by
  induction n with
  | zero => funext r c; simp
  | succ n ih =>
    rw [List.range_succ, List.foldl_append, ih]
    simp only [List.foldl_cons, List.foldl_nil]
    rw [foldl_setCell_cols (f n) n w]
    funext r c
    by_cases hr : r = n
    · by_cases hc : c < w
      · simp [hr, hc]
      · simp [hr, hc]
    · by_cases hlt : r < n
      · have : r < n + 1 := Nat.lt_succ_of_lt hlt
        simp [hr, hlt, this]
      · have : ¬ r < n + 1 := by omega
        simp [hr, hlt, this]

/-- What a successful call writes: every cell of the requested window gets the
luminosity of the samples at the indices `nWidth * row + col * dataSize`; the
other cells keep their value. -/
theorem ConvertRGBToLuminosity_success (red green blue : GDALRasterBand) (nXSize nYSize : Int)
    (img : Nat → Nat → ℚ) (nHeight nWidth : Int)
    (hx : nXSize ≤ red.nXSize) (hy : nYSize ≤ red.nYSize) :
    ConvertRGBToLuminosity (some red) (some green) (some blue) nXSize nYSize (some img)
        nHeight nWidth =
      (CPLErr.CE_None, some (fun r c =>
        if r < nHeight.toNat ∧ c < nWidth.toNat then
          luminosityAt ( GDALRasterBand.RasterIO red nXSize nYSize nWidth nHeight)
            ( GDALRasterBand.RasterIO green nXSize nYSize nWidth nHeight)
            ( GDALRasterBand.RasterIO blue nXSize nYSize nWidth nHeight)
            (red.nDataTypeSize.tdiv 8) (green.nDataTypeSize.tdiv 8)
            (blue.nDataTypeSize.tdiv 8) nWidth r c
        else img r c)) := by
  unfold ConvertRGBToLuminosity
  have hn : ¬ (nXSize > red.nXSize ∨ nYSize > red.nYSize) := by
    rintro (h | h)
    · exact absurd hx (not_le.mpr h)
    · exact absurd hy (not_le.mpr h)
  simp only [hn, if_false]
  rw [foldl_setCell_rows]
theorem luminosityAt_eq_spec (paRedLayer paGreenLayer paBlueLayer : Int → ℚ)
    (dataRedSize dataGreenSize dataBlueSize nWidth : Int) (row col : Nat) :
    luminosityAt paRedLayer paGreenLayer paBlueLayer dataRedSize dataGreenSize dataBlueSize
        nWidth row col =
      specLuminosity (paRedLayer (nWidth * (row : Int) + (col : Int) * dataRedSize))
        (paGreenLayer (nWidth * (row : Int) + (col : Int) * dataGreenSize))
        (paBlueLayer (nWidth * (row : Int) + (col : Int) * dataBlueSize)) := by
  unfold luminosityAt specLuminosity
  ring

/-- On three bands of 8-bit samples a successful call writes, at every cell of
the requested window, the luminosity of the three samples at the flat position
`nWidth * row + col`. -/
theorem ConvertRGBToLuminosity_of_bytes (red green blue : GDALRasterBand) (nXSize nYSize : Int)
    (img : Nat → Nat → ℚ) (nHeight nWidth : Int)
    (hx : nXSize ≤ red.nXSize) (hy : nYSize ≤ red.nYSize)
    (hr : red.nDataTypeSize = 8) (hg : green.nDataTypeSize = 8) (hb : blue.nDataTypeSize = 8) :
    ∃ out : Nat → Nat → ℚ,
      ConvertRGBToLuminosity (some red) (some green) (some blue) nXSize nYSize (some img)
        nHeight nWidth = (CPLErr.CE_None, some out) ∧
      ∀ row col : Nat, (row : Int) < nHeight → (col : Int) < nWidth →
        out row col =
          specLuminosity
            ( GDALRasterBand.RasterIO red nXSize nYSize nWidth nHeight (nWidth * (row : Int) + (col : Int)))
            ( GDALRasterBand.RasterIO green nXSize nYSize nWidth nHeight (nWidth * (row : Int) + (col : Int)))
            ( GDALRasterBand.RasterIO blue nXSize nYSize nWidth nHeight (nWidth * (row : Int) + (col : Int))) := by
  refine ⟨_, ConvertRGBToLuminosity_success red green blue nXSize nYSize img nHeight nWidth hx hy,
    fun row col hrow hcol => ?_⟩
  have h1 : row < nHeight.toNat := by omega
  have h2 : col < nWidth.toNat := by omega
  simp only [h1, h2, and_self, if_true]
  rw [luminosityAt_eq_spec, hr, hg, hb]
  have h8 : (8 : Int).tdiv 8 = 1 := by decide
  simp only [h8, mul_one]

/-- C13 (the code at a failing input): three bands of 16-bit samples over a 2
by 2 window whose buffers hold 10, 20, 30, 40 at the flat positions 0, 1, 2, 3.
At the pixel (row 0, column 1), flat position 1 with samples 20, the call
writes the luminosity of the samples 30 at the index `2 * 0 + 1 * 2 = 2`,
the pixel (1, 0). With 8-bit samples the same call writes the luminosity of the samples
20. In exact arithmetic the luminosity of (255, 255, 255) is 1 and that of
(0, 0, 0) is 0, also through the code. -/
theorem C13_luminosity_at_failing_input :
    (ConvertRGBToLuminosity (some (exampleBand 16)) (some (exampleBand 16))
        (some (exampleBand 16)) 2 2 (some (fun _ _ => 0)) 2 2).1 = CPLErr.CE_None ∧
      (ConvertRGBToLuminosity (some (exampleBand 16)) (some (exampleBand 16))
        (some (exampleBand 16)) 2 2 (some (fun _ _ => 0)) 2 2).2.map (fun img => img 0 1) =
        some (specLuminosity 30 30 30) ∧
      specLuminosity 30 30 30 ≠ specLuminosity 20 20 20 ∧
      GDALRasterBand.RasterIO (exampleBand 16) 2 2 2 2 (2 * 0 + 1) = 20 ∧
      (ConvertRGBToLuminosity (some (exampleBand 8)) (some (exampleBand 8))
        (some (exampleBand 8)) 2 2 (some (fun _ _ => 0)) 2 2).2.map (fun img => img 0 1) =
        some (specLuminosity 20 20 20) ∧
      specLuminosity 255 255 255 = 1 ∧ specLuminosity 0 0 0 = 0 ∧
      (ConvertRGBToLuminosity (some (constantBand 255)) (some (constantBand 255))
        (some (constantBand 255)) 2 2 (some (fun _ _ => 0)) 2 2).2.map (fun img => img 1 1) =
        some 1 ∧
      (ConvertRGBToLuminosity (some (constantBand 0)) (some (constantBand 0))
        (some (constantBand 0)) 2 2 (some (fun _ _ => 7)) 2 2).2.map (fun img => img 1 1) =
        some 0 := by
  decide!

/-- C14: the call returns `CE_Failure` exactly when a band is `NULL`, or the
output buffer is `NULL`, or `nXSize` exceeds the X size of the red band, or
`nYSize` exceeds its Y size; when it fails the output buffer is what it was;
and the status is the same whatever green and blue bands are passed. -/
theorem C14_luminosity_failure_iff (red green blue : Option GDALRasterBand)
    (nXSize nYSize : Int) (padfImg : Option (Nat → Nat → ℚ)) (nHeight nWidth : Int) :
    ((ConvertRGBToLuminosity red green blue nXSize nYSize padfImg nHeight nWidth).1 =
          CPLErr.CE_Failure ↔
        (red = none ∨ green = none ∨ blue = none ∨ padfImg = none ∨
          ∃ r, red = some r ∧ (nXSize > r.nXSize ∨ nYSize > r.nYSize))) ∧
      ((ConvertRGBToLuminosity red green blue nXSize nYSize padfImg nHeight nWidth).1 =
          CPLErr.CE_Failure →
        (ConvertRGBToLuminosity red green blue nXSize nYSize padfImg nHeight nWidth).2 =
          padfImg) ∧
      (∀ g1 g2 b1 b2 : GDALRasterBand,
        (ConvertRGBToLuminosity red (some g1) (some b1) nXSize nYSize padfImg nHeight nWidth).1 =
          (ConvertRGBToLuminosity red (some g2) (some b2) nXSize nYSize padfImg
            nHeight nWidth).1) := by
  refine ⟨?_, ?_, ?_⟩
  · cases red with
    | none => simp [ConvertRGBToLuminosity]
    | some r =>
      cases green with
      | none => simp [ConvertRGBToLuminosity]
      | some g =>
        cases blue with
        | none => simp [ConvertRGBToLuminosity]
        | some b =>
          by_cases hsz : nXSize > r.nXSize ∨ nYSize > r.nYSize
          · simp only [ConvertRGBToLuminosity, hsz, if_true, true_iff]
            exact Or.inr (Or.inr (Or.inr (Or.inr ⟨r, rfl, hsz⟩)))
          · cases padfImg with
            | none => simp [ConvertRGBToLuminosity, hsz]
            | some img =>
              simp only [ConvertRGBToLuminosity, hsz, if_false]
              constructor
              · intro h; exact absurd h (by decide)
              · rintro (h | h | h | h | ⟨r1, hr1, hr2⟩)
                · exact absurd h (by simp)
                · exact absurd h (by simp)
                · exact absurd h (by simp)
                · exact absurd h (by simp)
                · rw [Option.some.inj hr1] at hsz
                  exact absurd hr2 hsz
  · cases red with
    | none => simp [ConvertRGBToLuminosity]
    | some r =>
      cases green with
      | none => simp [ConvertRGBToLuminosity]
      | some g =>
        cases blue with
        | none => simp [ConvertRGBToLuminosity]
        | some b =>
          by_cases hsz : nXSize > r.nXSize ∨ nYSize > r.nYSize
          · simp [ConvertRGBToLuminosity, hsz]
          · cases padfImg with
            | none => simp [ConvertRGBToLuminosity, hsz]
            | some img =>
              simp only [ConvertRGBToLuminosity, hsz, if_false]
              intro h; exact absurd h (by decide)
  · intro g1 g2 b1 b2
    cases red with
    | none => simp [ConvertRGBToLuminosity]
    | some r =>
      by_cases hsz : nXSize > r.nXSize ∨ nYSize > r.nYSize
      · simp [ConvertRGBToLuminosity, hsz]
      · cases padfImg with
        | none => simp [ConvertRGBToLuminosity, hsz]
        | some img => simp [ConvertRGBToLuminosity, hsz]

/-! ## Lemmas on ExtractFeaturePoints -/

/-- When `SetDescriptor` returns it has changed the descriptor only. -/
theorem SetDescriptor_fields (fuel : Nat) (poImg : GDALIntegralImage)
    (poPoint p : GDALFeaturePoint) (h : SetDescriptor fuel poImg poPoint = some p) :
    p.nX = poPoint.nX ∧ p.nY = poPoint.nY ∧ p.nScale = poPoint.nScale ∧
      p.nRadius = poPoint.nRadius ∧ p.nSign = poPoint.nSign := by
  obtain ⟨st, _, _, hp⟩ := SetDescriptor_eq_some fuel poImg poPoint p h
  rw [hp]
  exact ⟨rfl, rfl, rfl, rfl, rfl⟩

/-- On an aligned point with a descriptor of at least 64 entries `SetDescriptor`
returns once the fuel exceeds 9. -/
theorem SetDescriptor_returns_of_aligned (fuel : Nat) (hfuel : 9 < fuel)
    (poImg : GDALIntegralImage) (poPoint : GDALFeaturePoint) (h : alignedPoint poPoint)
    (hd : 64 ≤ poPoint.padfDescriptor.length) :
    (SetDescriptor fuel poImg poPoint).isSome = true := by
  obtain ⟨F, hF⟩ := SetDescriptorWrites_of_aligned fuel hfuel poImg poPoint h
  unfold SetDescriptor
  rw [hF]
  simp only [hd, if_true]
  rfl

theorem foldlM_collect {α ι : Type} (l : List ι) (f : List α → ι → Option (List α))
    (g : ι → List α) (h : ∀ c i, i ∈ l → f c i = some (c ++ g i)) (c : List α) :
    l.foldlM f c = some (c ++ l.flatMap g) := by
  induction l generalizing c with
  | nil => simp
  | cons x xs ih =>
    rw [List.foldlM_cons, h c x (List.mem_cons_self _ _)]
    simp only [Option.some_bind, Option.bind_eq_bind]
    rw [ih (fun c1 i hi => h c1 i (List.mem_cons_of_mem _ hi))]
    simp [List.flatMap_cons, List.append_assoc]

/-- A fold that returns has had every one of its steps return. -/
theorem foldlM_some_forall {σ ι : Type} (f : σ → ι → Option σ) (P : ι → Prop) (l : List ι)
    (h : ∀ c i r, i ∈ l → f c i = some r → P i) :
    ∀ c r, l.foldlM f c = some r → ∀ i ∈ l, P i := by
  induction l with
  | nil => intro c r _ i hi; exact absurd hi (List.not_mem_nil i)
  | cons x xs ih =>
    intro c r hr i hi
    rw [List.foldlM_cons] at hr
    cases hx : f c x with
    | none => simp [hx] at hr
    | some c1 =>
      simp only [hx, Option.some_bind, Option.bind_eq_bind] at hr
      rcases List.mem_cons.mp hi with rfl | hmem
      · exact h c i c1 (List.mem_cons_self _ _) hx
      · exact ih (fun c2 j r2 hj hf => h c2 j r2 (List.mem_cons_of_mem _ hj) hf) c1 r hr i hmem

theorem flatMap_ite_singleton {α ι : Type} (l : List ι) (p : ι → Bool) (f : ι → α) :
    l.flatMap (fun j => if p j = true then [f j] else []) = (l.filter p).map f := by
  induction l with
  | nil => rfl
  | cons x xs ih =>
    rw [List.flatMap_cons, ih]
    by_cases hp : p x = true
    · simp [hp]
    · simp [hp]

theorem extractCell_eq (fuel : Nat) (poOctMap : GDALOctaveMap)
    (poImg : GDALIntegralImage) (dfThreshold : ℚ) (oct : Int) (k i j : Nat)
    (coll : List GDALFeaturePoint)
    (hret : specIsExtremum poOctMap dfThreshold (oct, k, i, j) = true →
      (SetDescriptor fuel poImg
        (newFeaturePoint (poOctMap.pMap (oct - 1) (k + 1)) i j)).isSome = true) :
    extractCell fuel poOctMap poImg dfThreshold (poOctMap.pMap (oct - 1) k)
        (poOctMap.pMap (oct - 1) (k + 1)) (poOctMap.pMap (oct - 1) (k + 2)) i coll j =
      some (coll ++ (if specIsExtremum poOctMap dfThreshold (oct, k, i, j) = true then
        [specPoint fuel poOctMap poImg (oct, k, i, j)] else [])) := by
  unfold specIsExtremum at hret
  unfold extractCell specIsExtremum specPoint
  by_cases hext : poOctMap.PointIsExtremum i j (poOctMap.pMap (oct - 1) k)
      (poOctMap.pMap (oct - 1) (k + 1)) (poOctMap.pMap (oct - 1) (k + 2)) dfThreshold = true
  · obtain ⟨p, hp⟩ := Option.isSome_iff_exists.mp (hret hext)
    simp only [hext, if_true, hp, Option.getD_some]
  · simp only [hext, if_false, List.append_nil]
    simp

theorem extractCell_some (fuel : Nat) (poOctMap : GDALOctaveMap)
    (poImg : GDALIntegralImage) (dfThreshold : ℚ) (oct : Int) (k i j : Nat)
    (coll r : List GDALFeaturePoint)
    (h : extractCell fuel poOctMap poImg dfThreshold (poOctMap.pMap (oct - 1) k)
        (poOctMap.pMap (oct - 1) (k + 1)) (poOctMap.pMap (oct - 1) (k + 2)) i coll j = some r) :
    specIsExtremum poOctMap dfThreshold (oct, k, i, j) = true →
      (SetDescriptor fuel poImg
        (newFeaturePoint (poOctMap.pMap (oct - 1) (k + 1)) i j)).isSome = true := by
  intro hext
  unfold specIsExtremum at hext
  unfold extractCell at h
  simp only [hext, if_true] at h
  cases hs : SetDescriptor fuel poImg (newFeaturePoint (poOctMap.pMap (oct - 1) (k + 1)) i j) with
  | none => simp [hs] at h
  | some p => rfl

theorem mem_filtered_tuples (octaveStart octaveEnd : Int) (poOctMap : GDALOctaveMap)
    (dfThreshold : ℚ) (oct : Int) (k i j : Nat) :
    (oct, k, i, j) ∈ (specTuples octaveStart octaveEnd poOctMap).filter
        (specIsExtremum poOctMap dfThreshold) ↔
      oct ∈ octaveRange octaveStart octaveEnd ∧
        k ∈ List.range (poOctMap.INTERVALS - 2).toNat ∧
        i ∈ List.range (poOctMap.pMap (oct - 1) (k + 1)).height.toNat ∧
        j ∈ List.range (poOctMap.pMap (oct - 1) (k + 1)).width.toNat ∧
        specIsExtremum poOctMap dfThreshold (oct, k, i, j) = true := by
  unfold specTuples
  simp only [List.mem_filter, List.mem_flatMap, List.mem_map, Prod.mk.injEq]
  constructor
  · rintro ⟨⟨o, ho, k1, hk1, i1, hi1, j1, hj1, rfl, rfl, rfl, rfl⟩, hext⟩
    exact ⟨ho, hk1, hi1, hj1, hext⟩
  · rintro ⟨ho, hk, hi, hj, hext⟩
    exact ⟨⟨oct, ho, k, hk, i, hi, j, hj, rfl, rfl, rfl, rfl⟩, hext⟩

/-- When every call of `SetDescriptor` made for a scanned extremum returns, the
call returns the collection followed by one point per tuple that passes the
extremum test, in the order of the tuples. -/
theorem ExtractFeaturePoints_eq_spec (fuel : Nat)
    (octaveStart octaveEnd : Int) (poOctMap : GDALOctaveMap) (poImg : GDALIntegralImage)
    (poCollection : List GDALFeaturePoint) (dfThreshold : ℚ)
    (hret : ∀ t ∈ (specTuples octaveStart octaveEnd poOctMap).filter
        (specIsExtremum poOctMap dfThreshold),
      (SetDescriptor fuel poImg (newFeaturePoint (poOctMap.pMap (t.1 - 1) (t.2.1 + 1))
        t.2.2.1 t.2.2.2)).isSome = true) :
    ExtractFeaturePoints fuel octaveStart octaveEnd poOctMap poImg poCollection dfThreshold =
      some (poCollection ++
        ((specTuples octaveStart octaveEnd poOctMap).filter
          (specIsExtremum poOctMap dfThreshold)).map (specPoint fuel poOctMap poImg)) := by
  unfold ExtractFeaturePoints
  rw [foldlM_collect _ _ (fun oct =>
    (List.range (poOctMap.INTERVALS - 2).toNat).flatMap (fun k =>
      (List.range (poOctMap.pMap (oct - 1) (k + 1)).height.toNat).flatMap (fun i =>
        (List.range (poOctMap.pMap (oct - 1) (k + 1)).width.toNat).flatMap (fun j =>
          if specIsExtremum poOctMap dfThreshold (oct, k, i, j) = true then
            [specPoint fuel poOctMap poImg (oct, k, i, j)] else []))))]
  · unfold specTuples
    simp only [List.filter_flatMap, List.map_flatMap, List.filter_map, List.map_map,
      flatMap_ite_singleton]
    rfl
  · intro c1 oct ho
    apply foldlM_collect
    intro c2 k hk
    apply foldlM_collect
    intro c3 i hi
    apply foldlM_collect
    intro c4 j hj
    exact extractCell_eq fuel poOctMap poImg dfThreshold oct k i j c4 (fun hext =>
      hret (oct, k, i, j) ((mem_filtered_tuples octaveStart octaveEnd poOctMap dfThreshold
        oct k i j).mpr ⟨ho, hk, hi, hj, hext⟩))

/-- A call of `ExtractFeaturePoints` that returns has had every call of
`SetDescriptor` made for a scanned extremum return. -/
theorem ExtractFeaturePoints_some_only_if (fuel : Nat)
    (octaveStart octaveEnd : Int) (poOctMap : GDALOctaveMap) (poImg : GDALIntegralImage)
    (poCollection r : List GDALFeaturePoint) (dfThreshold : ℚ)
    (h : ExtractFeaturePoints fuel octaveStart octaveEnd poOctMap poImg poCollection
      dfThreshold = some r) :
    ∀ t ∈ (specTuples octaveStart octaveEnd poOctMap).filter
        (specIsExtremum poOctMap dfThreshold),
      (SetDescriptor fuel poImg (newFeaturePoint (poOctMap.pMap (t.1 - 1) (t.2.1 + 1))
        t.2.2.1 t.2.2.2)).isSome = true := by
  rintro ⟨oct, k, i, j⟩ ht
  obtain ⟨ho, hk, hi, hj, hext⟩ :=
    (mem_filtered_tuples octaveStart octaveEnd poOctMap dfThreshold oct k i j).mp ht
  unfold ExtractFeaturePoints at h
  have h1 := foldlM_some_forall _
    (fun oct => ∀ k ∈ List.range (poOctMap.INTERVALS - 2).toNat,
      ∀ i ∈ List.range (poOctMap.pMap (oct - 1) (k + 1)).height.toNat,
      ∀ j ∈ List.range (poOctMap.pMap (oct - 1) (k + 1)).width.toNat,
        specIsExtremum poOctMap dfThreshold (oct, k, i, j) = true →
          (SetDescriptor fuel poImg
            (newFeaturePoint (poOctMap.pMap (oct - 1) (k + 1)) i j)).isSome = true)
    _ (fun c1 o r1 _ hf1 => ?_) poCollection r h oct ho
  · exact h1 k hk i hi j hj hext
  · refine foldlM_some_forall _ _ _ (fun c2 k1 r2 _ hf2 => ?_) c1 r1 hf1
    refine foldlM_some_forall _ _ _ (fun c3 i1 r3 _ hf3 => ?_) c2 r2 hf2
    refine foldlM_some_forall _ _ _ (fun c4 j1 r4 _ hf4 => ?_) c3 r3 hf3
    exact extractCell_some fuel poOctMap poImg dfThreshold o k1 i1 j1 c4 r4 hf4

theorem octaveRange_pairwise (octaveStart octaveEnd : Int) :
    (octaveRange octaveStart octaveEnd).Pairwise (fun a b => a < b) := by
  unfold octaveRange
  rw [List.pairwise_map]
  refine (List.pairwise_lt_range _).imp ?_
  intro a b hab
  have h : a < b := hab
  show octaveStart + (a : Int) < octaveStart + (b : Int)
  omega

theorem mem_octaveRange (octaveStart octaveEnd oct : Int) :
    oct ∈ octaveRange octaveStart octaveEnd ↔ octaveStart ≤ oct ∧ oct ≤ octaveEnd := by
  unfold octaveRange
  constructor
  · intro h
    obtain ⟨d, hd, hd2⟩ := List.mem_map.mp h
    have hd3 : d < (octaveEnd + 1 - octaveStart).toNat := List.mem_range.mp hd
    have hd4 : ((d : Nat) : Int) < octaveEnd + 1 - octaveStart := by
      by_contra hcon
      have hle : octaveEnd + 1 - octaveStart ≤ (d : Int) := not_lt.mp hcon
      have := Int.toNat_le_toNat hle
      simp only [Int.toNat_ofNat] at this
      omega
    have hd5 : octaveStart + (d : Int) = oct := hd2
    omega
  · rintro ⟨h1, h2⟩
    have hnn : 0 ≤ oct - octaveStart := by omega
    have hcast : ((oct - octaveStart).toNat : Int) = oct - octaveStart := Int.toNat_of_nonneg hnn
    refine List.mem_map.mpr ⟨(oct - octaveStart).toNat, List.mem_range.mpr ?_, ?_⟩
    · have hlt : oct - octaveStart < octaveEnd + 1 - octaveStart := by omega
      have hpos : 0 < octaveEnd + 1 - octaveStart := by omega
      exact (Int.toNat_lt_toNat hpos).mpr hlt
    · show octaveStart + ((oct - octaveStart).toNat : Int) = oct
      rw [hcast]
      ring

/-- The tuples are scanned in strictly ascending lexicographic order. -/
theorem specTuples_pairwise (octaveStart octaveEnd : Int) (poOctMap : GDALOctaveMap) :
    (specTuples octaveStart octaveEnd poOctMap).Pairwise tupleLt := by
  unfold specTuples
  rw [List.pairwise_flatMap]
  refine ⟨fun oct _ => ?_, (octaveRange_pairwise octaveStart octaveEnd).imp ?_⟩
  · rw [List.pairwise_flatMap]
    refine ⟨fun k _ => ?_, (List.pairwise_lt_range _).imp ?_⟩
    · rw [List.pairwise_flatMap]
      refine ⟨fun i _ => ?_, (List.pairwise_lt_range _).imp ?_⟩
      · rw [List.pairwise_map]
        exact (List.pairwise_lt_range _).imp
          (fun hab => Or.inr ⟨rfl, Or.inr ⟨rfl, Or.inr ⟨rfl, hab⟩⟩⟩)
      · intro i1 i2 hlt x hx y hy
        obtain ⟨j1, _, rfl⟩ := List.mem_map.mp hx
        obtain ⟨j2, _, rfl⟩ := List.mem_map.mp hy
        exact Or.inr ⟨rfl, Or.inr ⟨rfl, Or.inl hlt⟩⟩
    · intro k1 k2 hlt x hx y hy
      obtain ⟨i1, _, hx1⟩ := List.mem_flatMap.mp hx
      obtain ⟨j1, _, rfl⟩ := List.mem_map.mp hx1
      obtain ⟨i2, _, hy1⟩ := List.mem_flatMap.mp hy
      obtain ⟨j2, _, rfl⟩ := List.mem_map.mp hy1
      exact Or.inr ⟨rfl, Or.inl hlt⟩
  · intro o1 o2 hlt x hx y hy
    obtain ⟨k1, _, hx0⟩ := List.mem_flatMap.mp hx
    obtain ⟨i1, _, hx1⟩ := List.mem_flatMap.mp hx0
    obtain ⟨j1, _, rfl⟩ := List.mem_map.mp hx1
    obtain ⟨k2, _, hy0⟩ := List.mem_flatMap.mp hy
    obtain ⟨i2, _, hy1⟩ := List.mem_flatMap.mp hy0
    obtain ⟨j2, _, rfl⟩ := List.mem_map.mp hy1
    exact Or.inl hlt

/-- A tuple is scanned exactly when its octave is in the range, its `k` in
`[0, INTERVALS - 3]` and `(i, j)` is a cell of the mid layer. -/
theorem mem_specTuples (octaveStart octaveEnd : Int) (poOctMap : GDALOctaveMap)
    (oct : Int) (k i j : Nat) :
    (oct, k, i, j) ∈ specTuples octaveStart octaveEnd poOctMap ↔
      (octaveStart ≤ oct ∧ oct ≤ octaveEnd) ∧ (k : Int) ≤ poOctMap.INTERVALS - 3 ∧
        (i : Int) < (poOctMap.pMap (oct - 1) (k + 1)).height ∧
        (j : Int) < (poOctMap.pMap (oct - 1) (k + 1)).width := by
  unfold specTuples
  simp only [List.mem_flatMap, List.mem_map, List.mem_range, Prod.mk.injEq, mem_octaveRange]
  constructor
  · rintro ⟨o, ho, k1, hk1, i1, hi1, j1, hj1, rfl, rfl, rfl, rfl⟩
    refine ⟨ho, by omega, by omega, by omega⟩
  · rintro ⟨ho, hk, hi, hj⟩
    exact ⟨oct, ho, k, by omega, i, by omega, j, by omega, rfl, rfl, rfl, rfl⟩

/-- The point of a tuple has the coordinates of its cell and the scale, radius
and sign of the mid layer, whether or not `SetDescriptor` returns for it. -/
theorem specPoint_fields (fuel : Nat) (poOctMap : GDALOctaveMap)
    (poImg : GDALIntegralImage) (t : Int × Nat × Nat × Nat) :
    (specPoint fuel poOctMap poImg t).nX = (t.2.2.2 : Int) ∧
      (specPoint fuel poOctMap poImg t).nY = (t.2.2.1 : Int) ∧
      (specPoint fuel poOctMap poImg t).nScale = (poOctMap.pMap (t.1 - 1) (t.2.1 + 1)).scale ∧
      (specPoint fuel poOctMap poImg t).nRadius = (poOctMap.pMap (t.1 - 1) (t.2.1 + 1)).radius ∧
      (specPoint fuel poOctMap poImg t).nSign =
        (poOctMap.pMap (t.1 - 1) (t.2.1 + 1)).signs t.2.2.1 t.2.2.2 := by
  unfold specPoint
  cases hs : SetDescriptor fuel poImg
      (newFeaturePoint (poOctMap.pMap (t.1 - 1) (t.2.1 + 1)) t.2.2.1 t.2.2.2) with
  | none => exact ⟨rfl, rfl, rfl, rfl, rfl⟩
  | some p =>
    obtain ⟨h1, h2, h3, h4, h5⟩ := SetDescriptor_fields fuel poImg _ p hs
    rw [Option.getD_some]
    exact ⟨h1, h2, h3, h4, h5⟩

end GDALSimpleSURF
